import Mathlib

/-!
# DOCSIS Upstream Channel Descriptor dissection

A shallow embedding of `dissect_ucd` (plugins/docsis/packet-ucd.c): the header
parser, the top-level TLV loop and the two burst descriptor sub-TLV loops, as
state-passing functions over an explicit dissection state.

Conventions.
* `int pos`, `endtlvpos` and `gint len` are natural numbers: they start at 4 and
  only grow, and `endtlvpos = pos + length - 1` is computed after `pos++`, so no
  subtraction goes below zero and no value comes near 2^31.
* A `guint8` read yields a natural number below 256.
* The calls that build the protocol tree, the expert infos and the info column
  are recorded, in call order, in the dissection state.
* The loops carry a fuel argument: the top-level loop gets the length of the
  buffer, the loop of a burst descriptor its declared length. This is always
  enough (`dissect_ucd_total`).
-/

/-- One octet of the message. -/
abbrev guint8 := Fin 256

/-- Modelled from the spec: the tvbuff of epan is not part of the sources. The
buffer is the immutable byte sequence of one message; its reported length is
the number of its bytes. -/
abbrev tvbuff_t := List guint8

/-- A value_string table: pairs of a value and its name (the terminating
`{0, NULL}` entry is the end of the list). -/
abbrev value_string := List (Nat × String)

@[match_pattern] def UCD_SYMBOL_RATE : Nat := 1
@[match_pattern] def UCD_FREQUENCY : Nat := 2
@[match_pattern] def UCD_PREAMBLE : Nat := 3
@[match_pattern] def UCD_BURST_DESCR : Nat := 4
@[match_pattern] def UCD_BURST_DESCR5 : Nat := 5

@[match_pattern] def UCD_MODULATION : Nat := 1
@[match_pattern] def UCD_DIFF_ENCODING : Nat := 2
@[match_pattern] def UCD_PREAMBLE_LEN : Nat := 3
@[match_pattern] def UCD_PREAMBLE_VAL_OFF : Nat := 4
@[match_pattern] def UCD_FEC : Nat := 5
@[match_pattern] def UCD_FEC_CODEWORD : Nat := 6
@[match_pattern] def UCD_SCRAMBLER_SEED : Nat := 7
@[match_pattern] def UCD_MAX_BURST : Nat := 8
@[match_pattern] def UCD_GUARD_TIME : Nat := 9
@[match_pattern] def UCD_LAST_CW_LEN : Nat := 10
@[match_pattern] def UCD_SCRAMBLER_ONOFF : Nat := 11
@[match_pattern] def UCD_RS_INT_DEPTH : Nat := 12
@[match_pattern] def UCD_RS_INT_BLOCK : Nat := 13
@[match_pattern] def UCD_PREAMBLE_TYPE : Nat := 14

def channel_tlv_vals : value_string :=
  [(1, "Symbol Rate"),
   (2, "Frequency"),
   (3, "Preamble Pattern"),
   (4, "Burst Descriptor"),
   (5, "Burst Descriptor DOCSIS 2.0")]

def on_off_vals : value_string :=
  [(1, "On"),
   (2, "Off")]

def mod_vals : value_string :=
  [(1, "QPSK"),
   (2, "QAM16")]

def iuc_vals : value_string :=
  [(1, "Request"),
   (2, "REQ/Data"),
   (3, "Initial Maintenance"),
   (4, "Station Maintenance"),
   (5, "Short Data Grant"),
   (6, "Long Data Grant"),
   (7, "NULL IE"),
   (8, "Data Ack"),
   (9, "Advanced Phy Short Data Grant"),
   (10, "Advanced Phy Long Data Grant"),
   (11, "Advanced Phy UGS"),
   (12, "Reserved"),
   (13, "Reserved"),
   (14, "Reserved"),
   (15, "Expanded IUC")]

def last_cw_len_vals : value_string :=
  [(1, "Fixed"),
   (2, "Shortened")]

/-- The registered fields (the `hf_...` variables of the file). -/
inductive hf_index where
  | hf_docsis_ucd_upstream_chid
  | hf_docsis_ucd_config_ch_cnt
  | hf_docsis_ucd_mini_slot_size
  | hf_docsis_ucd_down_chid
  | hf_docsis_ucd_type
  | hf_docsis_ucd_length
  | hf_docsis_ucd_symbol_rate
  | hf_docsis_ucd_frequency
  | hf_docsis_ucd_preamble_pat
  | hf_docsis_ucd_iuc
  | hf_docsis_burst_mod_type
  | hf_docsis_burst_diff_encoding
  | hf_docsis_burst_preamble_len
  | hf_docsis_burst_preamble_val_off
  | hf_docsis_burst_fec
  | hf_docsis_burst_fec_codeword
  | hf_docsis_burst_scrambler_seed
  | hf_docsis_burst_max_burst
  | hf_docsis_burst_guard_time
  | hf_docsis_burst_last_cw_len
  | hf_docsis_burst_scrambler_onoff
  | hf_docsis_rs_int_depth
  | hf_docsis_rs_int_block
  | hf_docsis_preamble_type
deriving DecidableEq, Repr

open hf_index

/-- Field types used by the registration table. -/
inductive ftenum where
  | FT_UINT8
  | FT_UINT16
  | FT_UINT32
  | FT_BYTES
deriving DecidableEq, Repr

open ftenum

/-- One entry of the `hf[]` array of `proto_register_docsis_ucd`: name,
abbreviation, type and value_string table (display base, bitmask and blurb are
left out). -/
structure header_field_info where
  name : String
  abbreviation : String
  type : ftenum
  strings : Option value_string
deriving DecidableEq, Repr

/-- The `hf[]` array of `proto_register_docsis_ucd`. -/
def hf : hf_index → header_field_info
  | hf_docsis_ucd_upstream_chid =>
      ⟨"Upstream Channel ID", "docsis_ucd.upchid", FT_UINT8, none⟩
  | hf_docsis_ucd_config_ch_cnt =>
      ⟨"Config Change Count", "docsis_ucd.confcngcnt", FT_UINT8, none⟩
  | hf_docsis_ucd_mini_slot_size =>
      ⟨"Mini Slot Size (6.25us TimeTicks)", "docsis_ucd.mslotsize", FT_UINT8, none⟩
  | hf_docsis_ucd_down_chid =>
      ⟨"Downstream Channel ID", "docsis_ucd.downchid", FT_UINT8, none⟩
  | hf_docsis_ucd_type =>
      ⟨"TLV Type", "docsis_ucd.type", FT_UINT8, some channel_tlv_vals⟩
  | hf_docsis_ucd_length =>
      ⟨"TLV Length", "docsis_ucd.length", FT_UINT8, none⟩
  | hf_docsis_ucd_symbol_rate =>
      ⟨"Symbol Rate (ksym/sec)", "docsis_ucd.symrate", FT_UINT8, none⟩
  | hf_docsis_ucd_frequency =>
      ⟨"Frequency (Hz)", "docsis_ucd.freq", FT_UINT32, none⟩
  | hf_docsis_ucd_preamble_pat =>
      ⟨"Preamble Pattern", "docsis_ucd.preamble", FT_BYTES, none⟩
  | hf_docsis_ucd_iuc =>
      ⟨"Interval Usage Code", "docsis_ucd.iuc", FT_UINT8, some iuc_vals⟩
  | hf_docsis_burst_mod_type =>
      ⟨"1 Modulation Type", "docsis_ucd.burst.modtype", FT_UINT8, some mod_vals⟩
  | hf_docsis_burst_diff_encoding =>
      ⟨"2 Differential Encoding", "docsis_ucd.burst.diffenc", FT_UINT8, some on_off_vals⟩
  | hf_docsis_burst_preamble_len =>
      ⟨"3 Preamble Length (Bits)", "docsis_ucd.burst.preamble_len", FT_UINT16, none⟩
  | hf_docsis_burst_preamble_val_off =>
      ⟨"4 Preamble Offset (Bits)", "docsis_ucd.burst.preamble_off", FT_UINT16, none⟩
  | hf_docsis_burst_fec =>
      ⟨"5 FEC (T)", "docsis_ucd.burst.fec", FT_UINT8, none⟩
  | hf_docsis_burst_fec_codeword =>
      ⟨"6 FEC Codeword Info bytes (k)", "docsis_ucd.burst.fec_codeword", FT_UINT8, none⟩
  | hf_docsis_burst_scrambler_seed =>
      ⟨"7 Scrambler Seed", "docsis_ucd.burst.scrambler_seed", FT_UINT16, none⟩
  | hf_docsis_burst_max_burst =>
      ⟨"8 Max Burst Size (Minislots)", "docsis_ucd.burst.maxburst", FT_UINT8, none⟩
  | hf_docsis_burst_guard_time =>
      ⟨"9 Guard Time Size (Symbol Times)", "docsis_ucd.burst.guardtime", FT_UINT8, none⟩
  | hf_docsis_burst_last_cw_len =>
      ⟨"10 Last Codeword Length", "docsis_ucd.burst.last_cw_len", FT_UINT8,
        some last_cw_len_vals⟩
  | hf_docsis_burst_scrambler_onoff =>
      ⟨"11 Scrambler On/Off", "docsis_ucd.burst.scrambleronoff", FT_UINT8, some on_off_vals⟩
  | hf_docsis_rs_int_depth =>
      ⟨"12 RS Interleaver Depth", "docsis_ucd.burst.rsintdepth", FT_UINT8, none⟩
  | hf_docsis_rs_int_block =>
      ⟨"13 RS Interleaver Block Size", "docsis_ucd.burst.rsintblock", FT_UINT8, none⟩
  | hf_docsis_preamble_type =>
      ⟨"14 Preamble Type", "docsis_ucd.burst.preambletype", FT_UINT8, none⟩

/-- Encodings passed to `proto_tree_add_item`. -/
inductive encoding where
  | ENC_BIG_ENDIAN
  | ENC_NA
deriving DecidableEq, Repr

open encoding

/-- The two subtrees the dissector adds items to. -/
inductive proto_tree where
  | ucd_tree
  | tlv_tree
deriving DecidableEq, Repr

open proto_tree

/-- The value of a field: an unsigned integer or a byte string. -/
inductive fvalue where
  | uinteger (n : Nat)
  | bytes (bs : List guint8)
deriving DecidableEq, Repr

/-- One call that builds the protocol tree. -/
inductive tree_op where
  | protocol_format (start : Nat) (length : Int) (text : String)
  | subtree (start : Nat) (length : Int) (text : String)
  | item (tree : proto_tree) (field : hf_index) (start length : Nat) (value : fvalue)
  | set_len (length : Nat)
deriving DecidableEq, Repr

/-- One `expert_add_info_format` call on `ei_docsis_ucd_tlvlen_bad`: the format
string and its `%u` argument. -/
structure expert_info where
  format : String
  arg : Nat
deriving DecidableEq, Repr

/-- Everything `dissect_ucd` writes: the info column, the tree-building calls
and the expert infos in call order, and the indices of the buffer bytes the
tvbuff accessors have read. -/
structure ucd_state where
  col_info : String
  tree : List tree_op
  expert : List expert_info
  reads : List Nat
deriving DecidableEq, Repr

/-- The state before dissection. -/
def ucd_state.init : ucd_state := ⟨"", [], [], []⟩

/-- How a piece of the dissector ends: normally with a value, with the bounds
exception of a tvbuff accessor, or because the fuel of a loop ran out. The
state written so far is kept in each case. -/
inductive outcome (α : Type) where
  | ok (val : α) (st : ucd_state)
  | bounds_error (st : ucd_state)
  | out_of_fuel (st : ucd_state)
deriving DecidableEq, Repr

/-- A piece of the dissector: a state transformer that may throw. -/
def dissector (α : Type) : Type := ucd_state → outcome α

def dissector.pure {α : Type} (a : α) : dissector α :=
  fun st => outcome.ok a st

def dissector.bind {α β : Type} (m : dissector α) (f : α → dissector β) : dissector β :=
  fun st =>
    match m st with
    | outcome.ok a st1 => f a st1
    | outcome.bounds_error st1 => outcome.bounds_error st1
    | outcome.out_of_fuel st1 => outcome.out_of_fuel st1

instance : Monad dissector where
  pure := dissector.pure
  bind := dissector.bind

/-- Modelled from the spec: printf of a format whose only conversions are `%u`,
each replaced by the decimal form of the next argument. -/
def format_u : List Char → List Nat → List Char
  | [], _ => []
  | [c], _ => [c]
  | c :: d :: cs, args =>
    if c = '%' ∧ d = 'u' then
      match args with
      | [] => format_u cs []
      | a :: rest => (toString a).data ++ format_u cs rest
    else c :: format_u (d :: cs) args

/-- Modelled from the spec: `g_strdup_printf` restricted to `%u`. -/
def printf_u (fmt : String) (args : List Nat) : String :=
  String.mk (format_u fmt.data args)

/-- Modelled from the spec: `try_val_to_str` of epan, the name of the first
entry of the table with the value. -/
def try_val_to_str (val : Nat) (vs : value_string) : Option String :=
  match vs with
  | [] => none
  | (v, s) :: rest => if v = val then some s else try_val_to_str val rest

/-- Modelled from the spec: `val_to_str` of epan, the name of the value or the
format applied to it. -/
def val_to_str (val : Nat) (vs : value_string) (fmt : String) : String :=
  match try_val_to_str val vs with
  | some s => s
  | none => printf_u fmt [val]

/-- Modelled from the spec: `tvb_reported_length_remaining` of epan. -/
def tvb_reported_length_remaining (tvb : tvbuff_t) (offset : Nat) : Nat :=
  tvb.length - offset

/-- Modelled from the spec: `tvb_get_guint8` of epan; a read outside the buffer
throws the bounds exception. -/
def tvb_get_guint8 (tvb : tvbuff_t) (offset : Nat) : dissector Nat :=
  fun st =>
    match tvb[offset]?, st with
    | some b, ⟨c, t, e, r⟩ => outcome.ok b.val ⟨c, t, e, r ++ [offset]⟩
    | none, st => outcome.bounds_error st

/-- Modelled from the spec: the big-endian unsigned integer of a byte string. -/
def get_uint_value (bs : List guint8) : Nat :=
  bs.foldl (fun acc b => acc * 256 + b.val) 0

/-- Modelled from the spec: the value `proto_tree_add_item` decodes for a field
of the given type from its bytes. -/
def decode_value (t : ftenum) (bs : List guint8) : fvalue :=
  match t with
  | FT_BYTES => fvalue.bytes bs
  | _ => fvalue.uinteger (get_uint_value bs)

/-- Modelled from the spec: `proto_tree_add_item` of epan; the bytes
`start .. start + length - 1` must be in the buffer, else the bounds exception
is thrown and nothing is added. -/
def proto_tree_add_item (tree : proto_tree) (field : hf_index) (tvb : tvbuff_t)
    (start length : Nat) (_enc : encoding) : dissector Unit :=
  fun st =>
    if start + length ≤ tvb.length then
      match st with
      | ⟨c, t, e, r⟩ =>
        outcome.ok ()
          ⟨c,
           t ++ [tree_op.item tree field start length
                  (decode_value (hf field).type ((tvb.drop start).take length))],
           e,
           r ++ List.range' start length⟩
    else outcome.bounds_error st

/-- Modelled from the spec: `proto_tree_add_uint` of epan; the value is a
`guint32` and is stored as given, the buffer is not read. -/
def proto_tree_add_uint (tree : proto_tree) (field : hf_index) (_tvb : tvbuff_t)
    (start length : Nat) (value : Nat) : dissector Unit :=
  fun st =>
    match st with
    | ⟨c, t, e, r⟩ =>
      outcome.ok ()
        ⟨c, t ++ [tree_op.item tree field start length (fvalue.uinteger (value % 4294967296))],
         e, r⟩

/-- Modelled from the spec: `proto_tree_add_protocol_format` of epan. -/
def proto_tree_add_protocol_format (start : Nat) (length : Int) (text : String) :
    dissector Unit :=
  fun st =>
    match st with
    | ⟨c, t, e, r⟩ => outcome.ok () ⟨c, t ++ [tree_op.protocol_format start length text], e, r⟩

/-- Modelled from the spec: `proto_tree_add_subtree` of epan. -/
def proto_tree_add_subtree (_tvb : tvbuff_t) (start : Nat) (length : Int) (text : String) :
    dissector Unit :=
  fun st =>
    match st with
    | ⟨c, t, e, r⟩ => outcome.ok () ⟨c, t ++ [tree_op.subtree start length text], e, r⟩

/-- Modelled from the spec: `proto_item_set_len` of epan, on the item of the
current TLV subtree. -/
def proto_item_set_len (length : Nat) : dissector Unit :=
  fun st =>
    match st with
    | ⟨c, t, e, r⟩ => outcome.ok () ⟨c, t ++ [tree_op.set_len length], e, r⟩

/-- Modelled from the spec: `expert_add_info_format` of epan on
`ei_docsis_ucd_tlvlen_bad`. -/
def expert_add_info_format (fmt : String) (arg : Nat) : dissector Unit :=
  fun st =>
    match st with
    | ⟨c, t, e, r⟩ => outcome.ok () ⟨c, t, e ++ [⟨fmt, arg⟩], r⟩

/-- Modelled from the spec: `col_add_fstr` of epan on `COL_INFO`. -/
def col_add_fstr (fmt : String) (args : List Nat) : dissector Unit :=
  fun st =>
    match st with
    | ⟨_, t, e, r⟩ => outcome.ok () ⟨printf_u fmt args, t, e, r⟩

/-- The C loop `while (pos < bound) body`, where the body maps the cursor to
the new cursor. The loop runs at most `fuel` iterations; when the guard still
holds with no fuel left the outcome is `out_of_fuel`. -/
def while_loop (bound : Nat) (body : Nat → dissector Nat) : Nat → Nat → dissector Nat
  | 0, pos => if pos < bound then outcome.out_of_fuel else pure pos
  | fuel + 1, pos =>
    if pos < bound then do
      let pos ← body pos
      while_loop bound body fuel pos
    else pure pos

/-- The `switch (tlvtype)` of the `UCD_BURST_DESCR` case: one sub-TLV of a
burst descriptor, whose value starts at `pos`; `length` is the length of the
enclosing top-level TLV. -/
def burst_descr_switch (tvb : tvbuff_t) (length tlvtype tlvlen pos : Nat) : dissector Unit :=
  match tlvtype with
  | UCD_MODULATION =>
    if tlvlen = 1 then
      proto_tree_add_item tlv_tree hf_docsis_burst_mod_type tvb pos tlvlen ENC_BIG_ENDIAN
    else expert_add_info_format "Wrong TLV length: %u" length
  | UCD_DIFF_ENCODING =>
    if tlvlen = 1 then
      proto_tree_add_item tlv_tree hf_docsis_burst_diff_encoding tvb pos tlvlen ENC_BIG_ENDIAN
    else expert_add_info_format "Wrong TLV length: %u" length
  | UCD_PREAMBLE_LEN =>
    if tlvlen = 2 then
      proto_tree_add_item tlv_tree hf_docsis_burst_preamble_len tvb pos tlvlen ENC_BIG_ENDIAN
    else expert_add_info_format "Wrong TLV length: %u" length
  | UCD_PREAMBLE_VAL_OFF =>
    if tlvlen = 2 then
      proto_tree_add_item tlv_tree hf_docsis_burst_preamble_val_off tvb pos tlvlen ENC_BIG_ENDIAN
    else expert_add_info_format "Wrong TLV length: %u" length
  | UCD_FEC =>
    if tlvlen = 1 then
      proto_tree_add_item tlv_tree hf_docsis_burst_fec tvb pos tlvlen ENC_BIG_ENDIAN
    else expert_add_info_format "Wrong TLV length: %u" length
  | UCD_FEC_CODEWORD =>
    if tlvlen = 1 then
      proto_tree_add_item tlv_tree hf_docsis_burst_fec_codeword tvb pos tlvlen ENC_BIG_ENDIAN
    else expert_add_info_format "Wrong TLV length: %u" length
  | UCD_SCRAMBLER_SEED =>
    if tlvlen = 2 then
      proto_tree_add_item tlv_tree hf_docsis_burst_scrambler_seed tvb pos tlvlen ENC_BIG_ENDIAN
    else expert_add_info_format "Wrong TLV length: %u" length
  | UCD_MAX_BURST =>
    if tlvlen = 1 then
      proto_tree_add_item tlv_tree hf_docsis_burst_max_burst tvb pos tlvlen ENC_BIG_ENDIAN
    else expert_add_info_format "Wrong TLV length: %u" length
  | UCD_GUARD_TIME =>
    if tlvlen = 1 then
      proto_tree_add_item tlv_tree hf_docsis_burst_guard_time tvb pos tlvlen ENC_BIG_ENDIAN
    else expert_add_info_format "Wrong TLV length: %u" length
  | UCD_LAST_CW_LEN =>
    if tlvlen = 1 then
      proto_tree_add_item tlv_tree hf_docsis_burst_last_cw_len tvb pos tlvlen ENC_BIG_ENDIAN
    else expert_add_info_format "Wrong TLV length: %u" length
  | UCD_SCRAMBLER_ONOFF =>
    if tlvlen = 1 then
      proto_tree_add_item tlv_tree hf_docsis_burst_scrambler_onoff tvb pos tlvlen ENC_BIG_ENDIAN
    else expert_add_info_format "Wrong TLV length: %u" length
  | _ => pure ()

/-- The `switch (tlvtype)` of the `UCD_BURST_DESCR5` case (DOCSIS 2.0). -/
def burst_descr5_switch (tvb : tvbuff_t) (length tlvtype tlvlen pos : Nat) : dissector Unit :=
  match tlvtype with
  | UCD_MODULATION =>
    if tlvlen = 1 then
      proto_tree_add_item tlv_tree hf_docsis_burst_mod_type tvb pos tlvlen ENC_BIG_ENDIAN
    else expert_add_info_format "Wrong TLV length: %u" length
  | UCD_DIFF_ENCODING =>
    if tlvlen = 1 then
      proto_tree_add_item tlv_tree hf_docsis_burst_diff_encoding tvb pos tlvlen ENC_BIG_ENDIAN
    else expert_add_info_format "Wrong TLV length: %u" length
  | UCD_PREAMBLE_LEN =>
    if tlvlen = 2 then
      proto_tree_add_item tlv_tree hf_docsis_burst_preamble_len tvb pos tlvlen ENC_BIG_ENDIAN
    else expert_add_info_format "Wrong TLV length: %u" length
  | UCD_PREAMBLE_VAL_OFF =>
    if tlvlen = 2 then
      proto_tree_add_item tlv_tree hf_docsis_burst_preamble_val_off tvb pos tlvlen ENC_BIG_ENDIAN
    else expert_add_info_format "Wrong TLV length: %u" length
  | UCD_FEC =>
    if tlvlen = 1 then
      proto_tree_add_item tlv_tree hf_docsis_burst_fec tvb pos tlvlen ENC_BIG_ENDIAN
    else expert_add_info_format "Wrong TLV length: %u" length
  | UCD_FEC_CODEWORD =>
    if tlvlen = 1 then
      proto_tree_add_item tlv_tree hf_docsis_burst_fec_codeword tvb pos tlvlen ENC_BIG_ENDIAN
    else expert_add_info_format "Wrong TLV length: %u" length
  | UCD_SCRAMBLER_SEED =>
    if tlvlen = 2 then
      proto_tree_add_item tlv_tree hf_docsis_burst_scrambler_seed tvb pos tlvlen ENC_BIG_ENDIAN
    else expert_add_info_format "Wrong TLV length: %u" length
  | UCD_MAX_BURST =>
    if tlvlen = 1 then
      proto_tree_add_item tlv_tree hf_docsis_burst_max_burst tvb pos tlvlen ENC_BIG_ENDIAN
    else expert_add_info_format "Wrong TLV length: %u" length
  | UCD_GUARD_TIME =>
    if tlvlen = 1 then
      proto_tree_add_item tlv_tree hf_docsis_burst_guard_time tvb pos tlvlen ENC_BIG_ENDIAN
    else expert_add_info_format "Wrong TLV length: %u" length
  | UCD_LAST_CW_LEN =>
    if tlvlen = 1 then
      proto_tree_add_item tlv_tree hf_docsis_burst_last_cw_len tvb pos tlvlen ENC_BIG_ENDIAN
    else expert_add_info_format "Wrong TLV length: %u" length
  | UCD_SCRAMBLER_ONOFF =>
    if tlvlen = 1 then
      proto_tree_add_item tlv_tree hf_docsis_burst_scrambler_onoff tvb pos tlvlen ENC_BIG_ENDIAN
    else expert_add_info_format "Wrong TLV length: %u" length
  | UCD_RS_INT_DEPTH =>
    if tlvlen = 1 then
      proto_tree_add_item tlv_tree hf_docsis_rs_int_depth tvb pos tlvlen ENC_BIG_ENDIAN
    else expert_add_info_format "Wrong TLV length: %u" length
  | UCD_RS_INT_BLOCK =>
    if tlvlen = 2 then
      proto_tree_add_item tlv_tree hf_docsis_rs_int_block tvb pos tlvlen ENC_BIG_ENDIAN
    else expert_add_info_format "Wrong TLV length: %u" length
  | UCD_PREAMBLE_TYPE =>
    if tlvlen = 1 then
      proto_tree_add_item tlv_tree hf_docsis_preamble_type tvb pos tlvlen ENC_BIG_ENDIAN
    else expert_add_info_format "Wrong TLV length: %u" length
  | _ => pure ()

/-- The body of the `while (pos < endtlvpos)` loop of the `UCD_BURST_DESCR`
case: reads the sub-TLV header at `pos`, runs the switch and returns the new
`pos`. -/
def burst_descr_tlv (tvb : tvbuff_t) (length pos : Nat) : dissector Nat := do
  let tlvtype ← tvb_get_guint8 tvb pos
  let pos := pos + 1
  let tlvlen ← tvb_get_guint8 tvb pos
  let pos := pos + 1
  burst_descr_switch tvb length tlvtype tlvlen pos
  pure (pos + tlvlen)

/-- The body of the `while (pos < endtlvpos)` loop of the `UCD_BURST_DESCR5`
case. -/
def burst_descr5_tlv (tvb : tvbuff_t) (length pos : Nat) : dissector Nat := do
  let tlvtype ← tvb_get_guint8 tvb pos
  let pos := pos + 1
  let tlvlen ← tvb_get_guint8 tvb pos
  let pos := pos + 1
  burst_descr5_switch tvb length tlvtype tlvlen pos
  pure (pos + tlvlen)

/-- The `while (pos < endtlvpos)` loop of the `UCD_BURST_DESCR` case; returns
the value of `pos` when the loop ends. -/
def burst_descr_loop (tvb : tvbuff_t) (length endtlvpos : Nat) (fuel pos : Nat) :
    dissector Nat :=
  while_loop endtlvpos (burst_descr_tlv tvb length) fuel pos

/-- The `while (pos < endtlvpos)` loop of the `UCD_BURST_DESCR5` case. -/
def burst_descr5_loop (tvb : tvbuff_t) (length endtlvpos : Nat) (fuel pos : Nat) :
    dissector Nat :=
  while_loop endtlvpos (burst_descr5_tlv tvb length) fuel pos

/-- The `switch (type)` of the top-level loop: the value of one top-level TLV
of the given type and length starts at `pos`; returns the new `pos`. The inner
loops get `length` units of fuel. -/
def ucd_switch (tvb : tvbuff_t) (type length pos : Nat) : dissector Nat :=
  match type with
  | UCD_SYMBOL_RATE =>
    if length = 1 then do
      let symrate ← tvb_get_guint8 tvb pos
      proto_tree_add_uint tlv_tree hf_docsis_ucd_symbol_rate tvb pos length (symrate * 160)
      pure (pos + length)
    else do
      expert_add_info_format "Wrong TLV length: %u" length
      pure (pos + length)
  | UCD_FREQUENCY =>
    if length = 4 then do
      proto_tree_add_item tlv_tree hf_docsis_ucd_frequency tvb pos length ENC_BIG_ENDIAN
      pure (pos + length)
    else do
      expert_add_info_format "Wrong TLV length: %u" length
      pure pos
  | UCD_PREAMBLE => do
    proto_tree_add_item tlv_tree hf_docsis_ucd_preamble_pat tvb pos length ENC_NA
    pure (pos + length)
  | UCD_BURST_DESCR => do
    proto_tree_add_item tlv_tree hf_docsis_ucd_iuc tvb pos 1 ENC_BIG_ENDIAN
    let pos := pos + 1
    let endtlvpos := pos + length - 1
    burst_descr_loop tvb length endtlvpos length pos
  | UCD_BURST_DESCR5 => do
    proto_tree_add_item tlv_tree hf_docsis_ucd_iuc tvb pos 1 ENC_BIG_ENDIAN
    let pos := pos + 1
    let endtlvpos := pos + length - 1
    burst_descr5_loop tvb length endtlvpos length pos
  | _ => pure pos

/-- The body of the `while (pos < len)` loop: one top-level TLV starting at
`pos`; returns the new `pos`. -/
def dissect_tlv (tvb : tvbuff_t) (pos : Nat) : dissector Nat := do
  let type ← tvb_get_guint8 tvb pos
  proto_tree_add_subtree tvb pos (-1) (val_to_str type channel_tlv_vals "Unknown TLV (%u)")
  proto_tree_add_uint tlv_tree hf_docsis_ucd_type tvb pos 1 type
  let pos := pos + 1
  let length ← tvb_get_guint8 tvb pos
  proto_tree_add_uint tlv_tree hf_docsis_ucd_length tvb pos 1 length
  let pos := pos + 1
  proto_item_set_len (length + 2)
  ucd_switch tvb type length pos

/-- The `while (pos < len)` loop; returns the value of `pos` when the loop
ends. -/
def dissect_tlvs (tvb : tvbuff_t) (len : Nat) (fuel pos : Nat) : dissector Nat :=
  while_loop len (dissect_tlv tvb) fuel pos

/-- The function `dissect_ucd`; `tree` tells whether a protocol tree is
requested. Returns the value of `pos` at the end, `none` when `pos` was never
assigned. The top-level loop gets `len` units of fuel. -/
def dissect_ucd (tvb : tvbuff_t) (tree : Bool) : dissector (Option Nat) := do
  let len := tvb_reported_length_remaining tvb 0
  let upchid ← tvb_get_guint8 tvb 0
  (if upchid > 0 then
    col_add_fstr "UCD Message:  Channel ID = %u (U%u)" [upchid, upchid - 1]
  else
    col_add_fstr "UCD Message:  Channel ID = %u (Telephony Return)" [upchid])
  if tree then do
    proto_tree_add_protocol_format 0 (-1) "UCD Message"
    proto_tree_add_item ucd_tree hf_docsis_ucd_upstream_chid tvb 0 1 ENC_BIG_ENDIAN
    proto_tree_add_item ucd_tree hf_docsis_ucd_config_ch_cnt tvb 1 1 ENC_BIG_ENDIAN
    proto_tree_add_item ucd_tree hf_docsis_ucd_mini_slot_size tvb 2 1 ENC_BIG_ENDIAN
    proto_tree_add_item ucd_tree hf_docsis_ucd_down_chid tvb 3 1 ENC_BIG_ENDIAN
    let pos ← dissect_tlvs tvb len len 4
    pure (some pos)
  else pure none


/-! ## Vocabulary of the specification -/

/-- The expected length of a burst sub-TLV in the sub-TLV table of the
specification: 2 for the sub-types 3, 4, 7 and 13, and 1 for all others. -/
def sub_tlv_expected_length (subtype : Nat) : Nat :=
  if subtype = 3 ∨ subtype = 4 ∨ subtype = 7 ∨ subtype = 13 then 2 else 1

/-- The sub-types that are legal in a burst descriptor of the given top-level
type: 1..14 in the extended one (type 5), 1..11 in the legacy one. -/
def legal_sub_type (type subtype : Nat) : Prop :=
  1 ≤ subtype ∧ subtype ≤ (if type = 5 then 14 else 11)

instance (type subtype : Nat) : Decidable (legal_sub_type type subtype) := by
  unfold legal_sub_type
  infer_instance

/-- The field of the sub-TLV table for a sub-type in 1..14 (of no meaning for
other sub-types). -/
def sub_tlv_field : Nat → hf_index
  | 1 => hf_docsis_burst_mod_type
  | 2 => hf_docsis_burst_diff_encoding
  | 3 => hf_docsis_burst_preamble_len
  | 4 => hf_docsis_burst_preamble_val_off
  | 5 => hf_docsis_burst_fec
  | 6 => hf_docsis_burst_fec_codeword
  | 7 => hf_docsis_burst_scrambler_seed
  | 8 => hf_docsis_burst_max_burst
  | 9 => hf_docsis_burst_guard_time
  | 10 => hf_docsis_burst_last_cw_len
  | 11 => hf_docsis_burst_scrambler_onoff
  | 12 => hf_docsis_rs_int_depth
  | 13 => hf_docsis_rs_int_block
  | _ => hf_docsis_preamble_type

/-- The loop body of the burst descriptor of the given top-level type:
`burst_descr5_tlv` for type 5, `burst_descr_tlv` otherwise. -/
def burst_tlv (type : Nat) (tvb : tvbuff_t) (length pos : Nat) : dissector Nat :=
  if type = 5 then burst_descr5_tlv tvb length pos else burst_descr_tlv tvb length pos

/-- The state after the header of a top-level TLV at `pos`, with the given type
and length bytes, has been dissected: the subtree, the type and length items
and the length of the subtree item are added, bytes `pos` and `pos + 1` read. -/
def tlv_header (st : ucd_state) (pos type length : Nat) : ucd_state :=
  { st with
    tree := st.tree ++
      [tree_op.subtree pos (-1) (val_to_str type channel_tlv_vals "Unknown TLV (%u)"),
       tree_op.item tlv_tree hf_docsis_ucd_type pos 1 (fvalue.uinteger type),
       tree_op.item tlv_tree hf_docsis_ucd_length (pos + 1) 1 (fvalue.uinteger length),
       tree_op.set_len (length + 2)]
    reads := st.reads ++ [pos, pos + 1] }

/-- The state `st2` continues `st1`: same info column, the tree calls, expert
infos and reads of `st1` followed by new ones, every new read at an index in
`lo .. hi - 1`. -/
def ucd_state.continues (st1 st2 : ucd_state) (lo hi : Nat) : Prop :=
  st2.col_info = st1.col_info ∧
  (∃ t, st2.tree = st1.tree ++ t) ∧
  (∃ e, st2.expert = st1.expert ++ e) ∧
  (∃ r, st2.reads = st1.reads ++ r ∧ ∀ x ∈ r, lo ≤ x ∧ x < hi)

/-- Sub-TLVs tile the bytes `p .. e - 1` of the buffer exactly: the range is
empty, or a sub-TLV header (sub-type `s`, sub-length `len`, both accepted by
`good`) stands at `p` and sub-TLVs tile `p + 2 + len .. e - 1`. -/
inductive sub_tlvs_fill (good : Nat → Nat → Prop) (tvb : tvbuff_t) : Nat → Nat → Prop where
  | done (e : Nat) : sub_tlvs_fill good tvb e e
  | cons (p e : Nat) (s len : guint8) :
      tvb[p]? = some s → tvb[p + 1]? = some len → good s.val len.val →
      sub_tlvs_fill good tvb (p + 2 + len.val) e → sub_tlvs_fill good tvb p e

/-- No condition on a sub-TLV header. -/
def any_sub_tlv : Nat → Nat → Prop := fun _ _ => True

/-- The sub-TLV has its table length: when its sub-type is legal in a burst
descriptor of the given top-level type, its sub-length is the expected one. -/
def table_sub_tlv (type : Nat) : Nat → Nat → Prop :=
  fun s len => legal_sub_type type s → len = sub_tlv_expected_length s

/-- Valid top-level TLVs tile the bytes `p .. e - 1` of the buffer exactly: each
Symbol Rate has length 1, each Frequency has length 4, each Preamble Pattern has
any length, and each Burst Descriptor of type 4 or 5 has a length `len ≥ 1`
whose value is one Interval Usage Code byte followed by sub-TLVs that tile the
remaining `len - 1` bytes; `good type` is the condition put on the headers of
these sub-TLVs. -/
inductive valid_tlvs (good : Nat → Nat → Nat → Prop) (tvb : tvbuff_t) : Nat → Nat → Prop where
  | done (e : Nat) : valid_tlvs good tvb e e
  | symbol_rate (p e : Nat) :
      tvb[p]? = some 1 → tvb[p + 1]? = some 1 →
      valid_tlvs good tvb (p + 3) e → valid_tlvs good tvb p e
  | frequency (p e : Nat) :
      tvb[p]? = some 2 → tvb[p + 1]? = some 4 →
      valid_tlvs good tvb (p + 6) e → valid_tlvs good tvb p e
  | preamble (p e : Nat) (len : guint8) :
      tvb[p]? = some 3 → tvb[p + 1]? = some len →
      valid_tlvs good tvb (p + 2 + len.val) e → valid_tlvs good tvb p e
  | burst_descr (p e : Nat) (t len : guint8) :
      t.val = 4 ∨ t.val = 5 → tvb[p]? = some t → tvb[p + 1]? = some len → 1 ≤ len.val →
      sub_tlvs_fill (good t.val) tvb (p + 3) (p + 2 + len.val) →
      valid_tlvs good tvb (p + 2 + len.val) e → valid_tlvs good tvb p e

/-- The state an outcome carries. -/
def outcome.state {α : Type} : outcome α → ucd_state
  | outcome.ok _ st => st
  | outcome.bounds_error st => st
  | outcome.out_of_fuel st => st

/-- The piece of the dissector leaves the info column as it is, however it
ends. -/
def keeps_col_info {α : Type} (m : dissector α) : Prop :=
  ∀ st, (m st).state.col_info = st.col_info

/-- The state after the info column and the four header items of a message
whose first four bytes are `b0 b1 b2 b3` have been written, with a tree
requested. -/
def ucd_header (st : ucd_state) (b0 b1 b2 b3 : guint8) : ucd_state :=
  { col_info :=
      if b0.val > 0 then printf_u "UCD Message:  Channel ID = %u (U%u)" [b0.val, b0.val - 1]
      else printf_u "UCD Message:  Channel ID = %u (Telephony Return)" [b0.val]
    tree := st.tree ++
      [tree_op.protocol_format 0 (-1) "UCD Message",
       tree_op.item ucd_tree hf_docsis_ucd_upstream_chid 0 1 (fvalue.uinteger b0.val),
       tree_op.item ucd_tree hf_docsis_ucd_config_ch_cnt 1 1 (fvalue.uinteger b1.val),
       tree_op.item ucd_tree hf_docsis_ucd_mini_slot_size 2 1 (fvalue.uinteger b2.val),
       tree_op.item ucd_tree hf_docsis_ucd_down_chid 3 1 (fvalue.uinteger b3.val)]
    expert := st.expert
    reads := st.reads ++ [0, 0, 1, 2, 3] }

/-- The sub-TLV that should start at `q` is cut short by the end of the buffer
in a way the dissector of a burst descriptor of the given top-level type runs
into: its sub-type byte or its sub-length byte is missing, or its sub-type is
legal, its sub-length the expected one and its value goes past the end. -/
def sub_tlv_cut (type : Nat) (tvb : tvbuff_t) (q : Nat) : Prop :=
  tvb.length ≤ q + 1 ∨
  ∃ s len : guint8, tvb[q]? = some s ∧ tvb[q + 1]? = some len ∧
    legal_sub_type type s.val ∧ len.val = sub_tlv_expected_length s.val ∧
    tvb.length < q + 2 + len.val

/-- The top-level TLV that starts at `p` is cut short by the end of the buffer
in a way the dissector runs into: its type byte is the last byte; or it is a
Symbol Rate of length 1, a Frequency of length 4 or a Preamble Pattern whose
value goes past the end; or it is a burst descriptor whose Interval Usage Code
byte is missing, or in which, after sub-TLVs that tile the bytes up to some
`q` before the end of the descriptor, the sub-TLV at `q` is cut short. -/
def tlv_cut (tvb : tvbuff_t) (p : Nat) : Prop :=
  tvb.length = p + 1 ∨
  ∃ t len : guint8, tvb[p]? = some t ∧ tvb[p + 1]? = some len ∧
    ((t.val = 1 ∧ len.val = 1 ∧ tvb.length < p + 3) ∨
     (t.val = 2 ∧ len.val = 4 ∧ tvb.length < p + 6) ∨
     (t.val = 3 ∧ tvb.length < p + 2 + len.val) ∨
     ((t.val = 4 ∨ t.val = 5) ∧
       (tvb.length < p + 3 ∨
        ∃ q, sub_tlvs_fill any_sub_tlv tvb (p + 3) q ∧ q < p + 2 + len.val ∧
          sub_tlv_cut t.val tvb q)))

/-- Modelled from the spec: the name shown for the value of a field that has a
value_string table (`VALS (...)` in the `hf[]` array); `none` for a field
without a table, for a value without a name and for the other tree calls. -/
def tree_op.value_name : tree_op → Option String
  | tree_op.item _ field _ _ (fvalue.uinteger n) =>
    match (hf field).strings with
    | some vs => try_val_to_str n vs
    | none => none
  | _ => none

/-- The number of top-level TLV headers dissected so far: the type and length
bytes of a TLV have both been read exactly when `proto_item_set_len` has been
called on its subtree item. -/
def tlv_headers (st : ucd_state) : Nat :=
  st.tree.countP (fun op => match op with | tree_op.set_len _ => true | _ => false)

/-- The piece of the dissector dissects no top-level TLV header, however it
ends. -/
def keeps_tlv_headers {α : Type} (m : dissector α) : Prop :=
  ∀ st, tlv_headers (m st).state = tlv_headers st

/-- No sub-TLV header met by the walk of a burst descriptor from cursor `p`
with end `e` has one of the extended-only sub-types 12, 13, 14. The walk is
over (`p ≥ e`); or it stops at `p` because the two header bytes are not both in
the buffer; or the sub-type at `p` is in 1..11 with its table length and the
walk stops there because the value goes past the end of the buffer; or the
sub-type at `p` is none of the three and the same holds from the next cursor
`p + 2 + len`. -/
inductive no_extended_sub_type (tvb : tvbuff_t) (e : Nat) : Nat → Prop where
  | done (p : Nat) : ¬ p < e → no_extended_sub_type tvb e p
  | cut (p : Nat) : p < e → (tvb[p]? = none ∨ tvb[p + 1]? = none) →
      no_extended_sub_type tvb e p
  | overrun (p : Nat) (s len : guint8) :
      p < e → tvb[p]? = some s → tvb[p + 1]? = some len →
      1 ≤ s.val → s.val ≤ 11 → len.val = sub_tlv_expected_length s.val →
      tvb.length < p + 2 + len.val → no_extended_sub_type tvb e p
  | step (p : Nat) (s len : guint8) :
      p < e → tvb[p]? = some s → tvb[p + 1]? = some len →
      s.val ≠ 12 → s.val ≠ 13 → s.val ≠ 14 →
      no_extended_sub_type tvb e (p + 2 + len.val) → no_extended_sub_type tvb e p

/-- The walk of a burst descriptor from cursor `p` with end `e` meets a sub-TLV
of one of the extended-only sub-types 12, 13, 14 that has its table length and
whose value goes past the end of the buffer, before anything else stops it:
that sub-TLV stands at `p`; or a sub-TLV header stands at `p`, the extended
walker does not throw on it (it is not a legal sub-TLV with its table length
and a value past the end of the buffer), and the same holds from the next
cursor `p + 2 + len`. -/
inductive extended_overrun (tvb : tvbuff_t) (e : Nat) : Nat → Prop where
  | here (p : Nat) (s len : guint8) :
      p < e → tvb[p]? = some s → tvb[p + 1]? = some len →
      s.val = 12 ∨ s.val = 13 ∨ s.val = 14 →
      len.val = sub_tlv_expected_length s.val → tvb.length < p + 2 + len.val →
      extended_overrun tvb e p
  | later (p : Nat) (s len : guint8) :
      p < e → tvb[p]? = some s → tvb[p + 1]? = some len →
      ¬ (legal_sub_type 5 s.val ∧ len.val = sub_tlv_expected_length s.val ∧
          tvb.length < p + 2 + len.val) →
      extended_overrun tvb e (p + 2 + len.val) → extended_overrun tvb e p

/-- The cursor of the sub-TLV loop with end `E`, when nothing throws: from `p`
the loop stops at `q`. The loop is over at `p` (`p ≥ E`), or a sub-TLV header
stands at `p` and the loop goes on from `p + 2 + len`, whatever the sub-type
and whether or not the sub-length is the table length. -/
inductive sub_tlv_walk (tvb : tvbuff_t) (E : Nat) : Nat → Nat → Prop where
  | done (p : Nat) : ¬ p < E → sub_tlv_walk tvb E p p
  | step (p q : Nat) (s len : guint8) :
      p < E → tvb[p]? = some s → tvb[p + 1]? = some len →
      sub_tlv_walk tvb E (p + 2 + len.val) q → sub_tlv_walk tvb E p q

/-- The cursor of the top-level loop, when nothing throws: records of any kind
lead from `p` to `e`. A Symbol Rate or Preamble Pattern record of declared
length `len` leads from `p` to `p + 2 + len` (also when the Symbol Rate length
is flagged), a Frequency record of length 4 to `p + 6`, a Frequency record of
another length and a record of unknown type to `p + 2`, and a burst descriptor
to the cursor `q` at which its sub-TLV loop, started at `p + 3` with end
`p + 2 + len`, stops. -/
inductive tlv_walk (tvb : tvbuff_t) : Nat → Nat → Prop where
  | done (p : Nat) : tlv_walk tvb p p
  | symbol_rate (p e : Nat) (len : guint8) :
      tvb[p]? = some 1 → tvb[p + 1]? = some len →
      tlv_walk tvb (p + 2 + len.val) e → tlv_walk tvb p e
  | frequency (p e : Nat) :
      tvb[p]? = some 2 → tvb[p + 1]? = some 4 →
      tlv_walk tvb (p + 6) e → tlv_walk tvb p e
  | frequency_flagged (p e : Nat) (len : guint8) :
      tvb[p]? = some 2 → tvb[p + 1]? = some len → len.val ≠ 4 →
      tlv_walk tvb (p + 2) e → tlv_walk tvb p e
  | preamble (p e : Nat) (len : guint8) :
      tvb[p]? = some 3 → tvb[p + 1]? = some len →
      tlv_walk tvb (p + 2 + len.val) e → tlv_walk tvb p e
  | burst_descr (p q e : Nat) (t len : guint8) :
      t.val = 4 ∨ t.val = 5 → tvb[p]? = some t → tvb[p + 1]? = some len →
      sub_tlv_walk tvb (p + 2 + len.val) (p + 3) q →
      tlv_walk tvb q e → tlv_walk tvb p e
  | unknown (p e : Nat) (t len : guint8) :
      ¬ (1 ≤ t.val ∧ t.val ≤ 5) → tvb[p]? = some t → tvb[p + 1]? = some len →
      tlv_walk tvb (p + 2) e → tlv_walk tvb p e

/-- The iterations of the loop `while (pos < bound) body`: the cursor and the
state at which each run of the body starts, in order, following `while_loop`
step by step (the next iteration starts where the body has left the cursor;
no iteration follows one that throws). -/
def while_loop_starts (bound : Nat) (body : Nat → dissector Nat) :
    Nat → Nat → ucd_state → List (Nat × ucd_state)
  | 0, _, _ => []
  | fuel + 1, pos, st =>
    if pos < bound then
      (pos, st) ::
        (match body pos st with
         | outcome.ok pos1 st1 => while_loop_starts bound body fuel pos1 st1
         | _ => [])
    else []

/-- The sub-TLV headers read inside the top-level TLV of the given type and
length whose value starts at `pos`: the cursors at which the sub-TLV loop of a
burst descriptor starts an iteration, run as `ucd_switch` runs it (after the
Interval Usage Code item, with end `pos + 1 + length - 1` and `length` units
of fuel), kept when both header bytes are in the buffer. None for the other
types. -/
def sub_tlv_headers_read (tvb : tvbuff_t) (type length pos : Nat) (st : ucd_state) :
    List Nat :=
  if type = UCD_BURST_DESCR ∨ type = UCD_BURST_DESCR5 then
    match proto_tree_add_item tlv_tree hf_docsis_ucd_iuc tvb pos 1 ENC_BIG_ENDIAN st with
    | outcome.ok _ st1 =>
      ((while_loop_starts (pos + 1 + length - 1) (burst_tlv type tvb length) length (pos + 1)
          st1).map Prod.fst).filter (fun q => q + 2 ≤ tvb.length)
    | _ => []
  else []

/-- The TLV headers read in the iteration of the top-level loop that starts at
`pos` in state `st`: the top-level header at `pos`, when its two bytes are in
the buffer, followed by the sub-TLV headers read inside the record. -/
def tlv_headers_read_at (tvb : tvbuff_t) (pos : Nat) (st : ucd_state) : List Nat :=
  match tvb[pos]?, tvb[pos + 1]? with
  | some t, some len =>
    pos :: sub_tlv_headers_read tvb t.val len.val (pos + 2) (tlv_header st pos t.val len.val)
  | _, _ => []

/-- The offsets of all TLV headers, top-level and sub-TLV, both bytes of which
are read by the top-level loop of `dissect_ucd` started in state `st` (cursor
4, bound and fuel the length of the buffer), in the order they are read. -/
def tlv_headers_read (tvb : tvbuff_t) (st : ucd_state) : List Nat :=
  ((while_loop_starts tvb.length (dissect_tlv tvb) tvb.length 4 st).map
    (fun ps => tlv_headers_read_at tvb ps.1 ps.2)).flatten

/-- The piece of the dissector only appends to the log of the bytes read,
however it ends. -/
def appends_reads {α : Type} (m : dissector α) : Prop :=
  ∀ st, ∃ r, (m st).state.reads = st.reads ++ r

/-- The byte at index `x` is read between the states `st` and `st'`: the log
of `st'` is the log of `st` followed by reads among which is `x`. -/
def ucd_state.read_between (st st' : ucd_state) (x : Nat) : Prop :=
  ∃ r, st'.reads = st.reads ++ r ∧ x ∈ r

/-- The number of bytes of the buffer that a tree call decodes into a field:
the length of an item, except for the type and length items of a TLV header,
whose bytes are read as the header and handed over as numbers. -/
def tree_op.value_bytes : tree_op → Nat
  | tree_op.item _ field _ length _ =>
    if field = hf_docsis_ucd_type ∨ field = hf_docsis_ucd_length then 0 else length
  | _ => 0

/-- The number of bytes decoded into fields so far. -/
def field_bytes (st : ucd_state) : Nat :=
  (st.tree.map tree_op.value_bytes).sum

/-- The accounting of the bytes read between `st` and `st'`: two for each of
`n` TLV headers, the bytes decoded into fields, and `k` more. -/
def reads_accounted (st st' : ucd_state) (n k : Nat) : Prop :=
  st'.reads.length + field_bytes st = st.reads.length + field_bytes st' + 2 * n + k
/-! ## Properties of the primitives -/

@[simp] theorem dissector_pure_apply {α : Type} (a : α) (st : ucd_state) :
    (pure a : dissector α) st = outcome.ok a st := rfl

theorem dissector_bind_apply {α β : Type} (m : dissector α) (f : α → dissector β)
    (st : ucd_state) :
    (m >>= f) st =
      match m st with
      | outcome.ok a st1 => f a st1
      | outcome.bounds_error st1 => outcome.bounds_error st1
      | outcome.out_of_fuel st1 => outcome.out_of_fuel st1 := rfl

theorem tvb_get_guint8_some {tvb : tvbuff_t} {offset : Nat} {b : guint8}
    (h : tvb[offset]? = some b) (st : ucd_state) :
    tvb_get_guint8 tvb offset st =
      outcome.ok b.val { st with reads := st.reads ++ [offset] } := by
  cases st
  simp [tvb_get_guint8, h]

theorem tvb_get_guint8_none {tvb : tvbuff_t} {offset : Nat}
    (h : tvb[offset]? = none) (st : ucd_state) :
    tvb_get_guint8 tvb offset st = outcome.bounds_error st := by
  cases st
  simp [tvb_get_guint8, h]

theorem proto_tree_add_item_ok (tree : proto_tree) (field : hf_index) {tvb : tvbuff_t}
    {start length : Nat} (enc : encoding) (h : start + length ≤ tvb.length) (st : ucd_state) :
    proto_tree_add_item tree field tvb start length enc st =
      outcome.ok ()
        { st with
          tree := st.tree ++
            [tree_op.item tree field start length
              (decode_value (hf field).type ((tvb.drop start).take length))]
          reads := st.reads ++ List.range' start length } := by
  cases st
  simp [proto_tree_add_item, h]

theorem proto_tree_add_item_err (tree : proto_tree) (field : hf_index) {tvb : tvbuff_t}
    {start length : Nat} (enc : encoding) (h : tvb.length < start + length) (st : ucd_state) :
    proto_tree_add_item tree field tvb start length enc st = outcome.bounds_error st := by
  have h1 : ¬ start + length ≤ tvb.length := by omega
  simp [proto_tree_add_item, h1]

@[simp] theorem proto_tree_add_uint_apply (tree : proto_tree) (field : hf_index)
    (tvb : tvbuff_t) (start length value : Nat) (st : ucd_state) :
    proto_tree_add_uint tree field tvb start length value st =
      outcome.ok ()
        { st with
          tree := st.tree ++
            [tree_op.item tree field start length (fvalue.uinteger (value % 4294967296))] } := by
  cases st; rfl

@[simp] theorem proto_tree_add_protocol_format_apply (start : Nat) (length : Int)
    (text : String) (st : ucd_state) :
    proto_tree_add_protocol_format start length text st =
      outcome.ok () { st with tree := st.tree ++ [tree_op.protocol_format start length text] } := by
  cases st; rfl

@[simp] theorem proto_tree_add_subtree_apply (tvb : tvbuff_t) (start : Nat) (length : Int)
    (text : String) (st : ucd_state) :
    proto_tree_add_subtree tvb start length text st =
      outcome.ok () { st with tree := st.tree ++ [tree_op.subtree start length text] } := by
  cases st; rfl

@[simp] theorem proto_item_set_len_apply (length : Nat) (st : ucd_state) :
    proto_item_set_len length st =
      outcome.ok () { st with tree := st.tree ++ [tree_op.set_len length] } := by
  cases st; rfl

@[simp] theorem expert_add_info_format_apply (fmt : String) (arg : Nat) (st : ucd_state) :
    expert_add_info_format fmt arg st =
      outcome.ok () { st with expert := st.expert ++ [⟨fmt, arg⟩] } := by
  cases st; rfl

@[simp] theorem col_add_fstr_apply (fmt : String) (args : List Nat) (st : ucd_state) :
    col_add_fstr fmt args st = outcome.ok () { st with col_info := printf_u fmt args } := by
  cases st; rfl


theorem burst_descr_switch_eq (tvb : tvbuff_t) (length s tlvlen pos : Nat) :
    burst_descr_switch tvb length s tlvlen pos =
      if legal_sub_type 4 s then
        if tlvlen = sub_tlv_expected_length s then
          proto_tree_add_item tlv_tree (sub_tlv_field s) tvb pos tlvlen ENC_BIG_ENDIAN
        else expert_add_info_format "Wrong TLV length: %u" length
      else pure () := by
  by_cases h : s ≤ 11
  · interval_cases s <;>
      simp [burst_descr_switch, legal_sub_type, sub_tlv_expected_length, sub_tlv_field]
  · have h1 : ¬ legal_sub_type 4 s := by
      simp [legal_sub_type]; omega
    rw [if_neg h1]
    unfold burst_descr_switch
    split <;> first | rfl | (exfalso; simp_all [UCD_MODULATION, UCD_DIFF_ENCODING, UCD_PREAMBLE_LEN, UCD_PREAMBLE_VAL_OFF, UCD_FEC, UCD_FEC_CODEWORD, UCD_SCRAMBLER_SEED, UCD_MAX_BURST, UCD_GUARD_TIME, UCD_LAST_CW_LEN, UCD_SCRAMBLER_ONOFF])

theorem burst_descr5_switch_eq (tvb : tvbuff_t) (length s tlvlen pos : Nat) :
    burst_descr5_switch tvb length s tlvlen pos =
      if legal_sub_type 5 s then
        if tlvlen = sub_tlv_expected_length s then
          proto_tree_add_item tlv_tree (sub_tlv_field s) tvb pos tlvlen ENC_BIG_ENDIAN
        else expert_add_info_format "Wrong TLV length: %u" length
      else pure () := by
  by_cases h : s ≤ 14
  · interval_cases s <;>
      simp [burst_descr5_switch, legal_sub_type, sub_tlv_expected_length, sub_tlv_field]
  · have h1 : ¬ legal_sub_type 5 s := by
      simp [legal_sub_type]; omega
    rw [if_neg h1]
    unfold burst_descr5_switch
    split <;> first | rfl | (exfalso; simp_all [UCD_MODULATION, UCD_DIFF_ENCODING, UCD_PREAMBLE_LEN, UCD_PREAMBLE_VAL_OFF, UCD_FEC, UCD_FEC_CODEWORD, UCD_SCRAMBLER_SEED, UCD_MAX_BURST, UCD_GUARD_TIME, UCD_LAST_CW_LEN, UCD_SCRAMBLER_ONOFF, UCD_RS_INT_DEPTH, UCD_RS_INT_BLOCK, UCD_PREAMBLE_TYPE])

theorem burst_tlv_four : burst_tlv 4 = burst_descr_tlv := by
  funext tvb length pos
  simp [burst_tlv]

theorem burst_tlv_five : burst_tlv 5 = burst_descr5_tlv := by
  funext tvb length pos
  simp [burst_tlv]

theorem burst_tlv_apply {tvb : tvbuff_t} {pos : Nat} {s len : guint8} (type length : Nat)
    (ht : type = 4 ∨ type = 5)
    (h0 : tvb[pos]? = some s) (h1 : tvb[pos + 1]? = some len) (st : ucd_state) :
    burst_tlv type tvb length pos st =
      if legal_sub_type type s.val then
        if len.val = sub_tlv_expected_length s.val then
          if pos + 2 + len.val ≤ tvb.length then
            outcome.ok (pos + 2 + len.val)
              { st with
                tree := st.tree ++
                  [tree_op.item tlv_tree (sub_tlv_field s.val) (pos + 2) len.val
                    (decode_value (hf (sub_tlv_field s.val)).type
                      ((tvb.drop (pos + 2)).take len.val))]
                reads := st.reads ++ [pos, pos + 1] ++ List.range' (pos + 2) len.val }
          else outcome.bounds_error { st with reads := st.reads ++ [pos, pos + 1] }
        else
          outcome.ok (pos + 2 + len.val)
            { st with
              expert := st.expert ++ [⟨"Wrong TLV length: %u", length⟩]
              reads := st.reads ++ [pos, pos + 1] }
      else outcome.ok (pos + 2 + len.val) { st with reads := st.reads ++ [pos, pos + 1] } := by
  rcases ht with rfl | rfl <;>
  simp only [burst_tlv_four, burst_tlv_five, burst_descr_tlv, burst_descr5_tlv,
    dissector_bind_apply, tvb_get_guint8_some h0, tvb_get_guint8_some h1,
    burst_descr_switch_eq, burst_descr5_switch_eq] <;>
  (split_ifs with hl he hb
   · have hb2 : pos + 1 + 1 + len.val ≤ tvb.length := by omega
     simp [proto_tree_add_item_ok _ _ _ hb2]
   · have hb2 : tvb.length < pos + 1 + 1 + len.val := by omega
     simp [proto_tree_add_item_err _ _ _ hb2]
   · simp
   · simp)

theorem ucd_state.continues_refl (st : ucd_state) (lo hi : Nat) : st.continues st lo hi :=
  ⟨rfl, ⟨[], by simp⟩, ⟨[], by simp⟩, ⟨[], by simp⟩⟩

theorem ucd_state.continues_trans {st1 st2 st3 : ucd_state} {lo hi lo2 hi2 lo3 hi3 : Nat}
    (h12 : st1.continues st2 lo hi) (h23 : st2.continues st3 lo2 hi2)
    (hlo : lo3 ≤ lo) (hlo2 : lo3 ≤ lo2) (hhi : hi ≤ hi3) (hhi2 : hi2 ≤ hi3) :
    st1.continues st3 lo3 hi3 := by
  obtain ⟨c1, ⟨t1, ht1⟩, ⟨e1, he1⟩, ⟨r1, hr1, hb1⟩⟩ := h12
  obtain ⟨c2, ⟨t2, ht2⟩, ⟨e2, he2⟩, ⟨r2, hr2, hb2⟩⟩ := h23
  refine ⟨c2.trans c1, ⟨t1 ++ t2, by simp [ht2, ht1]⟩, ⟨e1 ++ e2, by simp [he2, he1]⟩,
    ⟨r1 ++ r2, by simp [hr2, hr1], ?_⟩⟩
  intro x hx
  rcases List.mem_append.mp hx with h | h
  · have := hb1 x h
    omega
  · have := hb2 x h
    omega

theorem sub_tlvs_fill_le {good : Nat → Nat → Prop} {tvb : tvbuff_t} {p e : Nat}
    (h : sub_tlvs_fill good tvb p e) : p ≤ e := by
  induction h with
  | done e => exact Nat.le_refl e
  | cons p e s len _ _ _ _ ih => omega

theorem while_loop_done {bound : Nat} (body : Nat → dissector Nat) (fuel : Nat) {pos : Nat}
    (h : ¬ pos < bound) (st : ucd_state) :
    while_loop bound body fuel pos st = outcome.ok pos st := by
  cases fuel <;> simp [while_loop, h]

theorem while_loop_step_ok {bound : Nat} {body : Nat → dissector Nat} (fuel : Nat)
    {pos a : Nat} {st st1 : ucd_state} (h : pos < bound)
    (hb : body pos st = outcome.ok a st1) :
    while_loop bound body (fuel + 1) pos st = while_loop bound body fuel a st1 := by
  simp [while_loop, h, dissector_bind_apply, hb]

theorem while_loop_step_err {bound : Nat} {body : Nat → dissector Nat} (fuel : Nat)
    {pos : Nat} {st st1 : ucd_state} (h : pos < bound)
    (hb : body pos st = outcome.bounds_error st1) :
    while_loop bound body (fuel + 1) pos st = outcome.bounds_error st1 := by
  simp [while_loop, h, dissector_bind_apply, hb]

theorem dissector_bind_ok {α β : Type} {m : dissector α} (f : α → dissector β)
    {st st1 : ucd_state} {a : α} (h : m st = outcome.ok a st1) :
    (m >>= f) st = f a st1 := by
  simp [dissector_bind_apply, h]

theorem dissector_bind_err {α β : Type} {m : dissector α} (f : α → dissector β)
    {st st1 : ucd_state} (h : m st = outcome.bounds_error st1) :
    (m >>= f) st = outcome.bounds_error st1 := by
  simp [dissector_bind_apply, h]

/-- One iteration of a sub-TLV loop at a sub-TLV header: the cursor moves to
`pos + 2 + len`, or the bounds exception is thrown because the value is not in
the buffer; only bytes of the sub-TLV are read. -/
theorem burst_tlv_step {tvb : tvbuff_t} {pos : Nat} {s len : guint8} (type length : Nat)
    (ht : type = 4 ∨ type = 5)
    (h0 : tvb[pos]? = some s) (h1 : tvb[pos + 1]? = some len) (st : ucd_state) :
    ∃ st1, st.continues st1 pos (pos + 2 + len.val) ∧
      (burst_tlv type tvb length pos st = outcome.ok (pos + 2 + len.val) st1 ∨
        (burst_tlv type tvb length pos st = outcome.bounds_error st1 ∧
          tvb.length < pos + 2 + len.val)) ∧
      (table_sub_tlv type s.val len.val → st1.expert = st.expert) := by
  have hbody := burst_tlv_apply type length ht h0 h1 st
  split_ifs at hbody with hl he hb
  · refine ⟨_, ?_, Or.inl hbody, fun _ => rfl⟩
    simp only [ucd_state.continues, List.append_assoc, List.append_cancel_left_eq,
      exists_eq_left', List.self_eq_append_right, exists_eq, true_and]
    refine ⟨⟨_, rfl⟩, ?_⟩
    intro x hx
    simp [List.mem_range'_1] at hx
    omega
  · refine ⟨_, ?_, Or.inr ⟨hbody, by omega⟩, fun _ => rfl⟩
    simp [ucd_state.continues]
    omega
  · refine ⟨_, ?_, Or.inl hbody, fun hall => absurd (hall hl) he⟩
    simp [ucd_state.continues]
    omega
  · refine ⟨_, ?_, Or.inl hbody, fun _ => rfl⟩
    simp [ucd_state.continues]
    omega

/-- The sub-TLV loop with bound `E` over sub-TLVs that tile `p .. q - 1`,
`q ≤ E`: after `k` iterations the cursor is at `q`, or the bounds exception
was thrown because `q` is beyond the buffer; the bytes read are in
`p .. q - 1`. -/
theorem burst_loop_fill {good : Nat → Nat → Prop} {tvb : tvbuff_t} {p q : Nat}
    (type length E : Nat) (ht : type = 4 ∨ type = 5)
    (h : sub_tlvs_fill good tvb p q) (hq : q ≤ E) (st : ucd_state) :
    ∃ st' k, 2 * k ≤ q - p ∧ st.continues st' p q ∧
      ((∀ fuel, while_loop E (burst_tlv type tvb length) (fuel + k) p st =
          while_loop E (burst_tlv type tvb length) fuel q st') ∨
        (tvb.length < q ∧
          ∀ fuel, while_loop E (burst_tlv type tvb length) (fuel + k) p st =
            outcome.bounds_error st')) ∧
      ((∀ s len, good s len → table_sub_tlv type s len) → st'.expert = st.expert) := by
  induction h generalizing st with
  | done e =>
    exact ⟨st, 0, by omega, st.continues_refl e e, Or.inl (fun _ => rfl), fun _ => rfl⟩
  | cons p e s len h0 h1 hg hrest ih =>
    have hle := sub_tlvs_fill_le hrest
    have hpe : p < E := by omega
    obtain ⟨st1, hc1, hres1, hex1⟩ := burst_tlv_step type length ht h0 h1 st
    rcases hres1 with hok | ⟨herr, hlen⟩
    · obtain ⟨st', k, hk, hc, hres, hex⟩ := ih hq st1
      refine ⟨st', k + 1, by omega, ?_, ?_, ?_⟩
      · exact ucd_state.continues_trans hc1 hc (Nat.le_refl _) (by omega) hle (Nat.le_refl _)
      · rcases hres with hres | ⟨hlt, hres⟩
        · left
          intro fuel
          rw [← Nat.add_assoc, while_loop_step_ok _ hpe hok]
          exact hres fuel
        · right
          refine ⟨hlt, ?_⟩
          intro fuel
          rw [← Nat.add_assoc, while_loop_step_ok _ hpe hok]
          exact hres fuel
      · intro hall
        rw [hex hall, hex1 (hall _ _ hg)]
    · refine ⟨st1, 1, by omega, ?_, Or.inr ⟨by omega, ?_⟩, ?_⟩
      · exact ucd_state.continues_trans hc1 (st1.continues_refl p e) (Nat.le_refl _)
          (Nat.le_refl _) hle (Nat.le_refl _)
      · intro fuel
        exact while_loop_step_err fuel hpe herr
      · intro hall
        exact hex1 (hall _ _ hg)

/-! ## The top-level TLV -/

theorem dissect_tlv_header {tvb : tvbuff_t} {pos : Nat} {t len : guint8}
    (h0 : tvb[pos]? = some t) (h1 : tvb[pos + 1]? = some len) (st : ucd_state) :
    dissect_tlv tvb pos st = ucd_switch tvb t.val len.val (pos + 2) (tlv_header st pos t.val len.val) := by
  have ht : t.val % 4294967296 = t.val := by have := t.isLt; omega
  have hl : len.val % 4294967296 = len.val := by have := len.isLt; omega
  simp [dissect_tlv, dissector_bind_apply, tvb_get_guint8_some h0, tvb_get_guint8_some h1,
    tlv_header, ht, hl]

theorem tlv_header_continues (st : ucd_state) (pos type length hi : Nat) (h : pos + 2 ≤ hi) :
    st.continues (tlv_header st pos type length) pos hi := by
  simp [ucd_state.continues, tlv_header]
  omega

theorem tlv_header_expert (st : ucd_state) (pos type length : Nat) :
    (tlv_header st pos type length).expert = st.expert := rfl

theorem ucd_switch_symbol_rate {tvb : tvbuff_t} {pos : Nat} {b : guint8}
    (h : tvb[pos]? = some b) (st : ucd_state) :
    ucd_switch tvb 1 1 pos st =
      outcome.ok (pos + 1)
        { st with
          tree := st.tree ++
            [tree_op.item tlv_tree hf_docsis_ucd_symbol_rate pos 1
              (fvalue.uinteger (b.val * 160))]
          reads := st.reads ++ [pos] } := by
  have hb : b.val * 160 % 4294967296 = b.val * 160 := by have := b.isLt; omega
  simp [ucd_switch, dissector_bind_apply, tvb_get_guint8_some h, hb]

theorem ucd_switch_symbol_rate_cut {tvb : tvbuff_t} {pos : Nat}
    (h : tvb.length ≤ pos) (st : ucd_state) :
    ucd_switch tvb 1 1 pos st = outcome.bounds_error st := by
  have h1 : tvb[pos]? = none := by simp [h]
  simp [ucd_switch, dissector_bind_apply, tvb_get_guint8_none h1]

theorem ucd_switch_symbol_rate_bad (tvb : tvbuff_t) {length : Nat} (pos : Nat)
    (h : length ≠ 1) (st : ucd_state) :
    ucd_switch tvb 1 length pos st =
      outcome.ok (pos + length)
        { st with expert := st.expert ++ [⟨"Wrong TLV length: %u", length⟩] } := by
  simp [ucd_switch, dissector_bind_apply, h]

theorem ucd_switch_frequency {tvb : tvbuff_t} {pos : Nat}
    (h : pos + 4 ≤ tvb.length) (st : ucd_state) :
    ucd_switch tvb 2 4 pos st =
      outcome.ok (pos + 4)
        { st with
          tree := st.tree ++
            [tree_op.item tlv_tree hf_docsis_ucd_frequency pos 4
              (fvalue.uinteger (get_uint_value ((tvb.drop pos).take 4)))]
          reads := st.reads ++ [pos, pos + 1, pos + 2, pos + 3] } := by
  simp [ucd_switch, dissector_bind_apply, proto_tree_add_item_ok _ _ _ h, hf, decode_value,
    List.range']

theorem ucd_switch_frequency_cut {tvb : tvbuff_t} {pos : Nat}
    (h : tvb.length < pos + 4) (st : ucd_state) :
    ucd_switch tvb 2 4 pos st = outcome.bounds_error st := by
  simp [ucd_switch, dissector_bind_apply, proto_tree_add_item_err _ _ _ h]

theorem ucd_switch_frequency_bad (tvb : tvbuff_t) {length : Nat} (pos : Nat)
    (h : length ≠ 4) (st : ucd_state) :
    ucd_switch tvb 2 length pos st =
      outcome.ok pos { st with expert := st.expert ++ [⟨"Wrong TLV length: %u", length⟩] } := by
  simp [ucd_switch, dissector_bind_apply, h]

theorem ucd_switch_preamble {tvb : tvbuff_t} {pos length : Nat}
    (h : pos + length ≤ tvb.length) (st : ucd_state) :
    ucd_switch tvb 3 length pos st =
      outcome.ok (pos + length)
        { st with
          tree := st.tree ++
            [tree_op.item tlv_tree hf_docsis_ucd_preamble_pat pos length
              (fvalue.bytes ((tvb.drop pos).take length))]
          reads := st.reads ++ List.range' pos length } := by
  simp [ucd_switch, dissector_bind_apply, proto_tree_add_item_ok _ _ _ h, hf, decode_value]

theorem ucd_switch_preamble_cut {tvb : tvbuff_t} {pos length : Nat}
    (h : tvb.length < pos + length) (st : ucd_state) :
    ucd_switch tvb 3 length pos st = outcome.bounds_error st := by
  simp [ucd_switch, dissector_bind_apply, proto_tree_add_item_err _ _ _ h]

theorem ucd_switch_burst {tvb : tvbuff_t} {pos : Nat} (type length : Nat)
    (ht : type = 4 ∨ type = 5) (h : pos + 1 ≤ tvb.length) (st : ucd_state) :
    ucd_switch tvb type length pos st =
      while_loop (pos + length) (burst_tlv type tvb length) length (pos + 1)
        { st with
          tree := st.tree ++
            [tree_op.item tlv_tree hf_docsis_ucd_iuc pos 1
              (fvalue.uinteger (get_uint_value ((tvb.drop pos).take 1)))]
          reads := st.reads ++ [pos] } := by
  have he : pos + 1 + length - 1 = pos + length := by omega
  rcases ht with rfl | rfl
  · simp [ucd_switch, dissector_bind_apply, proto_tree_add_item_ok _ _ _ h, hf, decode_value,
      burst_descr_loop, burst_tlv_four, he, List.range']
  · simp [ucd_switch, dissector_bind_apply, proto_tree_add_item_ok _ _ _ h, hf, decode_value,
      burst_descr5_loop, burst_tlv_five, he, List.range']

theorem ucd_switch_burst_cut {tvb : tvbuff_t} {pos : Nat} (type length : Nat)
    (ht : type = 4 ∨ type = 5) (h : tvb.length < pos + 1) (st : ucd_state) :
    ucd_switch tvb type length pos st = outcome.bounds_error st := by
  rcases ht with rfl | rfl <;>
    simp [ucd_switch, dissector_bind_apply, proto_tree_add_item_err _ _ _ h]

theorem ucd_switch_unknown (tvb : tvbuff_t) {type : Nat} (length pos : Nat)
    (h : ¬ (1 ≤ type ∧ type ≤ 5)) (st : ucd_state) :
    ucd_switch tvb type length pos st = outcome.ok pos st := by
  unfold ucd_switch
  split <;> first | rfl | (exfalso; simp_all [UCD_SYMBOL_RATE, UCD_FREQUENCY, UCD_PREAMBLE, UCD_BURST_DESCR, UCD_BURST_DESCR5])

theorem printf_u_channel (a b : Nat) :
    printf_u "UCD Message:  Channel ID = %u (U%u)" [a, b] =
      "UCD Message:  Channel ID = " ++ toString a ++ " (U" ++ toString b ++ ")" := by
  apply String.ext
  simp [printf_u, format_u]

theorem printf_u_telephony (a : Nat) :
    printf_u "UCD Message:  Channel ID = %u (Telephony Return)" [a] =
      "UCD Message:  Channel ID = " ++ toString a ++ " (Telephony Return)" := by
  apply String.ext
  simp [printf_u, format_u]

/-! ## The info column -/

theorem keeps_col_info_pure {α : Type} (a : α) : keeps_col_info (pure a : dissector α) :=
  fun _ => rfl

theorem keeps_col_info_bind {α β : Type} {m : dissector α} {f : α → dissector β}
    (hm : keeps_col_info m) (hf : ∀ a, keeps_col_info (f a)) : keeps_col_info (m >>= f) := by
  intro st
  have h := hm st
  rw [dissector_bind_apply]
  cases hr : m st with
  | ok a st1 =>
    rw [hr] at h
    simp only
    rw [hf a st1]
    exact h
  | bounds_error st1 =>
    rw [hr] at h
    exact h
  | out_of_fuel st1 =>
    rw [hr] at h
    exact h

theorem keeps_col_info_ite {α : Type} (c : Prop) [Decidable c] {m1 m2 : dissector α}
    (h1 : keeps_col_info m1) (h2 : keeps_col_info m2) :
    keeps_col_info (if c then m1 else m2) := by
  split_ifs
  · exact h1
  · exact h2

theorem keeps_col_info_get (tvb : tvbuff_t) (offset : Nat) :
    keeps_col_info (tvb_get_guint8 tvb offset) := by
  intro st
  cases h : tvb[offset]? with
  | some b => rw [tvb_get_guint8_some h]; rfl
  | none => rw [tvb_get_guint8_none h]; rfl

theorem keeps_col_info_item (tree : proto_tree) (field : hf_index) (tvb : tvbuff_t)
    (start length : Nat) (enc : encoding) :
    keeps_col_info (proto_tree_add_item tree field tvb start length enc) := by
  intro st
  by_cases h : start + length ≤ tvb.length
  · rw [proto_tree_add_item_ok _ _ _ h]; rfl
  · rw [proto_tree_add_item_err _ _ _ (by omega)]; rfl

theorem keeps_col_info_uint (tree : proto_tree) (field : hf_index) (tvb : tvbuff_t)
    (start length value : Nat) :
    keeps_col_info (proto_tree_add_uint tree field tvb start length value) := by
  intro st; simp [outcome.state]

theorem keeps_col_info_protocol_format (start : Nat) (length : Int) (text : String) :
    keeps_col_info (proto_tree_add_protocol_format start length text) := by
  intro st; simp [outcome.state]

theorem keeps_col_info_subtree (tvb : tvbuff_t) (start : Nat) (length : Int) (text : String) :
    keeps_col_info (proto_tree_add_subtree tvb start length text) := by
  intro st; simp [outcome.state]

theorem keeps_col_info_set_len (length : Nat) : keeps_col_info (proto_item_set_len length) := by
  intro st; simp [outcome.state]

theorem keeps_col_info_expert (fmt : String) (arg : Nat) :
    keeps_col_info (expert_add_info_format fmt arg) := by
  intro st; simp [outcome.state]

theorem keeps_col_info_while {bound : Nat} {body : Nat → dissector Nat}
    (hb : ∀ pos, keeps_col_info (body pos)) (fuel pos : Nat) :
    keeps_col_info (while_loop bound body fuel pos) := by
  induction fuel generalizing pos with
  | zero =>
    intro st
    unfold while_loop
    split_ifs <;> rfl
  | succ f ih =>
    unfold while_loop
    exact keeps_col_info_ite _ (keeps_col_info_bind (hb pos) (fun a => ih a))
      (keeps_col_info_pure pos)

theorem keeps_col_info_burst_descr_switch (tvb : tvbuff_t) (length s tlvlen pos : Nat) :
    keeps_col_info (burst_descr_switch tvb length s tlvlen pos) := by
  rw [burst_descr_switch_eq]
  exact keeps_col_info_ite _
    (keeps_col_info_ite _ (keeps_col_info_item _ _ _ _ _ _) (keeps_col_info_expert _ _))
    (keeps_col_info_pure ())

theorem keeps_col_info_burst_descr5_switch (tvb : tvbuff_t) (length s tlvlen pos : Nat) :
    keeps_col_info (burst_descr5_switch tvb length s tlvlen pos) := by
  rw [burst_descr5_switch_eq]
  exact keeps_col_info_ite _
    (keeps_col_info_ite _ (keeps_col_info_item _ _ _ _ _ _) (keeps_col_info_expert _ _))
    (keeps_col_info_pure ())

theorem keeps_col_info_burst_descr_tlv (tvb : tvbuff_t) (length pos : Nat) :
    keeps_col_info (burst_descr_tlv tvb length pos) :=
  keeps_col_info_bind (keeps_col_info_get _ _) fun _ =>
    keeps_col_info_bind (keeps_col_info_get _ _) fun _ =>
      keeps_col_info_bind (keeps_col_info_burst_descr_switch _ _ _ _ _) fun _ =>
        keeps_col_info_pure _

theorem keeps_col_info_burst_descr5_tlv (tvb : tvbuff_t) (length pos : Nat) :
    keeps_col_info (burst_descr5_tlv tvb length pos) :=
  keeps_col_info_bind (keeps_col_info_get _ _) fun _ =>
    keeps_col_info_bind (keeps_col_info_get _ _) fun _ =>
      keeps_col_info_bind (keeps_col_info_burst_descr5_switch _ _ _ _ _) fun _ =>
        keeps_col_info_pure _

theorem keeps_col_info_ucd_switch (tvb : tvbuff_t) (type length pos : Nat) :
    keeps_col_info (ucd_switch tvb type length pos) := by
  unfold ucd_switch
  split
  · exact keeps_col_info_ite _
      (keeps_col_info_bind (keeps_col_info_get _ _) fun _ =>
        keeps_col_info_bind (keeps_col_info_uint _ _ _ _ _ _) fun _ => keeps_col_info_pure _)
      (keeps_col_info_bind (keeps_col_info_expert _ _) fun _ => keeps_col_info_pure _)
  · exact keeps_col_info_ite _
      (keeps_col_info_bind (keeps_col_info_item _ _ _ _ _ _) fun _ => keeps_col_info_pure _)
      (keeps_col_info_bind (keeps_col_info_expert _ _) fun _ => keeps_col_info_pure _)
  · exact keeps_col_info_bind (keeps_col_info_item _ _ _ _ _ _) fun _ => keeps_col_info_pure _
  · exact keeps_col_info_bind (keeps_col_info_item _ _ _ _ _ _) fun _ =>
      keeps_col_info_while (keeps_col_info_burst_descr_tlv _ _) _ _
  · exact keeps_col_info_bind (keeps_col_info_item _ _ _ _ _ _) fun _ =>
      keeps_col_info_while (keeps_col_info_burst_descr5_tlv _ _) _ _
  · exact keeps_col_info_pure _

theorem keeps_col_info_dissect_tlv (tvb : tvbuff_t) (pos : Nat) :
    keeps_col_info (dissect_tlv tvb pos) :=
  keeps_col_info_bind (keeps_col_info_get _ _) fun _ =>
    keeps_col_info_bind (keeps_col_info_subtree _ _ _ _) fun _ =>
      keeps_col_info_bind (keeps_col_info_uint _ _ _ _ _ _) fun _ =>
        keeps_col_info_bind (keeps_col_info_get _ _) fun _ =>
          keeps_col_info_bind (keeps_col_info_uint _ _ _ _ _ _) fun _ =>
            keeps_col_info_bind (keeps_col_info_set_len _) fun _ =>
              keeps_col_info_ucd_switch _ _ _ _

/-- What `dissect_ucd` does after the info column is written. -/
theorem keeps_col_info_tree_part (tvb : tvbuff_t) (tree : Bool) (len : Nat) :
    keeps_col_info
      (if tree then do
        proto_tree_add_protocol_format 0 (-1) "UCD Message"
        proto_tree_add_item ucd_tree hf_docsis_ucd_upstream_chid tvb 0 1 ENC_BIG_ENDIAN
        proto_tree_add_item ucd_tree hf_docsis_ucd_config_ch_cnt tvb 1 1 ENC_BIG_ENDIAN
        proto_tree_add_item ucd_tree hf_docsis_ucd_mini_slot_size tvb 2 1 ENC_BIG_ENDIAN
        proto_tree_add_item ucd_tree hf_docsis_ucd_down_chid tvb 3 1 ENC_BIG_ENDIAN
        let pos ← dissect_tlvs tvb len len 4
        pure (some pos)
      else pure none : dissector (Option Nat)) :=
  keeps_col_info_ite _
    (keeps_col_info_bind (keeps_col_info_protocol_format _ _ _) fun _ =>
      keeps_col_info_bind (keeps_col_info_item _ _ _ _ _ _) fun _ =>
        keeps_col_info_bind (keeps_col_info_item _ _ _ _ _ _) fun _ =>
          keeps_col_info_bind (keeps_col_info_item _ _ _ _ _ _) fun _ =>
            keeps_col_info_bind (keeps_col_info_item _ _ _ _ _ _) fun _ =>
              keeps_col_info_bind (keeps_col_info_while (keeps_col_info_dissect_tlv _) _ _)
                fun _ => keeps_col_info_pure _)
    (keeps_col_info_pure _)

/-- The info column after `dissect_ucd` on a buffer whose first byte is `N`:
the text `col_add_fstr` wrote, however the dissection ends. -/
theorem dissect_ucd_col_info (N : guint8) (rest : tvbuff_t) (tree : Bool) (st : ucd_state) :
    (dissect_ucd (N :: rest) tree st).state.col_info =
      if N.val > 0 then
        printf_u "UCD Message:  Channel ID = %u (U%u)" [N.val, N.val - 1]
      else printf_u "UCD Message:  Channel ID = %u (Telephony Return)" [N.val] := by
  have h0 : (N :: rest)[0]? = some N := by simp
  unfold dissect_ucd
  rw [dissector_bind_ok _ (tvb_get_guint8_some h0 st)]
  by_cases h : N.val > 0
  · simp only [h, if_true]
    rw [dissector_bind_ok _ (col_add_fstr_apply _ _ _)]
    exact keeps_col_info_tree_part _ _ _ _
  · simp only [h, if_false]
    rw [dissector_bind_ok _ (col_add_fstr_apply _ _ _)]
    exact keeps_col_info_tree_part _ _ _ _

/-! ## Walking valid records -/

theorem burst_tlv_no_type {tvb : tvbuff_t} {pos : Nat} (type length : Nat)
    (ht : type = 4 ∨ type = 5) (h0 : tvb[pos]? = none) (st : ucd_state) :
    burst_tlv type tvb length pos st = outcome.bounds_error st := by
  rcases ht with rfl | rfl
  · rw [burst_tlv_four]
    exact dissector_bind_err _ (tvb_get_guint8_none h0 st)
  · rw [burst_tlv_five]
    exact dissector_bind_err _ (tvb_get_guint8_none h0 st)

theorem burst_tlv_no_length {tvb : tvbuff_t} {pos : Nat} {s : guint8} (type length : Nat)
    (ht : type = 4 ∨ type = 5) (h0 : tvb[pos]? = some s) (h1 : tvb[pos + 1]? = none)
    (st : ucd_state) :
    burst_tlv type tvb length pos st =
      outcome.bounds_error { st with reads := st.reads ++ [pos] } := by
  rcases ht with rfl | rfl
  · rw [burst_tlv_four]
    unfold burst_descr_tlv
    rw [dissector_bind_ok _ (tvb_get_guint8_some h0 st)]
    exact dissector_bind_err _ (tvb_get_guint8_none h1 _)
  · rw [burst_tlv_five]
    unfold burst_descr5_tlv
    rw [dissector_bind_ok _ (tvb_get_guint8_some h0 st)]
    exact dissector_bind_err _ (tvb_get_guint8_none h1 _)

theorem dissect_tlv_no_type {tvb : tvbuff_t} {pos : Nat} (h0 : tvb[pos]? = none)
    (st : ucd_state) :
    dissect_tlv tvb pos st = outcome.bounds_error st :=
  dissector_bind_err _ (tvb_get_guint8_none h0 st)

theorem dissect_tlv_no_length {tvb : tvbuff_t} {pos : Nat} {t : guint8}
    (h0 : tvb[pos]? = some t) (h1 : tvb[pos + 1]? = none) (st : ucd_state) :
    dissect_tlv tvb pos st =
      outcome.bounds_error
        { st with
          tree := st.tree ++
            [tree_op.subtree pos (-1) (val_to_str t.val channel_tlv_vals "Unknown TLV (%u)"),
             tree_op.item tlv_tree hf_docsis_ucd_type pos 1 (fvalue.uinteger t.val)]
          reads := st.reads ++ [pos] } := by
  have ht : t.val % 4294967296 = t.val := by have := t.isLt; omega
  simp [dissect_tlv, dissector_bind_apply, tvb_get_guint8_some h0, tvb_get_guint8_none h1, ht]

/-- A burst descriptor whose sub-TLVs tile its value after the Interval Usage
Code: the cursor ends at `p + 2 + len`, or the bounds exception is thrown
because the record goes past the end of the buffer; only bytes of the record
are read. -/
theorem dissect_tlv_burst_fill {good : Nat → Nat → Prop} {tvb : tvbuff_t} {p : Nat}
    {t len : guint8} (ht : t.val = 4 ∨ t.val = 5)
    (h0 : tvb[p]? = some t) (h1 : tvb[p + 1]? = some len)
    (hf : sub_tlvs_fill good tvb (p + 3) (p + 2 + len.val)) (st : ucd_state) :
    ∃ st', st.continues st' p (p + 2 + len.val) ∧
      (dissect_tlv tvb p st = outcome.ok (p + 2 + len.val) st' ∨
        (dissect_tlv tvb p st = outcome.bounds_error st' ∧ tvb.length < p + 2 + len.val)) ∧
      ((∀ s l, good s l → table_sub_tlv t.val s l) → st'.expert = st.expert) := by
  have hle := sub_tlvs_fill_le hf
  have hh := tlv_header_continues st p t.val len.val (p + 2 + len.val) (by omega)
  rw [dissect_tlv_header h0 h1]
  by_cases hb : p + 2 + 1 ≤ tvb.length
  · rw [ucd_switch_burst _ _ ht hb]
    obtain ⟨st', k, hk, hc, hres, hex⟩ :=
      burst_loop_fill t.val len.val (p + 2 + len.val) ht hf (Nat.le_refl _)
        { tlv_header st p t.val len.val with
          tree := (tlv_header st p t.val len.val).tree ++
            [tree_op.item tlv_tree hf_docsis_ucd_iuc (p + 2) 1
              (fvalue.uinteger (get_uint_value ((tvb.drop (p + 2)).take 1)))]
          reads := (tlv_header st p t.val len.val).reads ++ [p + 2] }
    have hc2 : st.continues st' p (p + 2 + len.val) := by
      refine @ucd_state.continues_trans _ _ _ p (p + 2 + len.val) _ _ _ _ ?_ hc
        (Nat.le_refl _) (by omega) (Nat.le_refl _) (Nat.le_refl _)
      refine @ucd_state.continues_trans _ _ _ _ _ p (p + 2 + len.val) _ _ hh ?_
        (Nat.le_refl _) (Nat.le_refl _) (Nat.le_refl _) (Nat.le_refl _)
      simp [ucd_state.continues]
      omega
    have hfuel : len.val = (len.val - k) + k := by omega
    refine ⟨st', hc2, ?_, ?_⟩
    · rcases hres with hres | ⟨hlt, hres⟩
      · left
        have h2 := hres (len.val - k)
        rw [← hfuel] at h2
        have h3 : p + 2 + 1 = p + 3 := rfl
        rw [h3, h2]
        exact while_loop_done _ _ (Nat.lt_irrefl _) st'
      · right
        have h2 := hres (len.val - k)
        rw [← hfuel] at h2
        exact ⟨h2, hlt⟩
    · intro hall
      rw [hex hall]
      rfl
  · rw [ucd_switch_burst_cut _ _ ht (by omega)]
    exact ⟨_, hh, Or.inr ⟨rfl, by omega⟩, fun _ => rfl⟩

theorem valid_tlvs_le {good : Nat → Nat → Nat → Prop} {tvb : tvbuff_t} {p e : Nat}
    (h : valid_tlvs good tvb p e) : p ≤ e := by
  induction h with
  | done e => exact Nat.le_refl e
  | symbol_rate p e _ _ _ ih => omega
  | frequency p e _ _ _ ih => omega
  | preamble p e len _ _ _ ih => omega
  | burst_descr p e t len _ _ _ _ _ _ ih => omega

/-- The top-level loop over valid TLVs that tile `p .. q - 1` inside the
buffer: after `k` iterations the cursor is at `q`; the bytes read are in
`p .. q - 1`, and no expert info is added when every sub-TLV has its table
length. -/
theorem dissect_tlvs_valid {good : Nat → Nat → Nat → Prop} {tvb : tvbuff_t} {p q : Nat}
    (len : Nat) (h : valid_tlvs good tvb p q) (hq : q ≤ tvb.length) (hlen : q ≤ len)
    (st : ucd_state) :
    ∃ st' k, 2 * k ≤ q - p ∧ st.continues st' p q ∧
      (∀ fuel, while_loop len (dissect_tlv tvb) (fuel + k) p st =
        while_loop len (dissect_tlv tvb) fuel q st') ∧
      ((∀ t s l, good t s l → table_sub_tlv t s l) → st'.expert = st.expert) := by
  induction h generalizing st with
  | done e =>
    exact ⟨st, 0, by omega, st.continues_refl e e, fun _ => rfl, fun _ => rfl⟩
  | symbol_rate p e h0 h1 hrest ih =>
    have hle := valid_tlvs_le hrest
    have hlt : p + 2 < tvb.length := by omega
    have h2 : tvb[p + 2]? = some tvb[p + 2] := List.getElem?_eq_getElem hlt
    have hstep := dissect_tlv_header h0 h1 st
    rw [show ((1 : guint8).val) = 1 from rfl, ucd_switch_symbol_rate h2] at hstep
    obtain ⟨st1, hok, hc1, hex1⟩ : ∃ st1, dissect_tlv tvb p st = outcome.ok (p + 3) st1 ∧
        st.continues st1 p (p + 3) ∧ st1.expert = st.expert := by
      refine ⟨_, hstep, ?_, rfl⟩
      simp [ucd_state.continues, tlv_header]
    obtain ⟨st', k, hk, hc, hres, hex⟩ := ih hq hlen st1
    refine ⟨st', k + 1, by omega, ?_, ?_, ?_⟩
    · exact ucd_state.continues_trans hc1 hc (Nat.le_refl _) (by omega) hle (Nat.le_refl _)
    · intro fuel
      rw [← Nat.add_assoc, while_loop_step_ok _ (by omega) hok]
      exact hres fuel
    · intro hall
      rw [hex hall, hex1]
  | frequency p e h0 h1 hrest ih =>
    have hle := valid_tlvs_le hrest
    have hstep := dissect_tlv_header h0 h1 st
    rw [show ((2 : guint8).val) = 2 from rfl, show ((4 : guint8).val) = 4 from rfl,
      ucd_switch_frequency (by omega)] at hstep
    obtain ⟨st1, hok, hc1, hex1⟩ : ∃ st1, dissect_tlv tvb p st = outcome.ok (p + 6) st1 ∧
        st.continues st1 p (p + 6) ∧ st1.expert = st.expert := by
      refine ⟨_, hstep, ?_, rfl⟩
      simp [ucd_state.continues, tlv_header]
      omega
    obtain ⟨st', k, hk, hc, hres, hex⟩ := ih hq hlen st1
    refine ⟨st', k + 1, by omega, ?_, ?_, ?_⟩
    · exact ucd_state.continues_trans hc1 hc (Nat.le_refl _) (by omega) hle (Nat.le_refl _)
    · intro fuel
      rw [← Nat.add_assoc, while_loop_step_ok _ (by omega) hok]
      exact hres fuel
    · intro hall
      rw [hex hall, hex1]
  | preamble p e l h0 h1 hrest ih =>
    have hle := valid_tlvs_le hrest
    have hstep := dissect_tlv_header h0 h1 st
    rw [show ((3 : guint8).val) = 3 from rfl, ucd_switch_preamble (by omega)] at hstep
    obtain ⟨st1, hok, hc1, hex1⟩ : ∃ st1,
        dissect_tlv tvb p st = outcome.ok (p + 2 + l.val) st1 ∧
        st.continues st1 p (p + 2 + l.val) ∧ st1.expert = st.expert := by
      refine ⟨_, hstep, ?_, rfl⟩
      simp [ucd_state.continues, tlv_header, List.mem_range'_1]
      exact ⟨by omega, by omega, fun a ha hb => ⟨by omega, hb⟩⟩
    obtain ⟨st', k, hk, hc, hres, hex⟩ := ih hq hlen st1
    refine ⟨st', k + 1, by omega, ?_, ?_, ?_⟩
    · exact ucd_state.continues_trans hc1 hc (Nat.le_refl _) (by omega) hle (Nat.le_refl _)
    · intro fuel
      rw [← Nat.add_assoc, while_loop_step_ok _ (by omega) hok]
      exact hres fuel
    · intro hall
      rw [hex hall, hex1]
  | burst_descr p e t l ht h0 h1 hl hf hrest ih =>
    have hle := valid_tlvs_le hrest
    obtain ⟨st1, hc1, hres1, hex1⟩ := dissect_tlv_burst_fill ht h0 h1 hf st
    rcases hres1 with hok | ⟨_, hlt⟩
    · obtain ⟨st', k, hk, hc, hres, hex⟩ := ih hq hlen st1
      refine ⟨st', k + 1, by omega, ?_, ?_, ?_⟩
      · exact ucd_state.continues_trans hc1 hc (Nat.le_refl _) (by omega) hle (Nat.le_refl _)
      · intro fuel
        rw [← Nat.add_assoc, while_loop_step_ok _ (by omega) hok]
        exact hres fuel
      · intro hall
        rw [hex hall, hex1 (hall t.val)]
    · omega

theorem dissect_ucd_header (b0 b1 b2 b3 : guint8) (rest : tvbuff_t) (st : ucd_state) :
    dissect_ucd (b0 :: b1 :: b2 :: b3 :: rest) true st =
      ((dissect_tlvs (b0 :: b1 :: b2 :: b3 :: rest) (rest.length + 4) (rest.length + 4) 4 >>=
        fun pos => pure (some pos)) (ucd_header st b0 b1 b2 b3) : outcome (Option Nat)) := by
  have h0 : (b0 :: b1 :: b2 :: b3 :: rest)[0]? = some b0 := by simp
  unfold dissect_ucd
  rw [dissector_bind_ok _ (tvb_get_guint8_some h0 st)]
  by_cases h : b0.val > 0
  · simp [h, dissector_bind_apply, proto_tree_add_item, ucd_header, hf, decode_value,
      get_uint_value, tvb_reported_length_remaining, List.range']
  · simp [h, dissector_bind_apply, proto_tree_add_item, ucd_header, hf, decode_value,
      get_uint_value, tvb_reported_length_remaining, List.range']

theorem dissect_ucd_of_tlvs_ok {b0 b1 b2 b3 : guint8} {rest : tvbuff_t} {st st' : ucd_state}
    {pos : Nat}
    (h : dissect_tlvs (b0 :: b1 :: b2 :: b3 :: rest) (rest.length + 4) (rest.length + 4) 4
      (ucd_header st b0 b1 b2 b3) = outcome.ok pos st') :
    dissect_ucd (b0 :: b1 :: b2 :: b3 :: rest) true st = outcome.ok (some pos) st' := by
  rw [dissect_ucd_header, dissector_bind_ok _ h]
  rfl

theorem dissect_ucd_of_tlvs_err {b0 b1 b2 b3 : guint8} {rest : tvbuff_t} {st st' : ucd_state}
    (h : dissect_tlvs (b0 :: b1 :: b2 :: b3 :: rest) (rest.length + 4) (rest.length + 4) 4
      (ucd_header st b0 b1 b2 b3) = outcome.bounds_error st') :
    dissect_ucd (b0 :: b1 :: b2 :: b3 :: rest) true st = outcome.bounds_error st' := by
  rw [dissect_ucd_header, dissector_bind_err _ h]

theorem four_bytes_of_le {tvb : tvbuff_t} (h : 4 ≤ tvb.length) :
    ∃ b0 b1 b2 b3 rest, tvb = b0 :: b1 :: b2 :: b3 :: rest := by
  match tvb, h with
  | b0 :: b1 :: b2 :: b3 :: rest, _ => exact ⟨b0, b1, b2, b3, rest, rfl⟩

/-! ## One sub-TLV -/

/-- At a sub-TLV header the loop body throws exactly when the sub-type is
legal, the sub-length is the table length and the value goes past the end of
the buffer; else it ends normally at `p + 2 + len`. -/
theorem burst_tlv_ok_or_cut {tvb : tvbuff_t} {p : Nat} {s len : guint8} (type length : Nat)
    (ht : type = 4 ∨ type = 5)
    (h0 : tvb[p]? = some s) (h1 : tvb[p + 1]? = some len) (st : ucd_state) :
    (legal_sub_type type s.val ∧ len.val = sub_tlv_expected_length s.val ∧
        tvb.length < p + 2 + len.val ∧
        burst_tlv type tvb length p st =
          outcome.bounds_error { st with reads := st.reads ++ [p, p + 1] }) ∨
    (¬ (legal_sub_type type s.val ∧ len.val = sub_tlv_expected_length s.val ∧
        tvb.length < p + 2 + len.val) ∧
      ∃ st1, burst_tlv type tvb length p st = outcome.ok (p + 2 + len.val) st1) := by
  have hbody := burst_tlv_apply type length ht h0 h1 st
  by_cases hl : legal_sub_type type s.val
  · by_cases he : len.val = sub_tlv_expected_length s.val
    · by_cases hb : p + 2 + len.val ≤ tvb.length
      · rw [if_pos hl, if_pos he, if_pos hb] at hbody
        exact Or.inr ⟨fun h => by omega, _, hbody⟩
      · rw [if_pos hl, if_pos he, if_neg hb] at hbody
        exact Or.inl ⟨hl, he, by omega, hbody⟩
    · rw [if_pos hl, if_neg he] at hbody
      exact Or.inr ⟨fun h => he h.2.1, _, hbody⟩
  · rw [if_neg hl] at hbody
    exact Or.inr ⟨fun h => hl h.1, _, hbody⟩

theorem legal_sub_type_four_five {s : Nat} :
    legal_sub_type 4 s ↔ legal_sub_type 5 s ∧ s ≠ 12 ∧ s ≠ 13 ∧ s ≠ 14 := by
  simp [legal_sub_type]
  omega


/-! ## The fuel is enough -/

/-- A loop whose body moves the cursor forward and never runs out of fuel does
not run out of fuel when it gets `bound - pos` units of it, and never ends
before the cursor it started from. -/
theorem while_loop_fuel {bound : Nat} {body : Nat → dissector Nat}
    (hfuel : ∀ pos st st', body pos st ≠ outcome.out_of_fuel st')
    (hadv : ∀ pos st pos' st', body pos st = outcome.ok pos' st' → pos < pos') :
    ∀ (fuel pos : Nat) (st : ucd_state), bound - pos ≤ fuel →
      (∀ st', while_loop bound body fuel pos st ≠ outcome.out_of_fuel st') ∧
      (∀ pos' st', while_loop bound body fuel pos st = outcome.ok pos' st' → pos ≤ pos') := by
  intro fuel
  induction fuel with
  | zero =>
    intro pos st h
    have hn : ¬ pos < bound := by omega
    rw [while_loop_done _ _ hn]
    refine ⟨fun st' hc => (by cases hc), fun pos' st' hc => ?_⟩
    injection hc with h1 _
    omega
  | succ f ih =>
    intro pos st h
    by_cases hlt : pos < bound
    · cases hb : body pos st with
      | ok a st1 =>
        have ha := hadv pos st a st1 hb
        rw [while_loop_step_ok f hlt hb]
        obtain ⟨i1, i2⟩ := ih a st1 (by omega)
        exact ⟨i1, fun pos' st' hc => Nat.le_trans (Nat.le_of_lt ha) (i2 pos' st' hc)⟩
      | bounds_error st1 =>
        rw [while_loop_step_err f hlt hb]
        exact ⟨fun st' hc => (by cases hc), fun pos' st' hc => (by cases hc)⟩
      | out_of_fuel st1 => exact absurd hb (hfuel pos st st1)
    · rw [while_loop_done _ _ hlt]
      refine ⟨fun st' hc => (by cases hc), fun pos' st' hc => ?_⟩
      injection hc with h1 _
      omega

/-- One iteration of a sub-TLV loop ends with the cursor at least 2 further, or
with the bounds exception. -/
theorem burst_tlv_total (tvb : tvbuff_t) (type length pos : Nat) (ht : type = 4 ∨ type = 5)
    (st : ucd_state) :
    (∃ pos' st', burst_tlv type tvb length pos st = outcome.ok pos' st' ∧ pos + 2 ≤ pos') ∨
    (∃ st', burst_tlv type tvb length pos st = outcome.bounds_error st') := by
  cases h0 : tvb[pos]? with
  | none => exact Or.inr ⟨_, burst_tlv_no_type type length ht h0 st⟩
  | some s =>
    cases h1 : tvb[pos + 1]? with
    | none => exact Or.inr ⟨_, burst_tlv_no_length type length ht h0 h1 st⟩
    | some len =>
      obtain ⟨st1, _, hres, _⟩ := burst_tlv_step type length ht h0 h1 st
      rcases hres with hok | ⟨herr, _⟩
      · exact Or.inl ⟨_, st1, hok, by omega⟩
      · exact Or.inr ⟨st1, herr⟩

/-- The sub-TLV loop of a burst descriptor, with the fuel `ucd_switch` gives
it, ends with the cursor not before its start, or with the bounds exception. -/
theorem burst_loop_total (tvb : tvbuff_t) (type length pos : Nat) (ht : type = 4 ∨ type = 5)
    (st : ucd_state) :
    (∃ pos' st', while_loop (pos + length) (burst_tlv type tvb length) length (pos + 1) st =
        outcome.ok pos' st' ∧ pos + 1 ≤ pos') ∨
    (∃ st', while_loop (pos + length) (burst_tlv type tvb length) length (pos + 1) st =
        outcome.bounds_error st') := by
  have hfuel : ∀ p s s', burst_tlv type tvb length p s ≠ outcome.out_of_fuel s' := by
    intro p s s' hc
    rcases burst_tlv_total tvb type length p ht s with ⟨_, _, h, _⟩ | ⟨_, h⟩ <;>
      rw [h] at hc <;> cases hc
  have hadv : ∀ p s p' s', burst_tlv type tvb length p s = outcome.ok p' s' → p < p' := by
    intro p s p' s' hc
    rcases burst_tlv_total tvb type length p ht s with ⟨q, _, h, hq⟩ | ⟨_, h⟩
    · rw [h] at hc
      injection hc with h1 _
      omega
    · rw [h] at hc
      cases hc
  obtain ⟨h1, h2⟩ :=
    @while_loop_fuel (pos + length) _ hfuel hadv length (pos + 1) st (by omega)
  cases hr : while_loop (pos + length) (burst_tlv type tvb length) length (pos + 1) st with
  | ok a st1 => exact Or.inl ⟨a, st1, rfl, h2 a st1 hr⟩
  | bounds_error st1 => exact Or.inr ⟨st1, rfl⟩
  | out_of_fuel st1 => exact absurd hr (h1 st1)

/-- The switch of the top-level loop ends with the cursor not before the start
of the value, or with the bounds exception. -/
theorem ucd_switch_total (tvb : tvbuff_t) (type length pos : Nat) (st : ucd_state) :
    (∃ pos' st', ucd_switch tvb type length pos st = outcome.ok pos' st' ∧ pos ≤ pos') ∨
    (∃ st', ucd_switch tvb type length pos st = outcome.bounds_error st') := by
  by_cases hk : 1 ≤ type ∧ type ≤ 5
  · obtain ⟨hk1, hk5⟩ := hk
    interval_cases type
    · by_cases hl : length = 1
      · subst hl
        cases h : tvb[pos]? with
        | some b => exact Or.inl ⟨_, _, ucd_switch_symbol_rate h st, by omega⟩
        | none =>
          have hcut : tvb.length ≤ pos := by simpa using h
          exact Or.inr ⟨_, ucd_switch_symbol_rate_cut hcut st⟩
      · exact Or.inl ⟨_, _, ucd_switch_symbol_rate_bad tvb pos hl st, by omega⟩
    · by_cases hl : length = 4
      · subst hl
        by_cases hb : pos + 4 ≤ tvb.length
        · exact Or.inl ⟨_, _, ucd_switch_frequency hb st, by omega⟩
        · exact Or.inr ⟨_, ucd_switch_frequency_cut (by omega) st⟩
      · exact Or.inl ⟨_, _, ucd_switch_frequency_bad tvb pos hl st, Nat.le_refl _⟩
    · by_cases hb : pos + length ≤ tvb.length
      · exact Or.inl ⟨_, _, ucd_switch_preamble hb st, by omega⟩
      · exact Or.inr ⟨_, ucd_switch_preamble_cut (by omega) st⟩
    · by_cases hb : pos + 1 ≤ tvb.length
      · rw [ucd_switch_burst 4 length (Or.inl rfl) hb]
        rcases burst_loop_total tvb 4 length pos (Or.inl rfl) _ with ⟨a, s, h, ha⟩ | ⟨s, h⟩
        · exact Or.inl ⟨a, s, h, by omega⟩
        · exact Or.inr ⟨s, h⟩
      · exact Or.inr ⟨_, ucd_switch_burst_cut 4 length (Or.inl rfl) (by omega) st⟩
    · by_cases hb : pos + 1 ≤ tvb.length
      · rw [ucd_switch_burst 5 length (Or.inr rfl) hb]
        rcases burst_loop_total tvb 5 length pos (Or.inr rfl) _ with ⟨a, s, h, ha⟩ | ⟨s, h⟩
        · exact Or.inl ⟨a, s, h, by omega⟩
        · exact Or.inr ⟨s, h⟩
      · exact Or.inr ⟨_, ucd_switch_burst_cut 5 length (Or.inr rfl) (by omega) st⟩
  · exact Or.inl ⟨_, _, ucd_switch_unknown tvb length pos hk st, Nat.le_refl _⟩

/-- One iteration of the top-level loop ends with the cursor at least 2
further, or with the bounds exception. -/
theorem dissect_tlv_total (tvb : tvbuff_t) (pos : Nat) (st : ucd_state) :
    (∃ pos' st', dissect_tlv tvb pos st = outcome.ok pos' st' ∧ pos + 2 ≤ pos') ∨
    (∃ st', dissect_tlv tvb pos st = outcome.bounds_error st') := by
  cases h0 : tvb[pos]? with
  | none => exact Or.inr ⟨_, dissect_tlv_no_type h0 st⟩
  | some t =>
    cases h1 : tvb[pos + 1]? with
    | none => exact Or.inr ⟨_, dissect_tlv_no_length h0 h1 st⟩
    | some len =>
      rw [dissect_tlv_header h0 h1]
      rcases ucd_switch_total tvb t.val len.val (pos + 2) _ with ⟨a, s, h, ha⟩ | ⟨s, h⟩
      · exact Or.inl ⟨a, s, h, ha⟩
      · exact Or.inr ⟨s, h⟩

/-- The top-level loop from 4 with `len` units of fuel does not run out of
fuel. -/
theorem dissect_tlvs_total (tvb : tvbuff_t) (len : Nat) (st : ucd_state) :
    (∃ pos' st', dissect_tlvs tvb len len 4 st = outcome.ok pos' st') ∨
    (∃ st', dissect_tlvs tvb len len 4 st = outcome.bounds_error st') := by
  have hfuel : ∀ p s s', dissect_tlv tvb p s ≠ outcome.out_of_fuel s' := by
    intro p s s' hc
    rcases dissect_tlv_total tvb p s with ⟨_, _, h, _⟩ | ⟨_, h⟩ <;>
      rw [h] at hc <;> cases hc
  have hadv : ∀ p s p' s', dissect_tlv tvb p s = outcome.ok p' s' → p < p' := by
    intro p s p' s' hc
    rcases dissect_tlv_total tvb p s with ⟨q, _, h, hq⟩ | ⟨_, h⟩
    · rw [h] at hc
      injection hc with h1 _
      omega
    · rw [h] at hc
      cases hc
  obtain ⟨h1, _⟩ := @while_loop_fuel len _ hfuel hadv len 4 st (by omega)
  unfold dissect_tlvs
  cases hr : while_loop len (dissect_tlv tvb) len 4 st with
  | ok a st1 => exact Or.inl ⟨a, st1, rfl⟩
  | bounds_error st1 => exact Or.inr ⟨st1, rfl⟩
  | out_of_fuel st1 => exact absurd hr (h1 st1)

/-- A buffer of fewer than 4 bytes, with a tree requested: the bounds exception
is thrown. -/
theorem dissect_ucd_short (tvb : tvbuff_t) (st : ucd_state) (h : tvb.length < 4) :
    ∃ st', dissect_ucd tvb true st = outcome.bounds_error st' := by
  match tvb, h with
  | [], _ =>
    exact ⟨st, dissector_bind_err _ (tvb_get_guint8_none (by simp) st)⟩
  | [b0], _ =>
    have h0 : ([b0] : tvbuff_t)[0]? = some b0 := by simp
    unfold dissect_ucd
    rw [dissector_bind_ok _ (tvb_get_guint8_some h0 st)]
    by_cases hb : b0.val > 0 <;>
      simp [hb, dissector_bind_apply, proto_tree_add_item]
  | [b0, b1], _ =>
    have h0 : ([b0, b1] : tvbuff_t)[0]? = some b0 := by simp
    unfold dissect_ucd
    rw [dissector_bind_ok _ (tvb_get_guint8_some h0 st)]
    by_cases hb : b0.val > 0 <;>
      simp [hb, dissector_bind_apply, proto_tree_add_item]
  | [b0, b1, b2], _ =>
    have h0 : ([b0, b1, b2] : tvbuff_t)[0]? = some b0 := by simp
    unfold dissect_ucd
    rw [dissector_bind_ok _ (tvb_get_guint8_some h0 st)]
    by_cases hb : b0.val > 0 <;>
      simp [hb, dissector_bind_apply, proto_tree_add_item]

/-- The function `dissect_ucd` never runs out of fuel: it ends normally or with
the bounds exception. -/
theorem dissect_ucd_total (tvb : tvbuff_t) (tree : Bool) (st : ucd_state) :
    (∃ r st', dissect_ucd tvb tree st = outcome.ok r st') ∨
    (∃ st', dissect_ucd tvb tree st = outcome.bounds_error st') := by
  cases tree with
  | false =>
    cases tvb with
    | nil => exact Or.inr ⟨st, dissector_bind_err _ (tvb_get_guint8_none (by simp) st)⟩
    | cons b0 rest =>
      have h0 : (b0 :: rest)[0]? = some b0 := by simp
      left
      unfold dissect_ucd
      rw [dissector_bind_ok _ (tvb_get_guint8_some h0 st)]
      by_cases hb : b0.val > 0 <;>
        simp [hb, dissector_bind_apply]
  | true =>
    by_cases h : tvb.length < 4
    · exact Or.inr (dissect_ucd_short tvb st h)
    · obtain ⟨b0, b1, b2, b3, rest, rfl⟩ := four_bytes_of_le (Nat.le_of_not_lt h)
      rcases dissect_tlvs_total (b0 :: b1 :: b2 :: b3 :: rest) (rest.length + 4)
        (ucd_header st b0 b1 b2 b3) with ⟨p, s, hok⟩ | ⟨s, herr⟩
      · exact Or.inl ⟨some p, s, dissect_ucd_of_tlvs_ok hok⟩
      · exact Or.inr ⟨s, dissect_ucd_of_tlvs_err herr⟩

/-! ## The bytes of a value -/

theorem take_drop_one {tvb : tvbuff_t} {p : Nat} {b : guint8} (h : tvb[p]? = some b) :
    (tvb.drop p).take 1 = [b] := by
  apply List.ext_getElem?
  intro i
  rcases i with _ | i
  · simp [List.getElem?_take, h]
  · simp [List.getElem?_take]

theorem take_drop_two {tvb : tvbuff_t} {p : Nat} {b0 b1 : guint8}
    (h0 : tvb[p]? = some b0) (h1 : tvb[p + 1]? = some b1) :
    (tvb.drop p).take 2 = [b0, b1] := by
  apply List.ext_getElem?
  intro i
  rcases i with _ | _ | i
  · simp [List.getElem?_take, h0]
  · simp [List.getElem?_take, h1]
  · simp [List.getElem?_take]

theorem length_of_getElem?_some {tvb : tvbuff_t} {p : Nat} {b : guint8}
    (h : tvb[p]? = some b) : p + 1 ≤ tvb.length := by
  by_contra hc
  have hn : tvb[p]? = none := by
    simp
    omega
  rw [hn] at h
  cases h

/-! ## Table lookups -/

theorem try_val_to_str_none {v : Nat} {vs : value_string}
    (h : v ∉ vs.map Prod.fst) : try_val_to_str v vs = none := by
  induction vs with
  | nil => rfl
  | cons p rest ih =>
    obtain ⟨a, s⟩ := p
    have ha : a ≠ v := by
      intro hc
      exact h (by simp [hc])
    have hr : v ∉ rest.map Prod.fst := by
      intro hc
      exact h (by simp [hc])
    show (if a = v then some s else try_val_to_str v rest) = none
    rw [if_neg ha, ih hr]

theorem iuc_lookup (v : Nat) :
    (try_val_to_str v iuc_vals).isSome = decide (1 ≤ v ∧ v ≤ 15) := by
  by_cases h : v ≤ 15
  · interval_cases v <;> rfl
  · have hd : decide (1 ≤ v ∧ v ≤ 15) = false := by
      simp only [decide_eq_false_iff_not]
      omega
    have hm : iuc_vals.map Prod.fst = List.range' 1 15 := rfl
    rw [hd, try_val_to_str_none]
    · rfl
    · rw [hm, List.mem_range'_1]
      omega

theorem two_names_lookup (v : Nat) (a b : String) :
    try_val_to_str v [(1, a), (2, b)] =
      (if v = 1 then some a else if v = 2 then some b else none) := by
  by_cases h1 : v = 1
  · subst h1
    rfl
  · by_cases h2 : v = 2
    · subst h2
      rfl
    · rw [if_neg h1, if_neg h2]
      apply try_val_to_str_none
      simp only [List.map_cons, List.map_nil, List.mem_cons, List.mem_singleton, List.not_mem_nil,
        or_false]
      omega

/-! ## The cursor after a top-level record (C1) -/

/-- C1, counterexample. A legacy burst descriptor at offset 4 with declared
length 4 whose only sub-TLV (sub-type 8, Max Burst) declares 3 value bytes where
the descriptor has room for one: the length is flagged and the cursor after the
record is 12, not 4 + 2 + 4 = 10; the bytes at 10 and 11 are never taken as the
next record header. -/
theorem top_level_cursor_counterexample :
    dissect_tlv [0, 0, 0, 0, 4, 4, 3, 8, 3, 7, 1, 1] 4 ucd_state.init =
      outcome.ok 12
        { col_info := ""
          tree :=
            [tree_op.subtree 4 (-1) "Burst Descriptor",
             tree_op.item tlv_tree hf_docsis_ucd_type 4 1 (fvalue.uinteger 4),
             tree_op.item tlv_tree hf_docsis_ucd_length 5 1 (fvalue.uinteger 4),
             tree_op.set_len 6,
             tree_op.item tlv_tree hf_docsis_ucd_iuc 6 1 (fvalue.uinteger 3)]
          expert := [{ format := "Wrong TLV length: %u", arg := 4 }]
          reads := [4, 5, 6, 7, 8] } ∧
    12 ≠ 4 + 2 + 4 :=
  ⟨rfl, by decide⟩

/-- C1, amended. A top-level record at offset `pos` with declared length `len`
that is a Symbol Rate or a Preamble Pattern (whatever `len`, so also when the
Symbol Rate length is flagged), a Frequency of length 4, or a burst descriptor
whose sub-TLVs tile the `len - 1` bytes after the Interval Usage Code, is
processed with the cursor ending at `pos + 2 + len`, unless the bounds
exception is thrown. -/
theorem top_level_cursor (tvb : tvbuff_t) (pos : Nat) (t len : guint8) (st : ucd_state)
    (h0 : tvb[pos]? = some t) (h1 : tvb[pos + 1]? = some len)
    (hk : t.val = 1 ∨ t.val = 3 ∨ (t.val = 2 ∧ len.val = 4) ∨
      ((t.val = 4 ∨ t.val = 5) ∧
        sub_tlvs_fill any_sub_tlv tvb (pos + 3) (pos + 2 + len.val))) :
    (∃ st', dissect_tlv tvb pos st = outcome.ok (pos + 2 + len.val) st') ∨
    (∃ st', dissect_tlv tvb pos st = outcome.bounds_error st') := by
  rcases hk with ht | ht | ⟨ht, hl⟩ | ⟨ht, hf⟩
  · rw [dissect_tlv_header h0 h1, ht]
    by_cases hl : len.val = 1
    · rw [hl]
      cases h2 : tvb[pos + 2]? with
      | some b => exact Or.inl ⟨_, ucd_switch_symbol_rate h2 _⟩
      | none =>
        have hcut : tvb.length ≤ pos + 2 := by
          simpa using h2
        exact Or.inr ⟨_, ucd_switch_symbol_rate_cut hcut _⟩
    · exact Or.inl ⟨_, ucd_switch_symbol_rate_bad tvb (pos + 2) hl _⟩
  · rw [dissect_tlv_header h0 h1, ht]
    by_cases hb : pos + 2 + len.val ≤ tvb.length
    · exact Or.inl ⟨_, ucd_switch_preamble hb _⟩
    · exact Or.inr ⟨_, ucd_switch_preamble_cut (by omega) _⟩
  · rw [dissect_tlv_header h0 h1, ht, hl]
    by_cases hb : pos + 2 + 4 ≤ tvb.length
    · exact Or.inl ⟨_, ucd_switch_frequency hb _⟩
    · exact Or.inr ⟨_, ucd_switch_frequency_cut (by omega) _⟩
  · obtain ⟨st', _, hres, _⟩ := dissect_tlv_burst_fill ht h0 h1 hf st
    rcases hres with hok | ⟨herr, _⟩
    · exact Or.inl ⟨st', hok⟩
    · exact Or.inr ⟨st', herr⟩

/-- C1, witness: a legacy burst descriptor at offset 4 with declared length 5,
filled by the Interval Usage Code and one sub-TLV of two value bytes. -/
theorem top_level_cursor_witness :
    ([0, 0, 0, 0, 4, 5, 3, 1, 2, 0, 0] : tvbuff_t)[4]? = some 4 ∧
    ([0, 0, 0, 0, 4, 5, 3, 1, 2, 0, 0] : tvbuff_t)[4 + 1]? = some 5 ∧
    ((∃ st', dissect_tlv [0, 0, 0, 0, 4, 5, 3, 1, 2, 0, 0] 4 ucd_state.init =
        outcome.ok (4 + 2 + 5) st') ∨
     (∃ st', dissect_tlv [0, 0, 0, 0, 4, 5, 3, 1, 2, 0, 0] 4 ucd_state.init =
        outcome.bounds_error st')) :=
  ⟨rfl, rfl,
    top_level_cursor [0, 0, 0, 0, 4, 5, 3, 1, 2, 0, 0] 4 4 5
      ucd_state.init rfl rfl
      (Or.inr (Or.inr (Or.inr ⟨Or.inl rfl,
        sub_tlvs_fill.cons 7 11 1 2 rfl rfl trivial (sub_tlvs_fill.done 11)⟩)))⟩

/-! ## Unknown top-level types (C3) -/

/-- C3, the code at the failing input: an unknown TLV (type 9) of length 2 with
value bytes 1, 1, followed by the Symbol Rate TLV (1, 1, 44). The unknown TLV is
labelled and raises no expert info, but the cursor after it is 6, not 8: its
value bytes are taken as a Symbol Rate header, byte 8 is decoded as the symbol
rate 160, and the real Symbol Rate TLV is read as type 1 with length 44 and
flagged. -/
theorem unknown_type_not_skipped :
    dissect_ucd [0, 0, 0, 0, 9, 2, 1, 1, 1, 1, 44] true ucd_state.init =
      outcome.ok (some 55)
        { col_info := "UCD Message:  Channel ID = 0 (Telephony Return)"
          tree :=
            [tree_op.protocol_format 0 (-1) "UCD Message",
             tree_op.item ucd_tree hf_docsis_ucd_upstream_chid 0 1 (fvalue.uinteger 0),
             tree_op.item ucd_tree hf_docsis_ucd_config_ch_cnt 1 1 (fvalue.uinteger 0),
             tree_op.item ucd_tree hf_docsis_ucd_mini_slot_size 2 1 (fvalue.uinteger 0),
             tree_op.item ucd_tree hf_docsis_ucd_down_chid 3 1 (fvalue.uinteger 0),
             tree_op.subtree 4 (-1) "Unknown TLV (9)",
             tree_op.item tlv_tree hf_docsis_ucd_type 4 1 (fvalue.uinteger 9),
             tree_op.item tlv_tree hf_docsis_ucd_length 5 1 (fvalue.uinteger 2),
             tree_op.set_len 4,
             tree_op.subtree 6 (-1) "Symbol Rate",
             tree_op.item tlv_tree hf_docsis_ucd_type 6 1 (fvalue.uinteger 1),
             tree_op.item tlv_tree hf_docsis_ucd_length 7 1 (fvalue.uinteger 1),
             tree_op.set_len 3,
             tree_op.item tlv_tree hf_docsis_ucd_symbol_rate 8 1 (fvalue.uinteger 160),
             tree_op.subtree 9 (-1) "Symbol Rate",
             tree_op.item tlv_tree hf_docsis_ucd_type 9 1 (fvalue.uinteger 1),
             tree_op.item tlv_tree hf_docsis_ucd_length 10 1 (fvalue.uinteger 44),
             tree_op.set_len 46]
          expert := [{ format := "Wrong TLV length: %u", arg := 44 }]
          reads := [0, 0, 1, 2, 3, 4, 5, 6, 7, 8, 9, 10] } ∧
    dissect_tlv [0, 0, 0, 0, 9, 2, 1, 1, 1, 1, 44] 4 ucd_state.init =
      outcome.ok 6
        { col_info := ""
          tree :=
            [tree_op.subtree 4 (-1) "Unknown TLV (9)",
             tree_op.item tlv_tree hf_docsis_ucd_type 4 1 (fvalue.uinteger 9),
             tree_op.item tlv_tree hf_docsis_ucd_length 5 1 (fvalue.uinteger 2),
             tree_op.set_len 4]
          expert := []
          reads := [4, 5] } :=
  ⟨rfl, rfl⟩

/-! ## Fixed-length top-level types (C4) -/

/-- C4. For a Symbol Rate record a declared length of 1, and for a Frequency
record a declared length of 4, yields the decoded field and no expert info (the
state is the header state plus the one field); a declared length one off (0 or
2, resp. 3 or 5) yields exactly one expert info, no field and no bounds
exception. -/
theorem fixed_length_records (tvb : tvbuff_t) (pos : Nat) (len : guint8) (st : ucd_state)
    (h1 : tvb[pos + 1]? = some len) :
    (tvb[pos]? = some 1 →
      (len.val = 1 → ∀ b : guint8, tvb[pos + 2]? = some b →
        dissect_tlv tvb pos st =
          outcome.ok (pos + 3)
            { tlv_header st pos 1 1 with
              tree := (tlv_header st pos 1 1).tree ++
                [tree_op.item tlv_tree hf_docsis_ucd_symbol_rate (pos + 2) 1
                  (fvalue.uinteger (b.val * 160))]
              reads := (tlv_header st pos 1 1).reads ++ [pos + 2] }) ∧
      (len.val = 0 ∨ len.val = 2 →
        dissect_tlv tvb pos st =
          outcome.ok (pos + 2 + len.val)
            { tlv_header st pos 1 len.val with
              expert := st.expert ++ [{ format := "Wrong TLV length: %u", arg := len.val }] })) ∧
    (tvb[pos]? = some 2 →
      (len.val = 4 → pos + 6 ≤ tvb.length →
        dissect_tlv tvb pos st =
          outcome.ok (pos + 6)
            { tlv_header st pos 2 4 with
              tree := (tlv_header st pos 2 4).tree ++
                [tree_op.item tlv_tree hf_docsis_ucd_frequency (pos + 2) 4
                  (fvalue.uinteger (get_uint_value ((tvb.drop (pos + 2)).take 4)))]
              reads := (tlv_header st pos 2 4).reads ++ [pos + 2, pos + 3, pos + 4, pos + 5] }) ∧
      (len.val = 3 ∨ len.val = 5 →
        dissect_tlv tvb pos st =
          outcome.ok (pos + 2)
            { tlv_header st pos 2 len.val with
              expert := st.expert ++ [{ format := "Wrong TLV length: %u", arg := len.val }] })) := by
  refine ⟨fun h0 => ⟨?_, ?_⟩, fun h0 => ⟨?_, ?_⟩⟩
  · intro hl b h2
    rw [dissect_tlv_header h0 h1, hl]
    exact ucd_switch_symbol_rate h2 _
  · intro hl
    rw [dissect_tlv_header h0 h1]
    exact ucd_switch_symbol_rate_bad tvb (pos + 2) (by omega) _
  · intro hl hb
    rw [dissect_tlv_header h0 h1, hl]
    exact ucd_switch_frequency (by omega) _
  · intro hl
    rw [dissect_tlv_header h0 h1]
    exact ucd_switch_frequency_bad tvb (pos + 2) (by omega) _

/-- C4, witness: a Frequency record of declared length 5 at offset 4. -/
theorem fixed_length_records_witness :
    ([0, 0, 0, 0, 2, 5, 1, 2, 3, 4, 5] : tvbuff_t)[4 + 1]? = some 5 ∧
    dissect_tlv [0, 0, 0, 0, 2, 5, 1, 2, 3, 4, 5] 4 ucd_state.init =
      outcome.ok (4 + 2)
        { tlv_header ucd_state.init 4 2 5 with
          expert := [{ format := "Wrong TLV length: %u", arg := 5 }] } :=
  ⟨rfl,
    ((fixed_length_records [0, 0, 0, 0, 2, 5, 1, 2, 3, 4, 5] 4 5
      ucd_state.init rfl).2 rfl).2 (Or.inr rfl)⟩

/-! ## The argument of the expert info (C7) -/

/-- C7, the code at the failing input: a legacy burst descriptor of declared
length 5 holding a Modulation sub-TLV (sub-type 1) with sub-length 2 instead of
1. The expert info carries 5, the length of the burst descriptor, not the
sub-length 2 that failed validation. -/
theorem sub_tlv_expert_info_names_outer_length :
    dissect_ucd [0, 0, 0, 0, 4, 5, 3, 1, 2, 0, 0] true ucd_state.init =
      outcome.ok (some 11)
        { col_info := "UCD Message:  Channel ID = 0 (Telephony Return)"
          tree :=
            [tree_op.protocol_format 0 (-1) "UCD Message",
             tree_op.item ucd_tree hf_docsis_ucd_upstream_chid 0 1 (fvalue.uinteger 0),
             tree_op.item ucd_tree hf_docsis_ucd_config_ch_cnt 1 1 (fvalue.uinteger 0),
             tree_op.item ucd_tree hf_docsis_ucd_mini_slot_size 2 1 (fvalue.uinteger 0),
             tree_op.item ucd_tree hf_docsis_ucd_down_chid 3 1 (fvalue.uinteger 0),
             tree_op.subtree 4 (-1) "Burst Descriptor",
             tree_op.item tlv_tree hf_docsis_ucd_type 4 1 (fvalue.uinteger 4),
             tree_op.item tlv_tree hf_docsis_ucd_length 5 1 (fvalue.uinteger 5),
             tree_op.set_len 7,
             tree_op.item tlv_tree hf_docsis_ucd_iuc 6 1 (fvalue.uinteger 3)]
          expert := [{ format := "Wrong TLV length: %u", arg := 5 }]
          reads := [0, 0, 1, 2, 3, 4, 5, 6, 7, 8] } :=
  rfl

/-! ## Walking records of any kind -/

/-- When the sub-TLV loop ends normally, it ends at the cursor of the walk. -/
theorem sub_tlv_walk_ok {tvb : tvbuff_t} {E p q : Nat} (type length : Nat)
    (ht : type = 4 ∨ type = 5) (h : sub_tlv_walk tvb E p q) :
    ∀ (fuel : Nat) (st : ucd_state) (r : Nat) (st' : ucd_state),
      while_loop E (burst_tlv type tvb length) fuel p st = outcome.ok r st' → r = q := by
  induction h with
  | done p hlt =>
    intro fuel st r st' hr
    rw [while_loop_done _ _ hlt] at hr
    injection hr with h1 _
    exact h1.symm
  | step p q s len hlt h0 h1 _ ih =>
    intro fuel st r st' hr
    cases fuel with
    | zero =>
      simp [while_loop, hlt] at hr
    | succ f =>
      obtain ⟨st1, _, hres, _⟩ := burst_tlv_step type length ht h0 h1 st
      rcases hres with hok | ⟨herr, _⟩
      · rw [while_loop_step_ok f hlt hok] at hr
        exact ih f st1 r st' hr
      · rw [while_loop_step_err f hlt herr] at hr
        cases hr

theorem sub_tlv_walk_le {tvb : tvbuff_t} {E p q : Nat} (h : sub_tlv_walk tvb E p q) :
    p ≤ q := by
  induction h with
  | done p _ => exact Nat.le_refl p
  | step p q s len _ _ _ _ ih => omega

theorem tlv_walk_le {tvb : tvbuff_t} {p e : Nat} (h : tlv_walk tvb p e) : p ≤ e := by
  induction h with
  | done p => exact Nat.le_refl p
  | symbol_rate p e len _ _ _ ih => omega
  | frequency p e _ _ _ ih => omega
  | frequency_flagged p e len _ _ _ _ ih => omega
  | preamble p e len _ _ _ ih => omega
  | burst_descr p q e t len _ _ _ hs _ ih =>
    have := sub_tlv_walk_le hs
    omega
  | unknown p e t len _ _ _ _ ih => omega

/-- One step of the top-level loop towards a record on which it cannot end
normally. -/
theorem dissect_tlvs_not_ok_step {tvb : tvbuff_t} {p next : Nat} (hp : p < tvb.length)
    (hnext : ∀ st r st1, dissect_tlv tvb p st = outcome.ok r st1 → r = next)
    (ih : ∀ fuel st r st', dissect_tlvs tvb tvb.length fuel next st ≠ outcome.ok r st') :
    ∀ fuel st r st', dissect_tlvs tvb tvb.length fuel p st ≠ outcome.ok r st' := by
  intro fuel st r st' hr
  unfold dissect_tlvs at hr
  cases fuel with
  | zero => simp [while_loop, hp] at hr
  | succ f =>
    rcases dissect_tlv_total tvb p st with ⟨r1, st1, hok, _⟩ | ⟨st1, herr⟩
    · rw [while_loop_step_ok f hp hok] at hr
      have h1 := hnext st r1 st1 hok
      rw [h1] at hr
      exact ih f st1 r st' hr
    · rw [while_loop_step_err f hp herr] at hr
      cases hr

/-- When one iteration of the top-level loop ends normally, it leaves the
cursor where the walk says. -/
theorem dissect_tlv_walk_next {tvb : tvbuff_t} {p : Nat} {t len : guint8}
    (h0 : tvb[p]? = some t) (h1 : tvb[p + 1]? = some len)
    (st : ucd_state) (r : Nat) (st1 : ucd_state)
    (hr : dissect_tlv tvb p st = outcome.ok r st1) :
    (t.val = 1 → r = p + 2 + len.val) ∧
    (t.val = 2 → len.val = 4 → r = p + 6) ∧
    (t.val = 2 → len.val ≠ 4 → r = p + 2) ∧
    (t.val = 3 → r = p + 2 + len.val) ∧
    (¬ (1 ≤ t.val ∧ t.val ≤ 5) → r = p + 2) ∧
    (t.val = 4 ∨ t.val = 5 → ∀ q, sub_tlv_walk tvb (p + 2 + len.val) (p + 3) q → r = q) := by
  rw [dissect_tlv_header h0 h1] at hr
  refine ⟨fun ht => ?_, fun ht hl => ?_, fun ht hl => ?_, fun ht => ?_, fun ht => ?_,
    fun ht q hs => ?_⟩
  · rw [ht] at hr
    by_cases hl : len.val = 1
    · rw [hl] at hr ⊢
      cases h2 : tvb[p + 2]? with
      | some b =>
        rw [ucd_switch_symbol_rate h2] at hr
        injection hr with h _
        omega
      | none =>
        have hlen : tvb.length ≤ p + 2 := by simpa using h2
        rw [ucd_switch_symbol_rate_cut hlen] at hr
        cases hr
    · rw [ucd_switch_symbol_rate_bad tvb (p + 2) hl] at hr
      injection hr with h _
      omega
  · rw [ht, hl] at hr
    by_cases hb : p + 2 + 4 ≤ tvb.length
    · rw [ucd_switch_frequency hb] at hr
      injection hr with h _
      omega
    · rw [ucd_switch_frequency_cut (by omega)] at hr
      cases hr
  · rw [ht, ucd_switch_frequency_bad tvb (p + 2) hl] at hr
    injection hr with h _
    omega
  · rw [ht] at hr
    by_cases hb : p + 2 + len.val ≤ tvb.length
    · rw [ucd_switch_preamble hb] at hr
      injection hr with h _
      omega
    · rw [ucd_switch_preamble_cut (by omega)] at hr
      cases hr
  · rw [ucd_switch_unknown tvb len.val (p + 2) ht] at hr
    injection hr with h _
    omega
  · by_cases hb : p + 2 + 1 ≤ tvb.length
    · rw [ucd_switch_burst t.val len.val ht hb] at hr
      exact sub_tlv_walk_ok t.val len.val ht hs _ _ r st1 hr
    · rw [ucd_switch_burst_cut t.val len.val ht (by omega)] at hr
      cases hr

/-! ## From the outcome back to the walk -/

/-- When a sub-TLV loop throws the bounds exception, sub-TLV headers lead from
its start to a sub-TLV that is cut short. -/
theorem burst_loop_err_cut (tvb : tvbuff_t) (type length E : Nat) (ht : type = 4 ∨ type = 5)
    (fuel : Nat) :
    ∀ (p : Nat) (st st' : ucd_state),
      while_loop E (burst_tlv type tvb length) fuel p st = outcome.bounds_error st' →
      ∃ q, sub_tlvs_fill any_sub_tlv tvb p q ∧ q < E ∧ sub_tlv_cut type tvb q := by
  induction fuel with
  | zero =>
    intro p st st' h
    by_cases hlt : p < E
    · simp [while_loop, hlt] at h
    · rw [while_loop_done _ _ hlt] at h
      cases h
  | succ f ih =>
    intro p st st' h
    by_cases hlt : p < E
    · cases h0 : tvb[p]? with
      | none =>
        have hl : tvb.length ≤ p := by simpa using h0
        exact ⟨p, sub_tlvs_fill.done p, hlt, Or.inl (by omega)⟩
      | some s =>
        cases h1 : tvb[p + 1]? with
        | none =>
          have hl : tvb.length ≤ p + 1 := by simpa using h1
          exact ⟨p, sub_tlvs_fill.done p, hlt, Or.inl hl⟩
        | some len =>
          rcases burst_tlv_ok_or_cut type length ht h0 h1 st with
            ⟨hl, he, hb, _⟩ | ⟨_, st1, hok⟩
          · exact ⟨p, sub_tlvs_fill.done p, hlt, Or.inr ⟨s, len, h0, h1, hl, he, hb⟩⟩
          · rw [while_loop_step_ok f hlt hok] at h
            obtain ⟨q, hf, hq, hc⟩ := ih (p + 2 + len.val) st1 st' h
            exact ⟨q, sub_tlvs_fill.cons p q s len h0 h1 trivial hf, hq, hc⟩
    · rw [while_loop_done _ _ hlt] at h
      cases h

/-- When a sub-TLV loop ends normally, it has followed the walk. -/
theorem burst_loop_ok_walk (tvb : tvbuff_t) (type length E : Nat) (ht : type = 4 ∨ type = 5)
    (fuel : Nat) :
    ∀ (p : Nat) (st : ucd_state) (r : Nat) (st' : ucd_state),
      while_loop E (burst_tlv type tvb length) fuel p st = outcome.ok r st' →
      sub_tlv_walk tvb E p r := by
  induction fuel with
  | zero =>
    intro p st r st' h
    by_cases hlt : p < E
    · simp [while_loop, hlt] at h
    · rw [while_loop_done _ _ hlt] at h
      injection h with h1 _
      rw [← h1]
      exact sub_tlv_walk.done p hlt
  | succ f ih =>
    intro p st r st' h
    by_cases hlt : p < E
    · cases h0 : tvb[p]? with
      | none =>
        rw [while_loop_step_err f hlt (burst_tlv_no_type type length ht h0 st)] at h
        cases h
      | some s =>
        cases h1 : tvb[p + 1]? with
        | none =>
          rw [while_loop_step_err f hlt (burst_tlv_no_length type length ht h0 h1 st)] at h
          cases h
        | some len =>
          rcases burst_tlv_ok_or_cut type length ht h0 h1 st with
            ⟨_, _, _, herr⟩ | ⟨_, st1, hok⟩
          · rw [while_loop_step_err f hlt herr] at h
            cases h
          · rw [while_loop_step_ok f hlt hok] at h
            exact sub_tlv_walk.step p r s len hlt h0 h1 (ih (p + 2 + len.val) st1 r st' h)
    · rw [while_loop_done _ _ hlt] at h
      injection h with h1 _
      rw [← h1]
      exact sub_tlv_walk.done p hlt

/-- When one iteration of the top-level loop throws the bounds exception, the
TLV at the cursor is cut short. -/
theorem dissect_tlv_err_cut {tvb : tvbuff_t} {p : Nat} (hp : p < tvb.length)
    (st st' : ucd_state) (h : dissect_tlv tvb p st = outcome.bounds_error st') :
    tlv_cut tvb p := by
  have h0 : tvb[p]? = some tvb[p] := List.getElem?_eq_getElem hp
  cases h1 : tvb[p + 1]? with
  | none =>
    have hl : tvb.length ≤ p + 1 := by simpa using h1
    exact Or.inl (by omega)
  | some len =>
    rw [dissect_tlv_header h0 h1] at h
    refine Or.inr ⟨tvb[p], len, h0, h1, ?_⟩
    by_cases hk : 1 ≤ (tvb[p]).val ∧ (tvb[p]).val ≤ 5
    · have hcases : (tvb[p]).val = 1 ∨ (tvb[p]).val = 2 ∨ (tvb[p]).val = 3 ∨
          ((tvb[p]).val = 4 ∨ (tvb[p]).val = 5) := by omega
      rcases hcases with ht | ht | ht | ht
      · rw [ht] at h
        by_cases hl : len.val = 1
        · rw [hl] at h
          cases h2 : tvb[p + 2]? with
          | some b =>
            rw [ucd_switch_symbol_rate h2] at h
            cases h
          | none =>
            have hlen : tvb.length ≤ p + 2 := by simpa using h2
            exact Or.inl ⟨ht, hl, by omega⟩
        · rw [ucd_switch_symbol_rate_bad tvb (p + 2) hl] at h
          cases h
      · rw [ht] at h
        by_cases hl : len.val = 4
        · rw [hl] at h
          by_cases hb : p + 2 + 4 ≤ tvb.length
          · rw [ucd_switch_frequency hb] at h
            cases h
          · exact Or.inr (Or.inl ⟨ht, hl, by omega⟩)
        · rw [ucd_switch_frequency_bad tvb (p + 2) hl] at h
          cases h
      · rw [ht] at h
        by_cases hb : p + 2 + len.val ≤ tvb.length
        · rw [ucd_switch_preamble hb] at h
          cases h
        · exact Or.inr (Or.inr (Or.inl ⟨ht, by omega⟩))
      · refine Or.inr (Or.inr (Or.inr ⟨ht, ?_⟩))
        by_cases hb : p + 2 + 1 ≤ tvb.length
        · rw [ucd_switch_burst _ _ ht hb] at h
          exact Or.inr (burst_loop_err_cut tvb _ _ _ ht _ _ _ _ h)
        · exact Or.inl (by omega)
    · rw [ucd_switch_unknown tvb len.val (p + 2) hk] at h
      cases h

/-- When one iteration of the top-level loop ends normally, it has made one
step of the walk. -/
theorem dissect_tlv_ok_walk {tvb : tvbuff_t} {p r e : Nat} (st st1 : ucd_state)
    (h : dissect_tlv tvb p st = outcome.ok r st1) (hw : tlv_walk tvb r e) :
    tlv_walk tvb p e := by
  cases h0 : tvb[p]? with
  | none =>
    rw [dissect_tlv_no_type h0] at h
    cases h
  | some t =>
    cases h1 : tvb[p + 1]? with
    | none =>
      rw [dissect_tlv_no_length h0 h1] at h
      cases h
    | some len =>
      obtain ⟨n1, n2, n3, n4, n5, n6⟩ := dissect_tlv_walk_next h0 h1 st r st1 h
      by_cases hk : 1 ≤ t.val ∧ t.val ≤ 5
      · have hcases : t.val = 1 ∨ t.val = 2 ∨ t.val = 3 ∨ (t.val = 4 ∨ t.val = 5) := by omega
        rcases hcases with ht | ht | ht | ht
        · have e1 : t = 1 := Fin.ext ht
          rw [e1] at h0
          rw [n1 ht] at hw
          exact tlv_walk.symbol_rate p e len h0 h1 hw
        · have e1 : t = 2 := Fin.ext ht
          rw [e1] at h0
          by_cases hl : len.val = 4
          · have e2 : len = 4 := Fin.ext hl
            rw [e2] at h1
            rw [n2 ht hl] at hw
            exact tlv_walk.frequency p e h0 h1 hw
          · rw [n3 ht hl] at hw
            exact tlv_walk.frequency_flagged p e len h0 h1 hl hw
        · have e1 : t = 3 := Fin.ext ht
          rw [e1] at h0
          rw [n4 ht] at hw
          exact tlv_walk.preamble p e len h0 h1 hw
        · rw [dissect_tlv_header h0 h1] at h
          by_cases hb : p + 2 + 1 ≤ tvb.length
          · rw [ucd_switch_burst _ _ ht hb] at h
            have hs := burst_loop_ok_walk tvb _ _ _ ht _ _ _ _ _ h
            exact tlv_walk.burst_descr p r e t len ht h0 h1 hs hw
          · rw [ucd_switch_burst_cut _ _ ht (by omega)] at h
            cases h
      · rw [n5 hk] at hw
        exact tlv_walk.unknown p e t len hk h0 h1 hw

/-- When the top-level loop throws the bounds exception, records lead from its
start to a TLV inside the buffer that is cut short. -/
theorem dissect_tlvs_err_walk (tvb : tvbuff_t) (fuel : Nat) :
    ∀ (p : Nat) (st st' : ucd_state),
      dissect_tlvs tvb tvb.length fuel p st = outcome.bounds_error st' →
      ∃ e, tlv_walk tvb p e ∧ e < tvb.length ∧ tlv_cut tvb e := by
  unfold dissect_tlvs
  induction fuel with
  | zero =>
    intro p st st' h
    by_cases hlt : p < tvb.length
    · simp [while_loop, hlt] at h
    · rw [while_loop_done _ _ hlt] at h
      cases h
  | succ f ih =>
    intro p st st' h
    by_cases hlt : p < tvb.length
    · rcases dissect_tlv_total tvb p st with ⟨r, st1, hok, _⟩ | ⟨st1, herr⟩
      · rw [while_loop_step_ok f hlt hok] at h
        obtain ⟨e, hw, he, hc⟩ := ih r st1 st' h
        exact ⟨e, dissect_tlv_ok_walk st st1 hok hw, he, hc⟩
      · exact ⟨p, tlv_walk.done p, hlt, dissect_tlv_err_cut hlt st st1 herr⟩
    · rw [while_loop_done _ _ hlt] at h
      cases h

/-! ## Valid buffers (C2) -/

/-- C2. For every valid buffer (4 header bytes followed by valid top-level TLVs
that tile the rest of the buffer), `dissect_ucd` with a tree requested ends
normally with the cursor equal to the length of the buffer; and it adds no
expert info when every sub-TLV has its table length. -/
theorem valid_buffer_dissected (tvb : tvbuff_t) (st : ucd_state)
    (h : valid_tlvs (fun _ => any_sub_tlv) tvb 4 tvb.length) :
    ∃ st', dissect_ucd tvb true st = outcome.ok (some tvb.length) st' ∧
      (valid_tlvs table_sub_tlv tvb 4 tvb.length → st'.expert = st.expert) := by
  have hle := valid_tlvs_le h
  obtain ⟨b0, b1, b2, b3, rest, rfl⟩ := four_bytes_of_le hle
  have hlen : (b0 :: b1 :: b2 :: b3 :: rest).length = rest.length + 4 := rfl
  have run : ∀ good : Nat → Nat → Nat → Prop,
      valid_tlvs good (b0 :: b1 :: b2 :: b3 :: rest) 4 (rest.length + 4) →
      ∃ st', dissect_tlvs (b0 :: b1 :: b2 :: b3 :: rest) (rest.length + 4) (rest.length + 4) 4
          (ucd_header st b0 b1 b2 b3) = outcome.ok (rest.length + 4) st' ∧
        ((∀ t s l, good t s l → table_sub_tlv t s l) → st'.expert = st.expert) := by
    intro good hv
    obtain ⟨st', k, hk, _, hres, hex⟩ :=
      dissect_tlvs_valid (rest.length + 4) hv (Nat.le_of_eq hlen.symm) (Nat.le_refl _)
        (ucd_header st b0 b1 b2 b3)
    refine ⟨st', ?_, fun hall => hex hall⟩
    have hfuel : rest.length + 4 = (rest.length + 4 - k) + k := by omega
    have h2 := hres (rest.length + 4 - k)
    rw [← hfuel] at h2
    unfold dissect_tlvs
    rw [h2]
    exact while_loop_done _ _ (Nat.lt_irrefl _) st'
  rw [hlen] at h ⊢
  obtain ⟨st', hok, _⟩ := run _ h
  refine ⟨st', dissect_ucd_of_tlvs_ok hok, ?_⟩
  intro ht
  obtain ⟨st2, hok2, hex2⟩ := run _ ht
  rw [hok] at hok2
  have heq : st' = st2 := by
    injection hok2
  rw [heq]
  exact hex2 (fun _ _ _ hg => hg)

/-- C2, witness: the header, a Symbol Rate TLV and a legacy burst descriptor
of length 4 (Interval Usage Code 3 and a Modulation sub-TLV). -/
theorem valid_buffer_dissected_witness :
    valid_tlvs (fun _ => any_sub_tlv) [3, 0, 0, 0, 1, 1, 44, 4, 4, 3, 1, 1, 2] 4
      ([3, 0, 0, 0, 1, 1, 44, 4, 4, 3, 1, 1, 2] : tvbuff_t).length ∧
    ∃ st', dissect_ucd [3, 0, 0, 0, 1, 1, 44, 4, 4, 3, 1, 1, 2] true ucd_state.init =
        outcome.ok (some ([3, 0, 0, 0, 1, 1, 44, 4, 4, 3, 1, 1, 2] : tvbuff_t).length) st' ∧
      (valid_tlvs table_sub_tlv [3, 0, 0, 0, 1, 1, 44, 4, 4, 3, 1, 1, 2] 4
          ([3, 0, 0, 0, 1, 1, 44, 4, 4, 3, 1, 1, 2] : tvbuff_t).length →
        st'.expert = ucd_state.init.expert) :=
  have hv : valid_tlvs (fun _ => any_sub_tlv) [3, 0, 0, 0, 1, 1, 44, 4, 4, 3, 1, 1, 2] 4
      ([3, 0, 0, 0, 1, 1, 44, 4, 4, 3, 1, 1, 2] : tvbuff_t).length :=
    valid_tlvs.symbol_rate 4 13 rfl rfl
      (valid_tlvs.burst_descr 7 13 4 4 (Or.inl rfl) rfl rfl (by decide)
        (sub_tlvs_fill.cons 10 13 1 1 rfl rfl trivial (sub_tlvs_fill.done 13))
        (valid_tlvs.done 13))
  ⟨hv, valid_buffer_dissected [3, 0, 0, 0, 1, 1, 44, 4, 4, 3, 1, 1, 2] ucd_state.init hv⟩

/-! ## Truncated buffers (C5) -/

/-- C5, counterexample. The buffer ends right after the header of a Symbol Rate
TLV that declares 5 value bytes: the record extends past the end of the buffer,
yet `dissect_ucd` returns normally, with the length flagged and the cursor at
11, beyond the 6 bytes of the buffer. -/
theorem truncated_buffer_counterexample :
    dissect_ucd [0, 0, 0, 0, 1, 5] true ucd_state.init =
      outcome.ok (some 11)
        { col_info := "UCD Message:  Channel ID = 0 (Telephony Return)"
          tree :=
            [tree_op.protocol_format 0 (-1) "UCD Message",
             tree_op.item ucd_tree hf_docsis_ucd_upstream_chid 0 1 (fvalue.uinteger 0),
             tree_op.item ucd_tree hf_docsis_ucd_config_ch_cnt 1 1 (fvalue.uinteger 0),
             tree_op.item ucd_tree hf_docsis_ucd_mini_slot_size 2 1 (fvalue.uinteger 0),
             tree_op.item ucd_tree hf_docsis_ucd_down_chid 3 1 (fvalue.uinteger 0),
             tree_op.subtree 4 (-1) "Symbol Rate",
             tree_op.item tlv_tree hf_docsis_ucd_type 4 1 (fvalue.uinteger 1),
             tree_op.item tlv_tree hf_docsis_ucd_length 5 1 (fvalue.uinteger 5),
             tree_op.set_len 7]
          expert := [{ format := "Wrong TLV length: %u", arg := 5 }]
          reads := [0, 0, 1, 2, 3, 4, 5] } ∧
    4 + 2 + 5 > ([0, 0, 0, 0, 1, 5] : tvbuff_t).length :=
  ⟨rfl, by decide⟩

/-- The sub-TLV loop at a sub-TLV that is cut short throws the bounds
exception. -/
theorem burst_tlv_cut {tvb : tvbuff_t} {q : Nat} (type length : Nat)
    (ht : type = 4 ∨ type = 5) (hc : sub_tlv_cut type tvb q) (st : ucd_state) :
    ∃ st', burst_tlv type tvb length q st = outcome.bounds_error st' := by
  rcases hc with hlen | ⟨s, len, h0, h1, hl, he, hb⟩
  · cases h0 : tvb[q]? with
    | none => exact ⟨_, burst_tlv_no_type type length ht h0 st⟩
    | some s =>
      have h1 : tvb[q + 1]? = none := by simp [hlen]
      exact ⟨_, burst_tlv_no_length type length ht h0 h1 st⟩
  · have hbody := burst_tlv_apply type length ht h0 h1 st
    rw [if_pos hl, if_pos he, if_neg (by omega)] at hbody
    exact ⟨_, hbody⟩

/-- A top-level TLV that is cut short throws the bounds exception. -/
theorem dissect_tlv_cut {tvb : tvbuff_t} {p : Nat} (hp : p < tvb.length)
    (hc : tlv_cut tvb p) (st : ucd_state) :
    ∃ st', dissect_tlv tvb p st = outcome.bounds_error st' := by
  rcases hc with hlen | ⟨t, len, h0, h1, hcase⟩
  · have h0 : tvb[p]? = some tvb[p] := List.getElem?_eq_getElem hp
    have h1 : tvb[p + 1]? = none := by simp [hlen]
    exact ⟨_, dissect_tlv_no_length h0 h1 st⟩
  · rw [dissect_tlv_header h0 h1]
    rcases hcase with ⟨ht, hl, hb⟩ | ⟨ht, hl, hb⟩ | ⟨ht, hb⟩ | ⟨ht, hb | ⟨q, hf, hq, hcut⟩⟩
    · rw [ht, hl]
      exact ⟨_, ucd_switch_symbol_rate_cut (by omega) _⟩
    · rw [ht, hl]
      exact ⟨_, ucd_switch_frequency_cut (by omega) _⟩
    · rw [ht]
      exact ⟨_, ucd_switch_preamble_cut (by omega) _⟩
    · exact ⟨_, ucd_switch_burst_cut _ _ ht (by omega) _⟩
    · by_cases hb : p + 2 + 1 ≤ tvb.length
      · rw [ucd_switch_burst _ _ ht hb]
        have hle := sub_tlvs_fill_le hf
        obtain ⟨st', k, hk, _, hres, _⟩ :=
          burst_loop_fill t.val len.val (p + 2 + len.val) ht hf (Nat.le_of_lt hq)
            { tlv_header st p t.val len.val with
              tree := (tlv_header st p t.val len.val).tree ++
                [tree_op.item tlv_tree hf_docsis_ucd_iuc (p + 2) 1
                  (fvalue.uinteger (get_uint_value ((tvb.drop (p + 2)).take 1)))]
              reads := (tlv_header st p t.val len.val).reads ++ [p + 2] }
        have hfuel : len.val = (len.val - k - 1 + 1) + k := by omega
        have h3 : p + 2 + 1 = p + 3 := rfl
        rw [h3]
        rcases hres with hres | ⟨_, hres⟩
        · have h2 := hres (len.val - k - 1 + 1)
          rw [← hfuel] at h2
          rw [h2]
          obtain ⟨st2, herr⟩ := burst_tlv_cut t.val len.val ht hcut st'
          exact ⟨st2, while_loop_step_err _ hq herr⟩
        · have h2 := hres (len.val - k - 1 + 1)
          rw [← hfuel] at h2
          exact ⟨st', h2⟩
      · exact ⟨_, ucd_switch_burst_cut _ _ ht (by omega) _⟩

/-- The top-level loop cannot end normally when its walk leads to a record
that is cut short. -/
theorem dissect_tlvs_walk_cut {tvb : tvbuff_t} {p e : Nat} (h : tlv_walk tvb p e)
    (he : e < tvb.length) (hc : tlv_cut tvb e) :
    ∀ fuel st r st', dissect_tlvs tvb tvb.length fuel p st ≠ outcome.ok r st' := by
  induction h with
  | done p =>
    intro fuel st r st' hr
    unfold dissect_tlvs at hr
    cases fuel with
    | zero => simp [while_loop, he] at hr
    | succ f =>
      obtain ⟨st2, herr⟩ := dissect_tlv_cut he hc st
      rw [while_loop_step_err f he herr] at hr
      cases hr
  | symbol_rate p e len h0 h1 _ ih =>
    exact dissect_tlvs_not_ok_step (length_of_getElem?_some h0)
      (fun st r st1 hr => (dissect_tlv_walk_next h0 h1 st r st1 hr).1 rfl) (ih he hc)
  | frequency p e h0 h1 _ ih =>
    exact dissect_tlvs_not_ok_step (length_of_getElem?_some h0)
      (fun st r st1 hr => (dissect_tlv_walk_next h0 h1 st r st1 hr).2.1 rfl rfl) (ih he hc)
  | frequency_flagged p e len h0 h1 hl _ ih =>
    exact dissect_tlvs_not_ok_step (length_of_getElem?_some h0)
      (fun st r st1 hr => (dissect_tlv_walk_next h0 h1 st r st1 hr).2.2.1 rfl hl) (ih he hc)
  | preamble p e len h0 h1 _ ih =>
    exact dissect_tlvs_not_ok_step (length_of_getElem?_some h0)
      (fun st r st1 hr => (dissect_tlv_walk_next h0 h1 st r st1 hr).2.2.2.1 rfl) (ih he hc)
  | burst_descr p q e t len ht h0 h1 hs _ ih =>
    exact dissect_tlvs_not_ok_step (length_of_getElem?_some h0)
      (fun st r st1 hr => (dissect_tlv_walk_next h0 h1 st r st1 hr).2.2.2.2.2 ht q hs)
      (ih he hc)
  | unknown p e t len ht h0 h1 _ ih =>
    exact dissect_tlvs_not_ok_step (length_of_getElem?_some h0)
      (fun st r st1 hr => (dissect_tlv_walk_next h0 h1 st r st1 hr).2.2.2.2.1 ht) (ih he hc)

/-- C5, amended. With a tree requested, `dissect_ucd` throws the bounds
exception on a buffer made of the 4 header bytes, records of any kind (valid,
flagged, of unknown type, burst descriptors whose sub-TLVs run past their
end) along which the cursor of the loop goes from 4 to an offset `p` inside
the buffer (`tlv_walk`), and at `p` a TLV that is cut short in a way the
dissector runs into (`tlv_cut`): its length byte is missing, or a value it has
to read (Symbol Rate of length 1, Frequency of length 4, Preamble Pattern,
the Interval Usage Code, a sub-TLV header inside a burst descriptor, the value
of a legal sub-TLV with its table length) goes past the end of the buffer.
And these are all the buffers of at least 4 bytes on which it throws. -/
theorem truncated_buffer_bounds_error (tvb : tvbuff_t) (st : ucd_state) :
    (∀ p, tlv_walk tvb 4 p → p < tvb.length → tlv_cut tvb p →
      ∃ st', dissect_ucd tvb true st = outcome.bounds_error st') ∧
    (∀ st', dissect_ucd tvb true st = outcome.bounds_error st' → 4 ≤ tvb.length →
      ∃ p, tlv_walk tvb 4 p ∧ p < tvb.length ∧ tlv_cut tvb p) := by
  refine ⟨fun p h hp hc => ?_, fun st' herr h4 => ?_⟩
  · have hle := tlv_walk_le h
    obtain ⟨b0, b1, b2, b3, rest, rfl⟩ :=
      four_bytes_of_le (Nat.le_of_lt (Nat.lt_of_le_of_lt hle hp))
    have hlen : (b0 :: b1 :: b2 :: b3 :: rest).length = rest.length + 4 := rfl
    have hno := dissect_tlvs_walk_cut h hp hc (rest.length + 4) (ucd_header st b0 b1 b2 b3)
    rw [hlen] at hno
    rcases dissect_tlvs_total (b0 :: b1 :: b2 :: b3 :: rest) (rest.length + 4)
      (ucd_header st b0 b1 b2 b3) with ⟨r, s, hok⟩ | ⟨s, herr⟩
    · exact absurd hok (hno r s)
    · exact ⟨s, dissect_ucd_of_tlvs_err herr⟩
  · obtain ⟨b0, b1, b2, b3, rest, rfl⟩ := four_bytes_of_le h4
    have hlen : (b0 :: b1 :: b2 :: b3 :: rest).length = rest.length + 4 := rfl
    rcases dissect_tlvs_total (b0 :: b1 :: b2 :: b3 :: rest) (rest.length + 4)
      (ucd_header st b0 b1 b2 b3) with ⟨r, s, hok⟩ | ⟨s, hloop⟩
    · rw [dissect_ucd_of_tlvs_ok hok] at herr
      cases herr
    · have hw := dissect_tlvs_err_walk (b0 :: b1 :: b2 :: b3 :: rest) (rest.length + 4) 4
        (ucd_header st b0 b1 b2 b3) s
      rw [hlen] at hw ⊢
      exact hw hloop

/-- C5, witness: after the header, a Symbol Rate TLV whose length 2 is flagged
and whose two value bytes are passed over, then a Frequency TLV of length 4
with only two of its value bytes in the buffer. -/
theorem truncated_buffer_bounds_error_witness :
    tlv_walk [0, 0, 0, 0, 1, 2, 170, 187, 2, 4, 1, 2] 4 8 ∧
    8 < ([0, 0, 0, 0, 1, 2, 170, 187, 2, 4, 1, 2] : tvbuff_t).length ∧
    tlv_cut [0, 0, 0, 0, 1, 2, 170, 187, 2, 4, 1, 2] 8 ∧
    (∃ st', dissect_ucd [0, 0, 0, 0, 1, 2, 170, 187, 2, 4, 1, 2] true ucd_state.init =
      outcome.bounds_error st') ∧
    4 ≤ ([0, 0, 0, 0, 2, 4, 1, 2] : tvbuff_t).length ∧
    dissect_ucd [0, 0, 0, 0, 2, 4, 1, 2] true ucd_state.init =
      outcome.bounds_error
        { col_info := "UCD Message:  Channel ID = 0 (Telephony Return)"
          tree :=
            [tree_op.protocol_format 0 (-1) "UCD Message",
             tree_op.item ucd_tree hf_docsis_ucd_upstream_chid 0 1 (fvalue.uinteger 0),
             tree_op.item ucd_tree hf_docsis_ucd_config_ch_cnt 1 1 (fvalue.uinteger 0),
             tree_op.item ucd_tree hf_docsis_ucd_mini_slot_size 2 1 (fvalue.uinteger 0),
             tree_op.item ucd_tree hf_docsis_ucd_down_chid 3 1 (fvalue.uinteger 0),
             tree_op.subtree 4 (-1) "Frequency",
             tree_op.item tlv_tree hf_docsis_ucd_type 4 1 (fvalue.uinteger 2),
             tree_op.item tlv_tree hf_docsis_ucd_length 5 1 (fvalue.uinteger 4),
             tree_op.set_len 6]
          expert := []
          reads := [0, 0, 1, 2, 3, 4, 5] } ∧
    ∃ p, tlv_walk [0, 0, 0, 0, 2, 4, 1, 2] 4 p ∧
      p < ([0, 0, 0, 0, 2, 4, 1, 2] : tvbuff_t).length ∧ tlv_cut [0, 0, 0, 0, 2, 4, 1, 2] p :=
  have hw : tlv_walk [0, 0, 0, 0, 1, 2, 170, 187, 2, 4, 1, 2] 4 8 :=
    tlv_walk.symbol_rate 4 8 2 rfl rfl (tlv_walk.done 8)
  have hc : tlv_cut [0, 0, 0, 0, 1, 2, 170, 187, 2, 4, 1, 2] 8 :=
    Or.inr ⟨2, 4, rfl, rfl, Or.inr (Or.inl ⟨rfl, rfl, by decide⟩)⟩
  ⟨hw, by decide, hc,
    (truncated_buffer_bounds_error [0, 0, 0, 0, 1, 2, 170, 187, 2, 4, 1, 2] ucd_state.init).1 8
      hw (by decide) hc,
    by decide, rfl,
    (truncated_buffer_bounds_error [0, 0, 0, 0, 2, 4, 1, 2] ucd_state.init).2 _ rfl
      (by decide)⟩

/-! ## How far a burst descriptor can run -/

/-- One iteration of a sub-TLV loop moves the cursor by at least 2 and at most
257 (two header bytes and a sub-length below 256), or throws the bounds
exception. -/
theorem burst_tlv_advance (tvb : tvbuff_t) (type length p : Nat) (ht : type = 4 ∨ type = 5)
    (st : ucd_state) :
    (∃ q st', burst_tlv type tvb length p st = outcome.ok q st' ∧ p + 2 ≤ q ∧ q ≤ p + 257) ∨
    ∃ st', burst_tlv type tvb length p st = outcome.bounds_error st' := by
  cases h0 : tvb[p]? with
  | none => exact Or.inr ⟨_, burst_tlv_no_type type length ht h0 st⟩
  | some s =>
    cases h1 : tvb[p + 1]? with
    | none => exact Or.inr ⟨_, burst_tlv_no_length type length ht h0 h1 st⟩
    | some len =>
      obtain ⟨st1, _, hres, _⟩ := burst_tlv_step type length ht h0 h1 st
      have hl := len.isLt
      rcases hres with hok | ⟨herr, _⟩
      · exact Or.inl ⟨_, st1, hok, by omega, by omega⟩
      · exact Or.inr ⟨st1, herr⟩

/-- A sub-TLV loop with end `E` started at `p`: when it ends normally the
cursor is at least `E` and at least `p`, and it is `p` itself or at most
`E + 256`. -/
theorem burst_loop_bounds (tvb : tvbuff_t) (type length E : Nat) (ht : type = 4 ∨ type = 5)
    (fuel : Nat) :
    ∀ (p : Nat) (st : ucd_state),
      (∃ q st', while_loop E (burst_tlv type tvb length) fuel p st = outcome.ok q st' ∧
        E ≤ q ∧ p ≤ q ∧ (q = p ∨ q ≤ E + 256)) ∨
      (∃ st', while_loop E (burst_tlv type tvb length) fuel p st = outcome.bounds_error st') ∨
      ∃ st', while_loop E (burst_tlv type tvb length) fuel p st = outcome.out_of_fuel st' := by
  induction fuel with
  | zero =>
    intro p st
    by_cases hlt : p < E
    · exact Or.inr (Or.inr ⟨st, by simp [while_loop, hlt]⟩)
    · exact Or.inl ⟨p, st, while_loop_done _ 0 hlt st, by omega, Nat.le_refl p, Or.inl rfl⟩
  | succ f ih =>
    intro p st
    by_cases hlt : p < E
    · rcases burst_tlv_advance tvb type length p ht st with ⟨q, st1, hok, hlo, hhi⟩ | ⟨st1, herr⟩
      · rw [while_loop_step_ok f hlt hok]
        rcases ih q st1 with ⟨r, st2, hr, h1, h2, h3⟩ | h | h
        · refine Or.inl ⟨r, st2, hr, h1, by omega, Or.inr ?_⟩
          rcases h3 with h3 | h3 <;> omega
        · exact Or.inr (Or.inl h)
        · exact Or.inr (Or.inr h)
      · exact Or.inr (Or.inl ⟨st1, while_loop_step_err f hlt herr⟩)
    · exact Or.inl ⟨p, st, while_loop_done _ _ hlt st, by omega, Nat.le_refl p, Or.inl rfl⟩

/-- The value of a burst descriptor of declared length `length` at `pos`: when
it is dissected normally the cursor is left in
`max (pos + length) (pos + 1) .. pos + length + 256`. -/
theorem ucd_switch_burst_bounds (tvb : tvbuff_t) (type length pos : Nat)
    (ht : type = 4 ∨ type = 5) (st : ucd_state) :
    (∃ q st', ucd_switch tvb type length pos st = outcome.ok q st' ∧
      pos + length ≤ q ∧ pos + 1 ≤ q ∧ q ≤ pos + length + 256) ∨
    ∃ st', ucd_switch tvb type length pos st = outcome.bounds_error st' := by
  by_cases hb : pos + 1 ≤ tvb.length
  · rw [ucd_switch_burst type length ht hb]
    rcases burst_loop_bounds tvb type length (pos + length) ht length (pos + 1) _ with
      ⟨q, st', hq, h1, h2, h3⟩ | h | ⟨s, h⟩
    · refine Or.inl ⟨q, st', hq, h1, h2, ?_⟩
      rcases h3 with h3 | h3 <;> omega
    · exact Or.inr h
    · exfalso
      rcases burst_loop_total tvb type length pos ht _ with ⟨_, _, h', _⟩ | ⟨_, h'⟩ <;>
        rw [h'] at h <;> cases h
  · exact Or.inr ⟨st, ucd_switch_burst_cut type length ht (by omega) st⟩

/-! ## The bytes a burst descriptor reads -/

theorem sub_tlv_expected_length_le (s : Nat) : sub_tlv_expected_length s ≤ 2 := by
  unfold sub_tlv_expected_length
  split_ifs <;> omega

/-- One iteration of a sub-TLV loop at `p` reads bytes in `p .. p + 3` only:
the two header bytes and, for a legal sub-type with its table length, a value
of at most 2 bytes. -/
theorem burst_tlv_reads (tvb : tvbuff_t) (type length p : Nat) (ht : type = 4 ∨ type = 5)
    (st : ucd_state) :
    st.continues (burst_tlv type tvb length p st).state p (p + 4) := by
  cases h0 : tvb[p]? with
  | none =>
    rw [burst_tlv_no_type type length ht h0 st]
    exact st.continues_refl _ _
  | some s =>
    cases h1 : tvb[p + 1]? with
    | none =>
      rw [burst_tlv_no_length type length ht h0 h1 st]
      simp [ucd_state.continues, outcome.state]
    | some len =>
      have hbody := burst_tlv_apply type length ht h0 h1 st
      have h2 := sub_tlv_expected_length_le s.val
      split_ifs at hbody with hl he hb
      · rw [hbody]
        simp only [ucd_state.continues, outcome.state, List.append_assoc,
          List.append_cancel_left_eq, exists_eq_left', List.self_eq_append_right, exists_eq,
          true_and]
        refine ⟨⟨_, rfl⟩, ?_⟩
        intro x hx
        simp [List.mem_range'_1] at hx
        omega
      · rw [hbody]
        simp [ucd_state.continues, outcome.state]
      · rw [hbody]
        simp [ucd_state.continues, outcome.state]
      · rw [hbody]
        simp [ucd_state.continues, outcome.state]

/-- A sub-TLV loop with end `E` started at `p` reads bytes in `p .. E + 2`
only, however it ends. -/
theorem burst_loop_reads (tvb : tvbuff_t) (type length E : Nat) (ht : type = 4 ∨ type = 5)
    (fuel : Nat) :
    ∀ (p : Nat) (st : ucd_state),
      st.continues (while_loop E (burst_tlv type tvb length) fuel p st).state p (E + 3) := by
  induction fuel with
  | zero =>
    intro p st
    have h : (while_loop E (burst_tlv type tvb length) 0 p st).state = st := by
      unfold while_loop
      split_ifs <;> rfl
    rw [h]
    exact st.continues_refl _ _
  | succ f ih =>
    intro p st
    by_cases hlt : p < E
    · have hstep := burst_tlv_reads tvb type length p ht st
      rcases burst_tlv_advance tvb type length p ht st with ⟨q, st1, hok, hlo, _⟩ | ⟨st1, herr⟩
      · rw [while_loop_step_ok f hlt hok]
        rw [hok] at hstep
        exact ucd_state.continues_trans hstep (ih q st1) (Nat.le_refl _) (by omega) (by omega)
          (Nat.le_refl _)
      · rw [while_loop_step_err f hlt herr]
        rw [herr] at hstep
        exact ucd_state.continues_trans hstep (st1.continues_refl p (E + 3)) (Nat.le_refl _)
          (Nat.le_refl _) (by omega) (Nat.le_refl _)
    · rw [while_loop_done _ _ hlt]
      exact st.continues_refl _ _

/-- A burst descriptor record at `p` with declared length `len` reads bytes in
`p .. p + 2 + len + 2` only, however it ends. -/
theorem dissect_tlv_burst_reads {tvb : tvbuff_t} {p : Nat} {t len : guint8}
    (ht : t.val = 4 ∨ t.val = 5)
    (h0 : tvb[p]? = some t) (h1 : tvb[p + 1]? = some len) (st : ucd_state) :
    st.continues (dissect_tlv tvb p st).state p (p + 2 + len.val + 3) := by
  have hh := tlv_header_continues st p t.val len.val (p + 2 + len.val + 3) (by omega)
  rw [dissect_tlv_header h0 h1]
  by_cases hb : p + 2 + 1 ≤ tvb.length
  · rw [ucd_switch_burst _ _ ht hb]
    have hl := burst_loop_reads tvb t.val len.val (p + 2 + len.val) ht len.val (p + 2 + 1)
      { tlv_header st p t.val len.val with
        tree := (tlv_header st p t.val len.val).tree ++
          [tree_op.item tlv_tree hf_docsis_ucd_iuc (p + 2) 1
            (fvalue.uinteger (get_uint_value ((tvb.drop (p + 2)).take 1)))]
        reads := (tlv_header st p t.val len.val).reads ++ [p + 2] }
    have hi : (tlv_header st p t.val len.val).continues
        { tlv_header st p t.val len.val with
          tree := (tlv_header st p t.val len.val).tree ++
            [tree_op.item tlv_tree hf_docsis_ucd_iuc (p + 2) 1
              (fvalue.uinteger (get_uint_value ((tvb.drop (p + 2)).take 1)))]
          reads := (tlv_header st p t.val len.val).reads ++ [p + 2] }
        p (p + 2 + len.val + 3) := by
      simp [ucd_state.continues]
      omega
    exact ucd_state.continues_trans hh
      (ucd_state.continues_trans hi hl (Nat.le_refl _) (by omega) (Nat.le_refl _)
        (Nat.le_refl _))
      (Nat.le_refl _) (Nat.le_refl _) (Nat.le_refl _) (Nat.le_refl _)
  · rw [ucd_switch_burst_cut _ _ ht (by omega)]
    exact hh

/-! ## The reads of a burst descriptor (C6) -/

/-- C6, counterexample. A legacy burst descriptor at offset 4 with declared
length 2, so that its value is the Interval Usage Code and one more byte, the
sub-type 1 at index 7. The inner loop takes the byte at index 8 = 4 + 2 + 2 as
the sub-length (1) and decodes the byte at index 9 as the Modulation value: it
reads the indices 8 and 9 and leaves the cursor at 10, beyond 8. -/
theorem burst_reads_counterexample :
    dissect_tlv [0, 0, 0, 0, 4, 2, 3, 1, 1, 9] 4 ucd_state.init =
      outcome.ok 10
        { col_info := ""
          tree :=
            [tree_op.subtree 4 (-1) "Burst Descriptor",
             tree_op.item tlv_tree hf_docsis_ucd_type 4 1 (fvalue.uinteger 4),
             tree_op.item tlv_tree hf_docsis_ucd_length 5 1 (fvalue.uinteger 2),
             tree_op.set_len 4,
             tree_op.item tlv_tree hf_docsis_ucd_iuc 6 1 (fvalue.uinteger 3),
             tree_op.item tlv_tree hf_docsis_burst_mod_type 9 1 (fvalue.uinteger 9)]
          expert := []
          reads := [4, 5, 6, 7, 8, 9] } ∧
    ¬ (∀ x ∈ [4, 5, 6, 7, 8, 9], x < 4 + 2 + 2) ∧ ¬ (10 ≤ 4 + 2 + 2) :=
  ⟨rfl, by decide, by decide⟩

/-- C6, amended. For every burst descriptor record (type 4 or 5) at offset `p`
with declared length `len`, however the record ends: every byte read while
the record is processed (header, Interval Usage Code and the whole inner
loop) has an index in `p .. p + 2 + len + 2`, since the last sub-TLV header
starts before `p + 2 + len` and a value that is read has at most 2 bytes; and
the record ends with the bounds exception or normally with the cursor in
`p + 2 + len .. p + 2 + len + 256`. When the sub-TLVs tile the `len - 1` bytes
after the Interval Usage Code, every byte read has an index in
`p .. p + 2 + len - 1` and the cursor is left at `p + 2 + len`, unless the
bounds exception is thrown. -/
theorem burst_reads_bounded (tvb : tvbuff_t) (p : Nat) (t len : guint8) (st : ucd_state)
    (ht : t.val = 4 ∨ t.val = 5)
    (h0 : tvb[p]? = some t) (h1 : tvb[p + 1]? = some len) :
    (∃ r, (dissect_tlv tvb p st).state.reads = st.reads ++ r ∧
      ∀ x ∈ r, p ≤ x ∧ x < p + 2 + len.val + 3) ∧
    ((∃ q st', dissect_tlv tvb p st = outcome.ok q st' ∧
        p + 2 + len.val ≤ q ∧ q ≤ p + 2 + len.val + 256) ∨
      ∃ st', dissect_tlv tvb p st = outcome.bounds_error st') ∧
    (sub_tlvs_fill any_sub_tlv tvb (p + 3) (p + 2 + len.val) →
      ∃ st' r, st'.reads = st.reads ++ r ∧ (∀ x ∈ r, p ≤ x ∧ x < p + 2 + len.val) ∧
        (dissect_tlv tvb p st = outcome.ok (p + 2 + len.val) st' ∨
          dissect_tlv tvb p st = outcome.bounds_error st')) := by
  refine ⟨?_, ?_, fun hf => ?_⟩
  · obtain ⟨_, _, _, r, hr, hb⟩ := dissect_tlv_burst_reads ht h0 h1 st
    exact ⟨r, hr, hb⟩
  · rw [dissect_tlv_header h0 h1]
    rcases ucd_switch_burst_bounds tvb t.val len.val (p + 2) ht (tlv_header st p t.val len.val)
      with ⟨q, st', hq, h1, _, h3⟩ | h
    · exact Or.inl ⟨q, st', hq, h1, h3⟩
    · exact Or.inr h
  · obtain ⟨st', hc, hres, _⟩ := dissect_tlv_burst_fill ht h0 h1 hf st
    obtain ⟨_, _, _, r, hr, hb⟩ := hc
    refine ⟨st', r, hr, hb, ?_⟩
    rcases hres with hok | ⟨herr, _⟩
    · exact Or.inl hok
    · exact Or.inr herr

/-- C6, witness. A legacy burst descriptor at offset 4 with declared length 2
whose last value byte is the sub-type 3 (Preamble Length): the sub-length 2
and the two value bytes lie after the record, the highest index read is
10 = 4 + 2 + 2 + 2 and the cursor is left at 11. And an extended burst
descriptor at offset 4 with declared length 6, filled by the Interval Usage
Code, a Modulation sub-TLV and a sub-TLV of sub-type 13 with an empty value:
every read is below 12. -/
theorem burst_reads_bounded_witness :
    ([0, 0, 0, 0, 4, 2, 3, 3, 2, 1, 1] : tvbuff_t)[4]? = some 4 ∧
    ([0, 0, 0, 0, 4, 2, 3, 3, 2, 1, 1] : tvbuff_t)[4 + 1]? = some 2 ∧
    (∃ r, (dissect_tlv [0, 0, 0, 0, 4, 2, 3, 3, 2, 1, 1] 4 ucd_state.init).state.reads =
        ucd_state.init.reads ++ r ∧ ∀ x ∈ r, 4 ≤ x ∧ x < 4 + 2 + 2 + 3) ∧
    dissect_tlv [0, 0, 0, 0, 4, 2, 3, 3, 2, 1, 1] 4 ucd_state.init =
      outcome.ok 11
        { col_info := ""
          tree :=
            [tree_op.subtree 4 (-1) "Burst Descriptor",
             tree_op.item tlv_tree hf_docsis_ucd_type 4 1 (fvalue.uinteger 4),
             tree_op.item tlv_tree hf_docsis_ucd_length 5 1 (fvalue.uinteger 2),
             tree_op.set_len 4,
             tree_op.item tlv_tree hf_docsis_ucd_iuc 6 1 (fvalue.uinteger 3),
             tree_op.item tlv_tree hf_docsis_burst_preamble_len 9 2 (fvalue.uinteger 257)]
          expert := []
          reads := [4, 5, 6, 7, 8, 9, 10] } ∧
    ([0, 0, 0, 0, 5, 6, 3, 1, 1, 2, 13, 0] : tvbuff_t)[4]? = some 5 ∧
    ([0, 0, 0, 0, 5, 6, 3, 1, 1, 2, 13, 0] : tvbuff_t)[4 + 1]? = some 6 ∧
    ∃ st' r, st'.reads = ucd_state.init.reads ++ r ∧ (∀ x ∈ r, 4 ≤ x ∧ x < 4 + 2 + 6) ∧
      (dissect_tlv [0, 0, 0, 0, 5, 6, 3, 1, 1, 2, 13, 0] 4 ucd_state.init =
          outcome.ok (4 + 2 + 6) st' ∨
        dissect_tlv [0, 0, 0, 0, 5, 6, 3, 1, 1, 2, 13, 0] 4 ucd_state.init =
          outcome.bounds_error st') :=
  ⟨rfl, rfl,
    (burst_reads_bounded [0, 0, 0, 0, 4, 2, 3, 3, 2, 1, 1] 4 4 2
      ucd_state.init (Or.inl rfl) rfl rfl).1,
    rfl, rfl, rfl,
    (burst_reads_bounded [0, 0, 0, 0, 5, 6, 3, 1, 1, 2, 13, 0] 4 5 6
      ucd_state.init (Or.inr rfl) rfl rfl).2.2
      (sub_tlvs_fill.cons 7 12 1 1 rfl rfl trivial
        (sub_tlvs_fill.cons 10 12 13 0 rfl rfl trivial (sub_tlvs_fill.done 12)))⟩

/-! ## Sub-TLVs and their table lengths (C8) -/

/-- C8. A sub-TLV at `pos` with a sub-type `s` in 1..14 inside an extended
burst descriptor, or in 1..11 inside a legacy one: when its sub-length is the
expected length of the sub-TLV table and its value is in the buffer, the loop
body adds the one field of the sub-type, decoded from the value bytes, and no
expert info; when its sub-length differs, it adds exactly one expert info and
no field. In both cases the cursor moves past the sub-TLV. -/
theorem sub_tlv_table_length (tvb : tvbuff_t) (pos : Nat) (s len : guint8)
    (length : Nat) (st : ucd_state)
    (h0 : tvb[pos]? = some s) (h1 : tvb[pos + 1]? = some len) :
    (1 ≤ s.val ∧ s.val ≤ 14 →
      (len.val = sub_tlv_expected_length s.val → pos + 2 + len.val ≤ tvb.length →
        burst_descr5_tlv tvb length pos st =
          outcome.ok (pos + 2 + len.val)
            { st with
              tree := st.tree ++
                [tree_op.item tlv_tree (sub_tlv_field s.val) (pos + 2) len.val
                  (decode_value (hf (sub_tlv_field s.val)).type
                    ((tvb.drop (pos + 2)).take len.val))]
              reads := st.reads ++ [pos, pos + 1] ++ List.range' (pos + 2) len.val }) ∧
      (len.val ≠ sub_tlv_expected_length s.val →
        burst_descr5_tlv tvb length pos st =
          outcome.ok (pos + 2 + len.val)
            { st with
              expert := st.expert ++ [{ format := "Wrong TLV length: %u", arg := length }]
              reads := st.reads ++ [pos, pos + 1] })) ∧
    (1 ≤ s.val ∧ s.val ≤ 11 →
      (len.val = sub_tlv_expected_length s.val → pos + 2 + len.val ≤ tvb.length →
        burst_descr_tlv tvb length pos st =
          outcome.ok (pos + 2 + len.val)
            { st with
              tree := st.tree ++
                [tree_op.item tlv_tree (sub_tlv_field s.val) (pos + 2) len.val
                  (decode_value (hf (sub_tlv_field s.val)).type
                    ((tvb.drop (pos + 2)).take len.val))]
              reads := st.reads ++ [pos, pos + 1] ++ List.range' (pos + 2) len.val }) ∧
      (len.val ≠ sub_tlv_expected_length s.val →
        burst_descr_tlv tvb length pos st =
          outcome.ok (pos + 2 + len.val)
            { st with
              expert := st.expert ++ [{ format := "Wrong TLV length: %u", arg := length }]
              reads := st.reads ++ [pos, pos + 1] })) := by
  have h5 := burst_tlv_apply 5 length (Or.inr rfl) h0 h1 st
  have h4 := burst_tlv_apply 4 length (Or.inl rfl) h0 h1 st
  rw [burst_tlv_five] at h5
  rw [burst_tlv_four] at h4
  refine ⟨fun hs => ?_, fun hs => ?_⟩
  · have hl : legal_sub_type 5 s.val := by simpa [legal_sub_type] using hs
    rw [if_pos hl] at h5
    refine ⟨fun he hb => ?_, fun he => ?_⟩
    · rw [if_pos he, if_pos hb] at h5
      exact h5
    · rw [if_neg he] at h5
      exact h5
  · have hl : legal_sub_type 4 s.val := by simpa [legal_sub_type] using hs
    rw [if_pos hl] at h4
    refine ⟨fun he hb => ?_, fun he => ?_⟩
    · rw [if_pos he, if_pos hb] at h4
      exact h4
    · rw [if_neg he] at h4
      exact h4

/-- C8, witness: sub-type 13 (RS Interleaver Block Size) with sub-length 2 and
value bytes 1, 2 at offset 7, in an extended burst descriptor: one field, of
value 258. -/
theorem sub_tlv_table_length_witness :
    ([0, 0, 0, 0, 5, 5, 3, 13, 2, 1, 2] : tvbuff_t)[7]? = some 13 ∧
    ([0, 0, 0, 0, 5, 5, 3, 13, 2, 1, 2] : tvbuff_t)[7 + 1]? = some 2 ∧
    burst_descr5_tlv [0, 0, 0, 0, 5, 5, 3, 13, 2, 1, 2] 5 7 ucd_state.init =
      outcome.ok 11
        { col_info := ""
          tree := [tree_op.item tlv_tree hf_docsis_rs_int_block 9 2 (fvalue.uinteger 258)]
          expert := []
          reads := [7, 8, 9, 10] } :=
  ⟨rfl, rfl,
    ((sub_tlv_table_length [0, 0, 0, 0, 5, 5, 3, 13, 2, 1, 2] 7 13 2
      5 ucd_state.init rfl rfl).1 (by decide)).1 rfl (by decide)⟩

/-! ## The symbol rate (C9) -/

/-- C9. A Symbol Rate TLV of length 1 at `pos` whose value is the byte `b`: the
record is processed normally and the symbol rate field carries exactly
`b * 160`, with no reduction modulo 256 (the product is formed in `int` and
passed as a `guint32`). -/
theorem symbol_rate_times_160 (tvb : tvbuff_t) (pos : Nat) (b : guint8) (st : ucd_state)
    (h0 : tvb[pos]? = some 1) (h1 : tvb[pos + 1]? = some 1) (h2 : tvb[pos + 2]? = some b) :
    dissect_tlv tvb pos st =
      outcome.ok (pos + 3)
        { tlv_header st pos 1 1 with
          tree := (tlv_header st pos 1 1).tree ++
            [tree_op.item tlv_tree hf_docsis_ucd_symbol_rate (pos + 2) 1
              (fvalue.uinteger (b.val * 160))]
          reads := (tlv_header st pos 1 1).reads ++ [pos + 2] } := by
  rw [dissect_tlv_header h0 h1]
  exact ucd_switch_symbol_rate h2 _

/-- C9, witness: the raw byte 44 decodes to 7040. -/
theorem symbol_rate_times_160_witness :
    ([3, 0, 0, 0, 1, 1, 44] : tvbuff_t)[4]? = some 1 ∧
    ([3, 0, 0, 0, 1, 1, 44] : tvbuff_t)[4 + 1]? = some 1 ∧
    ([3, 0, 0, 0, 1, 1, 44] : tvbuff_t)[4 + 2]? = some 44 ∧
    dissect_tlv [3, 0, 0, 0, 1, 1, 44] 4 ucd_state.init =
      outcome.ok 7
        { col_info := ""
          tree :=
            [tree_op.subtree 4 (-1) "Symbol Rate",
             tree_op.item tlv_tree hf_docsis_ucd_type 4 1 (fvalue.uinteger 1),
             tree_op.item tlv_tree hf_docsis_ucd_length 5 1 (fvalue.uinteger 1),
             tree_op.set_len 3,
             tree_op.item tlv_tree hf_docsis_ucd_symbol_rate 6 1 (fvalue.uinteger 7040)]
          expert := []
          reads := [4, 5, 6] } :=
  ⟨rfl, rfl, rfl,
    symbol_rate_times_160 [3, 0, 0, 0, 1, 1, 44] 4 44
      ucd_state.init rfl rfl rfl⟩

/-! ## The summary text (C10) -/

/-- C10. The summary text of a message whose upstream channel id byte is `N`,
whatever follows in the buffer, with or without a tree and however the
dissection ends: for `N = 0` it is the Telephony Return text; for every `N` in
1..255 it is "Channel ID = N (U<N-1>)" after the prefix "UCD Message:  ", so
that byte 3 gives "Channel ID = 3 (U2)". -/
theorem channel_id_summary (N : guint8) (rest : tvbuff_t) (tree : Bool) (st : ucd_state) :
    (dissect_ucd (N :: rest) tree st).state.col_info =
      (if N.val = 0 then "UCD Message:  Channel ID = 0 (Telephony Return)"
       else "UCD Message:  Channel ID = " ++ toString N.val ++
          " (U" ++ toString (N.val - 1) ++ ")") ∧
    (dissect_ucd (0 :: rest) tree st).state.col_info =
      "UCD Message:  Channel ID = 0 (Telephony Return)" ∧
    (dissect_ucd (3 :: rest) tree st).state.col_info =
      "UCD Message:  Channel ID = 3 (U2)" := by
  refine ⟨?_, ?_, ?_⟩
  · rw [dissect_ucd_col_info N rest tree st]
    by_cases h0 : N.val = 0
    · rw [if_pos h0, h0]
      rfl
    · rw [if_neg h0, if_pos (by omega), printf_u_channel]
  · rw [dissect_ucd_col_info 0 rest tree st]
    rfl
  · rw [dissect_ucd_col_info 3 rest tree st]
    rfl

/-! ## Counting the top-level TLV headers -/

theorem keeps_tlv_headers_pure {α : Type} (a : α) : keeps_tlv_headers (pure a : dissector α) :=
  fun _ => rfl

theorem keeps_tlv_headers_bind {α β : Type} {m : dissector α} {f : α → dissector β}
    (hm : keeps_tlv_headers m) (hf : ∀ a, keeps_tlv_headers (f a)) :
    keeps_tlv_headers (m >>= f) := by
  intro st
  have h := hm st
  rw [dissector_bind_apply]
  cases hr : m st with
  | ok a st1 =>
    rw [hr] at h
    simp only
    rw [hf a st1]
    exact h
  | bounds_error st1 =>
    rw [hr] at h
    exact h
  | out_of_fuel st1 =>
    rw [hr] at h
    exact h

theorem keeps_tlv_headers_ite {α : Type} (c : Prop) [Decidable c] {m1 m2 : dissector α}
    (h1 : keeps_tlv_headers m1) (h2 : keeps_tlv_headers m2) :
    keeps_tlv_headers (if c then m1 else m2) := by
  split_ifs
  · exact h1
  · exact h2

theorem keeps_tlv_headers_get (tvb : tvbuff_t) (offset : Nat) :
    keeps_tlv_headers (tvb_get_guint8 tvb offset) := by
  intro st
  cases h : tvb[offset]? with
  | some b => rw [tvb_get_guint8_some h]; rfl
  | none => rw [tvb_get_guint8_none h]; rfl

theorem keeps_tlv_headers_item (tree : proto_tree) (field : hf_index) (tvb : tvbuff_t)
    (start length : Nat) (enc : encoding) :
    keeps_tlv_headers (proto_tree_add_item tree field tvb start length enc) := by
  intro st
  by_cases h : start + length ≤ tvb.length
  · rw [proto_tree_add_item_ok _ _ _ h]
    simp [outcome.state, tlv_headers]
  · rw [proto_tree_add_item_err _ _ _ (by omega)]
    rfl

theorem keeps_tlv_headers_uint (tree : proto_tree) (field : hf_index) (tvb : tvbuff_t)
    (start length value : Nat) :
    keeps_tlv_headers (proto_tree_add_uint tree field tvb start length value) := by
  intro st; simp [outcome.state, tlv_headers]

theorem keeps_tlv_headers_protocol_format (start : Nat) (length : Int) (text : String) :
    keeps_tlv_headers (proto_tree_add_protocol_format start length text) := by
  intro st; simp [outcome.state, tlv_headers]

theorem keeps_tlv_headers_subtree (tvb : tvbuff_t) (start : Nat) (length : Int) (text : String) :
    keeps_tlv_headers (proto_tree_add_subtree tvb start length text) := by
  intro st; simp [outcome.state, tlv_headers]

theorem keeps_tlv_headers_expert (fmt : String) (arg : Nat) :
    keeps_tlv_headers (expert_add_info_format fmt arg) := by
  intro st; simp [outcome.state, tlv_headers]

theorem keeps_tlv_headers_col (fmt : String) (args : List Nat) :
    keeps_tlv_headers (col_add_fstr fmt args) := by
  intro st; simp [outcome.state, tlv_headers]

theorem keeps_tlv_headers_while {bound : Nat} {body : Nat → dissector Nat}
    (hb : ∀ pos, keeps_tlv_headers (body pos)) (fuel pos : Nat) :
    keeps_tlv_headers (while_loop bound body fuel pos) := by
  induction fuel generalizing pos with
  | zero =>
    intro st
    unfold while_loop
    split_ifs <;> rfl
  | succ f ih =>
    unfold while_loop
    exact keeps_tlv_headers_ite _ (keeps_tlv_headers_bind (hb pos) (fun a => ih a))
      (keeps_tlv_headers_pure pos)

theorem keeps_tlv_headers_burst_descr_switch (tvb : tvbuff_t) (length s tlvlen pos : Nat) :
    keeps_tlv_headers (burst_descr_switch tvb length s tlvlen pos) := by
  rw [burst_descr_switch_eq]
  exact keeps_tlv_headers_ite _
    (keeps_tlv_headers_ite _ (keeps_tlv_headers_item _ _ _ _ _ _)
      (keeps_tlv_headers_expert _ _))
    (keeps_tlv_headers_pure ())

theorem keeps_tlv_headers_burst_descr5_switch (tvb : tvbuff_t) (length s tlvlen pos : Nat) :
    keeps_tlv_headers (burst_descr5_switch tvb length s tlvlen pos) := by
  rw [burst_descr5_switch_eq]
  exact keeps_tlv_headers_ite _
    (keeps_tlv_headers_ite _ (keeps_tlv_headers_item _ _ _ _ _ _)
      (keeps_tlv_headers_expert _ _))
    (keeps_tlv_headers_pure ())

theorem keeps_tlv_headers_burst_descr_tlv (tvb : tvbuff_t) (length pos : Nat) :
    keeps_tlv_headers (burst_descr_tlv tvb length pos) :=
  keeps_tlv_headers_bind (keeps_tlv_headers_get _ _) fun _ =>
    keeps_tlv_headers_bind (keeps_tlv_headers_get _ _) fun _ =>
      keeps_tlv_headers_bind (keeps_tlv_headers_burst_descr_switch _ _ _ _ _) fun _ =>
        keeps_tlv_headers_pure _

theorem keeps_tlv_headers_burst_descr5_tlv (tvb : tvbuff_t) (length pos : Nat) :
    keeps_tlv_headers (burst_descr5_tlv tvb length pos) :=
  keeps_tlv_headers_bind (keeps_tlv_headers_get _ _) fun _ =>
    keeps_tlv_headers_bind (keeps_tlv_headers_get _ _) fun _ =>
      keeps_tlv_headers_bind (keeps_tlv_headers_burst_descr5_switch _ _ _ _ _) fun _ =>
        keeps_tlv_headers_pure _

/-- The value of a top-level TLV adds no top-level header, whatever its type. -/
theorem keeps_tlv_headers_ucd_switch (tvb : tvbuff_t) (type length pos : Nat) :
    keeps_tlv_headers (ucd_switch tvb type length pos) := by
  unfold ucd_switch
  split
  · exact keeps_tlv_headers_ite _
      (keeps_tlv_headers_bind (keeps_tlv_headers_get _ _) fun _ =>
        keeps_tlv_headers_bind (keeps_tlv_headers_uint _ _ _ _ _ _) fun _ =>
          keeps_tlv_headers_pure _)
      (keeps_tlv_headers_bind (keeps_tlv_headers_expert _ _) fun _ => keeps_tlv_headers_pure _)
  · exact keeps_tlv_headers_ite _
      (keeps_tlv_headers_bind (keeps_tlv_headers_item _ _ _ _ _ _) fun _ =>
        keeps_tlv_headers_pure _)
      (keeps_tlv_headers_bind (keeps_tlv_headers_expert _ _) fun _ => keeps_tlv_headers_pure _)
  · exact keeps_tlv_headers_bind (keeps_tlv_headers_item _ _ _ _ _ _) fun _ =>
      keeps_tlv_headers_pure _
  · exact keeps_tlv_headers_bind (keeps_tlv_headers_item _ _ _ _ _ _) fun _ =>
      keeps_tlv_headers_while (keeps_tlv_headers_burst_descr_tlv _ _) _ _
  · exact keeps_tlv_headers_bind (keeps_tlv_headers_item _ _ _ _ _ _) fun _ =>
      keeps_tlv_headers_while (keeps_tlv_headers_burst_descr5_tlv _ _) _ _
  · exact keeps_tlv_headers_pure _

theorem tlv_headers_tlv_header (st : ucd_state) (pos type length : Nat) :
    tlv_headers (tlv_header st pos type length) = tlv_headers st + 1 := by
  simp [tlv_headers, tlv_header, List.countP_append, List.countP_cons]

/-- One iteration of the top-level loop: when the two header bytes are in the
buffer one header is counted, whatever the value does; else the bounds
exception is thrown on the way and none is counted. On a normal end the cursor
has advanced by at least 2. -/
theorem dissect_tlv_headers (tvb : tvbuff_t) (pos : Nat) (st : ucd_state) :
    (pos + 2 ≤ tvb.length ∧
      tlv_headers (dissect_tlv tvb pos st).state = tlv_headers st + 1 ∧
      ((∃ pos' st', dissect_tlv tvb pos st = outcome.ok pos' st' ∧ pos + 2 ≤ pos') ∨
        ∃ st', dissect_tlv tvb pos st = outcome.bounds_error st')) ∨
    (tvb.length < pos + 2 ∧
      tlv_headers (dissect_tlv tvb pos st).state = tlv_headers st ∧
      ∃ st', dissect_tlv tvb pos st = outcome.bounds_error st') := by
  cases h0 : tvb[pos]? with
  | none =>
    right
    have hl : tvb.length ≤ pos := by simpa using h0
    rw [dissect_tlv_no_type h0 st]
    exact ⟨by omega, rfl, _, rfl⟩
  | some t =>
    cases h1 : tvb[pos + 1]? with
    | none =>
      right
      have hl : tvb.length ≤ pos + 1 := by simpa using h1
      rw [dissect_tlv_no_length h0 h1 st]
      refine ⟨by omega, ?_, _, rfl⟩
      simp [outcome.state, tlv_headers, List.countP_append, List.countP_cons]
    | some len =>
      left
      have hl := length_of_getElem?_some h1
      refine ⟨by omega, ?_, dissect_tlv_total tvb pos st⟩
      rw [dissect_tlv_header h0 h1, keeps_tlv_headers_ucd_switch, tlv_headers_tlv_header]

/-- The top-level loop started at `pos` counts at most `(length - pos) / 2`
headers, whatever its bound and its fuel and however it ends. -/
theorem dissect_tlvs_headers (tvb : tvbuff_t) (len : Nat) (fuel : Nat) :
    ∀ (pos : Nat) (st : ucd_state),
      tlv_headers (dissect_tlvs tvb len fuel pos st).state ≤
        tlv_headers st + (tvb.length - pos) / 2 := by
  unfold dissect_tlvs
  induction fuel with
  | zero =>
    intro pos st
    have h : (while_loop len (dissect_tlv tvb) 0 pos st).state = st := by
      unfold while_loop
      split_ifs <;> rfl
    rw [h]
    omega
  | succ f ih =>
    intro pos st
    by_cases hlt : pos < len
    · rcases dissect_tlv_headers tvb pos st with ⟨hb, hc, hres⟩ | ⟨hb, hc, hres⟩
      · rcases hres with ⟨pos', st', hok, hadv⟩ | ⟨st', herr⟩
        · rw [while_loop_step_ok f hlt hok]
          rw [hok] at hc
          have h1 := ih pos' st'
          have h2 : tlv_headers st' = tlv_headers st + 1 := hc
          omega
        · rw [while_loop_step_err f hlt herr]
          rw [herr] at hc
          have h2 : tlv_headers st' = tlv_headers st + 1 := hc
          show tlv_headers st' ≤ _
          omega
      · obtain ⟨st', herr⟩ := hres
        rw [while_loop_step_err f hlt herr]
        rw [herr] at hc
        have h2 : tlv_headers st' = tlv_headers st := hc
        show tlv_headers st' ≤ _
        omega
    · rw [while_loop_done _ _ hlt]
      show tlv_headers st ≤ _
      omega

/-- The whole of `dissect_ucd` counts at most `(length - 4) / 2` headers. -/
theorem dissect_ucd_headers (tvb : tvbuff_t) (tree : Bool) (st : ucd_state) :
    tlv_headers (dissect_ucd tvb tree st).state ≤ tlv_headers st + (tvb.length - 4) / 2 := by
  unfold dissect_ucd
  rw [dissector_bind_apply]
  have hg := keeps_tlv_headers_get tvb 0 st
  cases hr : tvb_get_guint8 tvb 0 st with
  | bounds_error st1 =>
    rw [hr] at hg
    have h2 : tlv_headers st1 = tlv_headers st := hg
    show tlv_headers st1 ≤ _
    omega
  | out_of_fuel st1 =>
    rw [hr] at hg
    have h2 : tlv_headers st1 = tlv_headers st := hg
    show tlv_headers st1 ≤ _
    omega
  | ok upchid st1 =>
    rw [hr] at hg
    have h2 : tlv_headers st1 = tlv_headers st := hg
    simp only
    rw [dissector_bind_apply]
    have hcol : ∃ st2, (if upchid > 0 then
          col_add_fstr "UCD Message:  Channel ID = %u (U%u)" [upchid, upchid - 1]
        else col_add_fstr "UCD Message:  Channel ID = %u (Telephony Return)" [upchid]) st1 =
          outcome.ok () st2 ∧ tlv_headers st2 = tlv_headers st1 := by
      split_ifs <;> exact ⟨_, col_add_fstr_apply _ _ _, rfl⟩
    obtain ⟨st2, hc, h3⟩ := hcol
    rw [hc]
    simp only
    cases tree with
    | false =>
      show tlv_headers st2 ≤ _
      omega
    | true =>
      simp only [if_true]
      have key : ∀ (m : dissector Unit) (k : Unit → dissector (Option Nat)) (s : ucd_state),
          keeps_tlv_headers m →
          (∀ s', tlv_headers s' = tlv_headers s →
            tlv_headers (k () s').state ≤ tlv_headers st + (tvb.length - 4) / 2) →
          tlv_headers s = tlv_headers st →
          tlv_headers ((m >>= k) s).state ≤ tlv_headers st + (tvb.length - 4) / 2 := by
        intro m k s hm hk hs
        have hms := hm s
        rw [dissector_bind_apply]
        cases hmr : m s with
        | ok a s' =>
          rw [hmr] at hms
          exact hk s' hms
        | bounds_error s' =>
          rw [hmr] at hms
          have h4 : tlv_headers s' = tlv_headers s := hms
          show tlv_headers s' ≤ _
          omega
        | out_of_fuel s' =>
          rw [hmr] at hms
          have h4 : tlv_headers s' = tlv_headers s := hms
          show tlv_headers s' ≤ _
          omega
      refine key _ _ st2 (keeps_tlv_headers_protocol_format _ _ _) (fun s3 h3' => ?_)
        (h3.trans h2)
      refine key _ _ s3 (keeps_tlv_headers_item _ _ _ _ _ _) (fun s4 h4 => ?_) (h3'.trans (h3.trans h2))
      have e4 := h4.trans (h3'.trans (h3.trans h2))
      refine key _ _ s4 (keeps_tlv_headers_item _ _ _ _ _ _) (fun s5 h5 => ?_) e4
      have e5 := h5.trans e4
      refine key _ _ s5 (keeps_tlv_headers_item _ _ _ _ _ _) (fun s6 h6 => ?_) e5
      have e6 := h6.trans e5
      refine key _ _ s6 (keeps_tlv_headers_item _ _ _ _ _ _) (fun s7 h7 => ?_) e6
      have e7 := h7.trans e6
      have hloop := dissect_tlvs_headers tvb (tvb_reported_length_remaining tvb 0)
        (tvb_reported_length_remaining tvb 0) 4 s7
      rw [dissector_bind_apply]
      cases hl : dissect_tlvs tvb (tvb_reported_length_remaining tvb 0)
          (tvb_reported_length_remaining tvb 0) 4 s7 with
      | ok a s8 =>
        rw [hl] at hloop
        have h8 : tlv_headers s8 ≤ tlv_headers s7 + (tvb.length - 4) / 2 := hloop
        show tlv_headers s8 ≤ _
        omega
      | bounds_error s8 =>
        rw [hl] at hloop
        have h8 : tlv_headers s8 ≤ tlv_headers s7 + (tvb.length - 4) / 2 := hloop
        show tlv_headers s8 ≤ _
        omega
      | out_of_fuel s8 =>
        rw [hl] at hloop
        have h8 : tlv_headers s8 ≤ tlv_headers s7 + (tvb.length - 4) / 2 := hloop
        show tlv_headers s8 ≤ _
        omega

/-- A loop whose body moves the cursor by at least 2, or throws, ends within
`⌈(bound - pos) / 2⌉` iterations: that much fuel is enough. -/
theorem while_loop_fuel_two {bound : Nat} {body : Nat → dissector Nat}
    (htot : ∀ pos st,
      (∃ pos' st', body pos st = outcome.ok pos' st' ∧ pos + 2 ≤ pos') ∨
      ∃ st', body pos st = outcome.bounds_error st') :
    ∀ (fuel pos : Nat) (st : ucd_state), (bound - pos + 1) / 2 ≤ fuel →
      (∃ pos' st', while_loop bound body fuel pos st = outcome.ok pos' st') ∨
      ∃ st', while_loop bound body fuel pos st = outcome.bounds_error st' := by
  intro fuel
  induction fuel with
  | zero =>
    intro pos st h
    have hn : ¬ pos < bound := by omega
    exact Or.inl ⟨pos, st, while_loop_done body 0 hn st⟩
  | succ f ih =>
    intro pos st h
    by_cases hlt : pos < bound
    · rcases htot pos st with ⟨pos', st', hok, hadv⟩ | ⟨st', herr⟩
      · rw [while_loop_step_ok f hlt hok]
        exact ih pos' st' (by omega)
      · exact Or.inr ⟨st', while_loop_step_err f hlt herr⟩
    · exact Or.inl ⟨pos, st, while_loop_done body (f + 1) hlt st⟩

/-! ## The TLV headers read by both loops -/

theorem while_loop_starts_done {bound : Nat} (body : Nat → dissector Nat) (fuel : Nat)
    {pos : Nat} (h : ¬ pos < bound) (st : ucd_state) :
    while_loop_starts bound body fuel pos st = [] := by
  cases fuel <;> simp [while_loop_starts, h]

theorem while_loop_starts_ok {bound : Nat} {body : Nat → dissector Nat} (fuel : Nat)
    {pos a : Nat} {st st1 : ucd_state} (h : pos < bound)
    (hb : body pos st = outcome.ok a st1) :
    while_loop_starts bound body (fuel + 1) pos st =
      (pos, st) :: while_loop_starts bound body fuel a st1 := by
  simp [while_loop_starts, h, hb]

theorem while_loop_starts_err {bound : Nat} {body : Nat → dissector Nat} (fuel : Nat)
    {pos : Nat} {st st1 : ucd_state} (h : pos < bound)
    (hb : body pos st = outcome.bounds_error st1) :
    while_loop_starts bound body (fuel + 1) pos st = [(pos, st)] := by
  simp [while_loop_starts, h, hb]

/-- The sub-TLV headers both bytes of which are read by a sub-TLV loop started
at `p` take two bytes each between `p` and the end of the buffer, and between
`p` and the cursor the loop leaves when it ends normally. -/
theorem burst_loop_headers (tvb : tvbuff_t) (type length E : Nat) (ht : type = 4 ∨ type = 5)
    (fuel : Nat) :
    ∀ (p : Nat) (st : ucd_state),
      2 * (((while_loop_starts E (burst_tlv type tvb length) fuel p st).map Prod.fst).filter
          (fun q => q + 2 ≤ tvb.length)).length ≤ tvb.length - p ∧
      ∀ q st', while_loop E (burst_tlv type tvb length) fuel p st = outcome.ok q st' →
        p ≤ q ∧
        2 * (((while_loop_starts E (burst_tlv type tvb length) fuel p st).map Prod.fst).filter
          (fun q => q + 2 ≤ tvb.length)).length ≤ q - p := by
  induction fuel with
  | zero =>
    intro p st
    refine ⟨by simp [while_loop_starts], fun q st' hq => ?_⟩
    by_cases hlt : p < E
    · simp [while_loop, hlt] at hq
    · rw [while_loop_done _ _ hlt] at hq
      injection hq with h1 _
      simp [while_loop_starts]
      omega
  | succ f ih =>
    intro p st
    by_cases hlt : p < E
    · rcases burst_tlv_advance tvb type length p ht st with ⟨q1, st1, hok, hlo, _⟩ | ⟨st1, herr⟩
      · rw [while_loop_starts_ok f hlt hok, while_loop_step_ok f hlt hok]
        obtain ⟨h1, h2⟩ := ih q1 st1
        simp only [List.map_cons, List.filter_cons]
        by_cases hc : p + 2 ≤ tvb.length
        · simp only [hc, decide_True, if_true, List.length_cons]
          refine ⟨by omega, fun q st' hq => ?_⟩
          obtain ⟨h3, h4⟩ := h2 q st' hq
          omega
        · simp only [hc, decide_False, Bool.false_eq_true, if_false]
          refine ⟨by omega, fun q st' hq => ?_⟩
          obtain ⟨h3, h4⟩ := h2 q st' hq
          omega
      · rw [while_loop_starts_err f hlt herr, while_loop_step_err f hlt herr]
        simp only [List.map_cons, List.map_nil, List.filter_cons, List.filter_nil]
        by_cases hc : p + 2 ≤ tvb.length
        · simp only [hc, decide_True, if_true, List.length_cons, List.length_nil]
          refine ⟨by omega, fun q st' hq => ?_⟩
          cases hq
        · simp only [hc, decide_False, Bool.false_eq_true, if_false, List.length_nil]
          refine ⟨by omega, fun q st' hq => ?_⟩
          cases hq
    · rw [while_loop_starts_done _ _ hlt, while_loop_done _ _ hlt]
      refine ⟨by simp, fun q st' hq => ?_⟩
      injection hq with h1 _
      simp
      omega

/-- The sub-TLV headers read inside a top-level TLV whose value starts at
`pos`: two bytes each between `pos + 1` and the end of the buffer, and between
`pos + 1` and the cursor left by `ucd_switch` when it ends normally. -/
theorem sub_tlv_headers_read_bound (tvb : tvbuff_t) (type length pos : Nat) (st : ucd_state) :
    2 * (sub_tlv_headers_read tvb type length pos st).length ≤ tvb.length - (pos + 1) ∧
    ∀ q st', ucd_switch tvb type length pos st = outcome.ok q st' →
      2 * (sub_tlv_headers_read tvb type length pos st).length ≤ q - (pos + 1) := by
  by_cases ht : type = 4 ∨ type = 5
  · have ht2 : type = UCD_BURST_DESCR ∨ type = UCD_BURST_DESCR5 := ht
    have he : pos + 1 + length - 1 = pos + length := by omega
    by_cases hb : pos + 1 ≤ tvb.length
    · have hsw := ucd_switch_burst type length ht hb st
      have hitem := proto_tree_add_item_ok tlv_tree hf_docsis_ucd_iuc ENC_BIG_ENDIAN hb st
      have hl := burst_loop_headers tvb type length (pos + length) ht length (pos + 1)
        { st with
          tree := st.tree ++
            [tree_op.item tlv_tree hf_docsis_ucd_iuc pos 1
              (fvalue.uinteger (get_uint_value ((tvb.drop pos).take 1)))]
          reads := st.reads ++ [pos] }
      have hdef : sub_tlv_headers_read tvb type length pos st =
          ((while_loop_starts (pos + length) (burst_tlv type tvb length) length (pos + 1)
            { st with
              tree := st.tree ++
                [tree_op.item tlv_tree hf_docsis_ucd_iuc pos 1
                  (fvalue.uinteger (get_uint_value ((tvb.drop pos).take 1)))]
              reads := st.reads ++ [pos] }).map Prod.fst).filter
            (fun q => q + 2 ≤ tvb.length) := by
        unfold sub_tlv_headers_read
        rw [if_pos ht2, hitem, he]
        simp [hf, decode_value, List.range']
      rw [hdef, hsw]
      exact ⟨hl.1, fun q st' hq => (hl.2 q st' hq).2⟩
    · have hitem := proto_tree_add_item_err tlv_tree hf_docsis_ucd_iuc ENC_BIG_ENDIAN
        (Nat.lt_of_not_le hb) st
      have hdef : sub_tlv_headers_read tvb type length pos st = [] := by
        unfold sub_tlv_headers_read
        rw [if_pos ht2, hitem]
      rw [hdef]
      exact ⟨by simp, fun _ _ _ => by simp⟩
  · have ht2 : ¬ (type = UCD_BURST_DESCR ∨ type = UCD_BURST_DESCR5) := ht
    have hdef : sub_tlv_headers_read tvb type length pos st = [] := by
      unfold sub_tlv_headers_read
      rw [if_neg ht2]
    rw [hdef]
    exact ⟨by simp, fun _ _ _ => by simp⟩

/-- The TLV headers read in one iteration of the top-level loop at `p`: two
bytes each between `p` and the end of the buffer, and between `p` and the
cursor the iteration leaves when it ends normally. -/
theorem tlv_headers_read_at_bound (tvb : tvbuff_t) (p : Nat) (st : ucd_state) :
    2 * (tlv_headers_read_at tvb p st).length ≤ tvb.length - p ∧
    ∀ q st', dissect_tlv tvb p st = outcome.ok q st' →
      2 * (tlv_headers_read_at tvb p st).length ≤ q - p := by
  cases h0 : tvb[p]? with
  | none =>
    have hdef : tlv_headers_read_at tvb p st = [] := by
      unfold tlv_headers_read_at
      simp [h0]
    rw [hdef]
    exact ⟨by simp, fun _ _ _ => by simp⟩
  | some t =>
    cases h1 : tvb[p + 1]? with
    | none =>
      have hdef : tlv_headers_read_at tvb p st = [] := by
        unfold tlv_headers_read_at
        simp [h0, h1]
      rw [hdef]
      exact ⟨by simp, fun _ _ _ => by simp⟩
    | some len =>
      have hdef : tlv_headers_read_at tvb p st =
          p :: sub_tlv_headers_read tvb t.val len.val (p + 2)
            (tlv_header st p t.val len.val) := by
        unfold tlv_headers_read_at
        simp [h0, h1]
      have hlen := length_of_getElem?_some h1
      obtain ⟨hs1, hs2⟩ :=
        sub_tlv_headers_read_bound tvb t.val len.val (p + 2) (tlv_header st p t.val len.val)
      rw [hdef, List.length_cons]
      refine ⟨by omega, fun q st' hq => ?_⟩
      have hadv : p + 2 ≤ q := by
        rcases dissect_tlv_total tvb p st with ⟨q', s, h, hq'⟩ | ⟨s, h⟩
        · rw [h] at hq
          injection hq with e1 _
          omega
        · rw [h] at hq
          cases hq
      rw [dissect_tlv_header h0 h1] at hq
      have := hs2 q st' hq
      omega

/-- The TLV headers read by the top-level loop started at `p` take two bytes
each between `p` and the end of the buffer. -/
theorem dissect_tlvs_headers_read (tvb : tvbuff_t) (fuel : Nat) :
    ∀ (p : Nat) (st : ucd_state),
      2 * (((while_loop_starts tvb.length (dissect_tlv tvb) fuel p st).map
        (fun ps => tlv_headers_read_at tvb ps.1 ps.2)).flatten).length ≤ tvb.length - p := by
  induction fuel with
  | zero =>
    intro p st
    simp [while_loop_starts]
  | succ f ih =>
    intro p st
    by_cases hlt : p < tvb.length
    · obtain ⟨hr1, hr2⟩ := tlv_headers_read_at_bound tvb p st
      rcases dissect_tlv_total tvb p st with ⟨q, st1, hok, hq⟩ | ⟨st1, herr⟩
      · rw [while_loop_starts_ok f hlt hok]
        have h1 := ih q st1
        have h2 := hr2 q st1 hok
        simp only [List.map_cons, List.flatten_cons, List.length_append]
        omega
      · rw [while_loop_starts_err f hlt herr]
        simp only [List.map_cons, List.map_nil, List.flatten_cons, List.flatten_nil,
          List.append_nil]
        exact hr1
    · rw [while_loop_starts_done _ _ hlt]
      simp

/-- At most `(length - 4) / 2` TLV headers, top-level and sub-TLV together,
are read by the top-level loop of `dissect_ucd`. -/
theorem tlv_headers_read_bound (tvb : tvbuff_t) (st : ucd_state) :
    (tlv_headers_read tvb st).length ≤ (tvb.length - 4) / 2 := by
  have h := dissect_tlvs_headers_read tvb tvb.length 4 st
  unfold tlv_headers_read
  omega

/-! ## The log of the bytes read only grows -/

theorem appends_reads_pure {α : Type} (a : α) : appends_reads (pure a : dissector α) :=
  fun _ => ⟨[], by simp [outcome.state]⟩

theorem appends_reads_bind {α β : Type} {m : dissector α} {f : α → dissector β}
    (hm : appends_reads m) (hf : ∀ a, appends_reads (f a)) : appends_reads (m >>= f) := by
  intro st
  obtain ⟨r, hr⟩ := hm st
  rw [dissector_bind_apply]
  cases hres : m st with
  | ok a st1 =>
    rw [hres] at hr
    simp only
    obtain ⟨r2, hr2⟩ := hf a st1
    have hr' : st1.reads = st.reads ++ r := hr
    exact ⟨r ++ r2, by rw [hr2, hr', List.append_assoc]⟩
  | bounds_error st1 =>
    rw [hres] at hr
    exact ⟨r, hr⟩
  | out_of_fuel st1 =>
    rw [hres] at hr
    exact ⟨r, hr⟩

theorem appends_reads_ite {α : Type} (c : Prop) [Decidable c] {m1 m2 : dissector α}
    (h1 : appends_reads m1) (h2 : appends_reads m2) :
    appends_reads (if c then m1 else m2) := by
  split_ifs
  · exact h1
  · exact h2

theorem appends_reads_get (tvb : tvbuff_t) (offset : Nat) :
    appends_reads (tvb_get_guint8 tvb offset) := by
  intro st
  cases h : tvb[offset]? with
  | some b =>
    rw [tvb_get_guint8_some h]
    exact ⟨[offset], rfl⟩
  | none =>
    rw [tvb_get_guint8_none h]
    exact ⟨[], by simp [outcome.state]⟩

theorem appends_reads_item (tree : proto_tree) (field : hf_index) (tvb : tvbuff_t)
    (start length : Nat) (enc : encoding) :
    appends_reads (proto_tree_add_item tree field tvb start length enc) := by
  intro st
  by_cases h : start + length ≤ tvb.length
  · rw [proto_tree_add_item_ok _ _ _ h]
    exact ⟨List.range' start length, rfl⟩
  · rw [proto_tree_add_item_err _ _ _ (by omega)]
    exact ⟨[], by simp [outcome.state]⟩

theorem appends_reads_uint (tree : proto_tree) (field : hf_index) (tvb : tvbuff_t)
    (start length value : Nat) :
    appends_reads (proto_tree_add_uint tree field tvb start length value) := by
  intro st
  exact ⟨[], by simp [outcome.state]⟩

theorem appends_reads_subtree (tvb : tvbuff_t) (start : Nat) (length : Int) (text : String) :
    appends_reads (proto_tree_add_subtree tvb start length text) := by
  intro st
  exact ⟨[], by simp [outcome.state]⟩

theorem appends_reads_set_len (length : Nat) : appends_reads (proto_item_set_len length) := by
  intro st
  exact ⟨[], by simp [outcome.state]⟩

theorem appends_reads_expert (fmt : String) (arg : Nat) :
    appends_reads (expert_add_info_format fmt arg) := by
  intro st
  exact ⟨[], by simp [outcome.state]⟩

theorem appends_reads_while {bound : Nat} {body : Nat → dissector Nat}
    (hb : ∀ pos, appends_reads (body pos)) (fuel pos : Nat) :
    appends_reads (while_loop bound body fuel pos) := by
  induction fuel generalizing pos with
  | zero =>
    intro st
    unfold while_loop
    split_ifs <;> exact ⟨[], by simp [outcome.state]⟩
  | succ f ih =>
    unfold while_loop
    exact appends_reads_ite _ (appends_reads_bind (hb pos) (fun a => ih a))
      (appends_reads_pure pos)

theorem appends_reads_burst_tlv (tvb : tvbuff_t) (type length pos : Nat)
    (ht : type = 4 ∨ type = 5) : appends_reads (burst_tlv type tvb length pos) := by
  intro st
  obtain ⟨_, _, _, r, hr, _⟩ := burst_tlv_reads tvb type length pos ht st
  exact ⟨r, hr⟩

theorem appends_reads_burst_descr_tlv (tvb : tvbuff_t) (length pos : Nat) :
    appends_reads (burst_descr_tlv tvb length pos) := by
  have h := appends_reads_burst_tlv tvb 4 length pos (Or.inl rfl)
  rw [burst_tlv_four] at h
  exact h

theorem appends_reads_burst_descr5_tlv (tvb : tvbuff_t) (length pos : Nat) :
    appends_reads (burst_descr5_tlv tvb length pos) := by
  have h := appends_reads_burst_tlv tvb 5 length pos (Or.inr rfl)
  rw [burst_tlv_five] at h
  exact h

/-- The value of a top-level TLV only appends to the log, whatever its type. -/
theorem appends_reads_ucd_switch (tvb : tvbuff_t) (type length pos : Nat) :
    appends_reads (ucd_switch tvb type length pos) := by
  unfold ucd_switch
  split
  · exact appends_reads_ite _
      (appends_reads_bind (appends_reads_get _ _) fun _ =>
        appends_reads_bind (appends_reads_uint _ _ _ _ _ _) fun _ =>
          appends_reads_pure _)
      (appends_reads_bind (appends_reads_expert _ _) fun _ => appends_reads_pure _)
  · exact appends_reads_ite _
      (appends_reads_bind (appends_reads_item _ _ _ _ _ _) fun _ =>
        appends_reads_pure _)
      (appends_reads_bind (appends_reads_expert _ _) fun _ => appends_reads_pure _)
  · exact appends_reads_bind (appends_reads_item _ _ _ _ _ _) fun _ =>
      appends_reads_pure _
  · exact appends_reads_bind (appends_reads_item _ _ _ _ _ _) fun _ =>
      appends_reads_while (appends_reads_burst_descr_tlv _ _) _ _
  · exact appends_reads_bind (appends_reads_item _ _ _ _ _ _) fun _ =>
      appends_reads_while (appends_reads_burst_descr5_tlv _ _) _ _
  · exact appends_reads_pure _

theorem appends_reads_dissect_tlv (tvb : tvbuff_t) (pos : Nat) :
    appends_reads (dissect_tlv tvb pos) :=
  appends_reads_bind (appends_reads_get _ _) fun _ =>
    appends_reads_bind (appends_reads_subtree _ _ _ _) fun _ =>
      appends_reads_bind (appends_reads_uint _ _ _ _ _ _) fun _ =>
        appends_reads_bind (appends_reads_get _ _) fun _ =>
          appends_reads_bind (appends_reads_uint _ _ _ _ _ _) fun _ =>
            appends_reads_bind (appends_reads_set_len _) fun _ =>
              appends_reads_ucd_switch _ _ _ _

/-! ## The headers read are in the log of the bytes read -/

theorem ucd_state.read_between_before {st st1 st' : ucd_state} {x : Nat} {r0 : List Nat}
    (h0 : st1.reads = st.reads ++ r0) (h : st1.read_between st' x) : st.read_between st' x := by
  obtain ⟨r, hr, hx⟩ := h
  exact ⟨r0 ++ r, by rw [hr, h0, List.append_assoc], List.mem_append_right _ hx⟩

theorem ucd_state.read_between_after {st st1 st' : ucd_state} {x : Nat} {r2 : List Nat}
    (h : st.read_between st1 x) (h2 : st'.reads = st1.reads ++ r2) : st.read_between st' x := by
  obtain ⟨r, hr, hx⟩ := h
  exact ⟨r ++ r2, by rw [h2, hr, List.append_assoc], List.mem_append_left _ hx⟩

/-- One iteration of a sub-TLV loop at a header both bytes of which are in the
buffer reads these two bytes. -/
theorem burst_tlv_header_read (tvb : tvbuff_t) (type length p : Nat) (ht : type = 4 ∨ type = 5)
    (hp : p + 2 ≤ tvb.length) (st : ucd_state) :
    st.read_between (burst_tlv type tvb length p st).state p ∧
    st.read_between (burst_tlv type tvb length p st).state (p + 1) := by
  have h0 : tvb[p]? = some tvb[p] := List.getElem?_eq_getElem (by omega)
  have h1 : tvb[p + 1]? = some tvb[p + 1] := List.getElem?_eq_getElem (by omega)
  have hbody := burst_tlv_apply type length ht h0 h1 st
  split_ifs at hbody with hl he hb <;> rw [hbody]
  · exact ⟨⟨[p, p + 1] ++ List.range' (p + 2) (tvb[p + 1]).val,
        by simp [outcome.state], by simp⟩,
      ⟨[p, p + 1] ++ List.range' (p + 2) (tvb[p + 1]).val, by simp [outcome.state], by simp⟩⟩
  · exact ⟨⟨[p, p + 1], rfl, by simp⟩, ⟨[p, p + 1], rfl, by simp⟩⟩
  · exact ⟨⟨[p, p + 1], rfl, by simp⟩, ⟨[p, p + 1], rfl, by simp⟩⟩
  · exact ⟨⟨[p, p + 1], rfl, by simp⟩, ⟨[p, p + 1], rfl, by simp⟩⟩

/-- Every sub-TLV header listed for a sub-TLV loop has both its bytes in the
log of the bytes the loop has read. -/
theorem burst_loop_headers_read (tvb : tvbuff_t) (type length E : Nat)
    (ht : type = 4 ∨ type = 5) (fuel : Nat) :
    ∀ (p : Nat) (st : ucd_state) (q : Nat),
      q ∈ ((while_loop_starts E (burst_tlv type tvb length) fuel p st).map Prod.fst).filter
          (fun q => q + 2 ≤ tvb.length) →
      st.read_between (while_loop E (burst_tlv type tvb length) fuel p st).state q ∧
      st.read_between (while_loop E (burst_tlv type tvb length) fuel p st).state (q + 1) := by
  induction fuel with
  | zero =>
    intro p st q hq
    simp [while_loop_starts] at hq
  | succ f ih =>
    intro p st q hq
    by_cases hlt : p < E
    · obtain ⟨r0, hr0⟩ := appends_reads_burst_tlv tvb type length p ht st
      rcases burst_tlv_advance tvb type length p ht st with ⟨q1, st1, hok, _, _⟩ | ⟨st1, herr⟩
      · rw [while_loop_starts_ok f hlt hok] at hq
        rw [while_loop_step_ok f hlt hok]
        rw [hok] at hr0
        obtain ⟨r2, hr2⟩ := appends_reads_while
          (fun p => appends_reads_burst_tlv tvb type length p ht) f q1 st1
        simp only [List.map_cons, List.mem_filter, List.mem_cons, decide_eq_true_eq] at hq
        obtain ⟨hq1 | hq1, hq2⟩ := hq
        · subst hq1
          have hh := burst_tlv_header_read tvb type length q ht hq2 st
          rw [hok] at hh
          exact ⟨ucd_state.read_between_after hh.1 hr2, ucd_state.read_between_after hh.2 hr2⟩
        · have hm : q ∈ ((while_loop_starts E (burst_tlv type tvb length) f q1 st1).map
              Prod.fst).filter (fun q => q + 2 ≤ tvb.length) := by
            simp only [List.mem_filter, decide_eq_true_eq]
            exact ⟨hq1, hq2⟩
          obtain ⟨i1, i2⟩ := ih q1 st1 q hm
          exact ⟨ucd_state.read_between_before hr0 i1, ucd_state.read_between_before hr0 i2⟩
      · rw [while_loop_starts_err f hlt herr] at hq
        rw [while_loop_step_err f hlt herr]
        simp only [List.map_cons, List.map_nil, List.mem_filter, List.mem_singleton,
          decide_eq_true_eq] at hq
        obtain ⟨hq1, hq2⟩ := hq
        subst hq1
        have hh := burst_tlv_header_read tvb type length q ht hq2 st
        rw [herr] at hh
        exact hh
    · rw [while_loop_starts_done _ _ hlt] at hq
      simp at hq

/-- Every TLV header listed for one iteration of the top-level loop has both
its bytes in the log of the bytes the iteration has read. -/
theorem tlv_headers_read_at_read (tvb : tvbuff_t) (p : Nat) (st : ucd_state) (q : Nat)
    (hq : q ∈ tlv_headers_read_at tvb p st) :
    st.read_between (dissect_tlv tvb p st).state q ∧
    st.read_between (dissect_tlv tvb p st).state (q + 1) := by
  cases h0 : tvb[p]? with
  | none =>
    unfold tlv_headers_read_at at hq
    simp [h0] at hq
  | some t =>
    cases h1 : tvb[p + 1]? with
    | none =>
      unfold tlv_headers_read_at at hq
      simp [h0, h1] at hq
    | some len =>
      have hdef : tlv_headers_read_at tvb p st =
          p :: sub_tlv_headers_read tvb t.val len.val (p + 2)
            (tlv_header st p t.val len.val) := by
        unfold tlv_headers_read_at
        simp [h0, h1]
      rw [hdef] at hq
      rw [dissect_tlv_header h0 h1]
      have hhead : (tlv_header st p t.val len.val).reads = st.reads ++ [p, p + 1] := rfl
      rcases List.mem_cons.mp hq with hq1 | hq1
      · subst hq1
        obtain ⟨r2, hr2⟩ := appends_reads_ucd_switch tvb t.val len.val (q + 2)
          (tlv_header st q t.val len.val)
        exact ⟨ucd_state.read_between_after ⟨[q, q + 1], hhead, by simp⟩ hr2,
          ucd_state.read_between_after ⟨[q, q + 1], hhead, by simp⟩ hr2⟩
      · by_cases ht : t.val = 4 ∨ t.val = 5
        · have ht2 : t.val = UCD_BURST_DESCR ∨ t.val = UCD_BURST_DESCR5 := ht
          have he : p + 2 + 1 + len.val - 1 = p + 2 + len.val := by omega
          by_cases hb : p + 2 + 1 ≤ tvb.length
          · have hitem := proto_tree_add_item_ok tlv_tree hf_docsis_ucd_iuc ENC_BIG_ENDIAN hb
              (tlv_header st p t.val len.val)
            have hm : q ∈ ((while_loop_starts (p + 2 + len.val)
                (burst_tlv t.val tvb len.val) len.val (p + 2 + 1)
                { tlv_header st p t.val len.val with
                  tree := (tlv_header st p t.val len.val).tree ++
                    [tree_op.item tlv_tree hf_docsis_ucd_iuc (p + 2) 1
                      (fvalue.uinteger (get_uint_value ((tvb.drop (p + 2)).take 1)))]
                  reads := (tlv_header st p t.val len.val).reads ++ [p + 2] }).map
                Prod.fst).filter (fun q => q + 2 ≤ tvb.length) := by
              unfold sub_tlv_headers_read at hq1
              rw [if_pos ht2, hitem, he] at hq1
              simpa [hf, decode_value, List.range'] using hq1
            rw [ucd_switch_burst _ _ ht hb]
            obtain ⟨i1, i2⟩ := burst_loop_headers_read tvb t.val len.val (p + 2 + len.val) ht
              len.val (p + 2 + 1) _ q hm
            have hpre : ({ tlv_header st p t.val len.val with
                tree := (tlv_header st p t.val len.val).tree ++
                  [tree_op.item tlv_tree hf_docsis_ucd_iuc (p + 2) 1
                    (fvalue.uinteger (get_uint_value ((tvb.drop (p + 2)).take 1)))]
                reads := (tlv_header st p t.val len.val).reads ++ [p + 2] } :
                  ucd_state).reads = st.reads ++ [p, p + 1, p + 2] := by
              simp [hhead]
            exact ⟨ucd_state.read_between_before hpre i1,
              ucd_state.read_between_before hpre i2⟩
          · have hitem := proto_tree_add_item_err tlv_tree hf_docsis_ucd_iuc ENC_BIG_ENDIAN
              (Nat.lt_of_not_le hb) (tlv_header st p t.val len.val)
            unfold sub_tlv_headers_read at hq1
            rw [if_pos ht2, hitem] at hq1
            simp at hq1
        · have ht2 : ¬ (t.val = UCD_BURST_DESCR ∨ t.val = UCD_BURST_DESCR5) := ht
          unfold sub_tlv_headers_read at hq1
          rw [if_neg ht2] at hq1
          simp at hq1

/-- Every TLV header listed for the top-level loop started at `p` has both its
bytes in the log of the bytes the loop has read. -/
theorem dissect_tlvs_headers_in_reads (tvb : tvbuff_t) (fuel : Nat) :
    ∀ (p : Nat) (st : ucd_state) (q : Nat),
      q ∈ ((while_loop_starts tvb.length (dissect_tlv tvb) fuel p st).map
        (fun ps => tlv_headers_read_at tvb ps.1 ps.2)).flatten →
      st.read_between (dissect_tlvs tvb tvb.length fuel p st).state q ∧
      st.read_between (dissect_tlvs tvb tvb.length fuel p st).state (q + 1) := by
  unfold dissect_tlvs
  induction fuel with
  | zero =>
    intro p st q hq
    simp [while_loop_starts] at hq
  | succ f ih =>
    intro p st q hq
    by_cases hlt : p < tvb.length
    · obtain ⟨r0, hr0⟩ := appends_reads_dissect_tlv tvb p st
      rcases dissect_tlv_total tvb p st with ⟨q1, st1, hok, _⟩ | ⟨st1, herr⟩
      · rw [while_loop_starts_ok f hlt hok] at hq
        rw [while_loop_step_ok f hlt hok]
        rw [hok] at hr0
        obtain ⟨r2, hr2⟩ := appends_reads_while (appends_reads_dissect_tlv tvb) f q1 st1
        simp only [List.map_cons, List.flatten_cons, List.mem_append] at hq
        rcases hq with hq1 | hq1
        · have hh := tlv_headers_read_at_read tvb p st q hq1
          rw [hok] at hh
          exact ⟨ucd_state.read_between_after hh.1 hr2, ucd_state.read_between_after hh.2 hr2⟩
        · obtain ⟨i1, i2⟩ := ih q1 st1 q hq1
          exact ⟨ucd_state.read_between_before hr0 i1, ucd_state.read_between_before hr0 i2⟩
      · rw [while_loop_starts_err f hlt herr] at hq
        rw [while_loop_step_err f hlt herr]
        simp only [List.map_cons, List.map_nil, List.flatten_cons, List.flatten_nil,
          List.append_nil] at hq
        have hh := tlv_headers_read_at_read tvb p st q hq
        rw [herr] at hh
        exact hh
    · rw [while_loop_starts_done _ _ hlt] at hq
      simp at hq

/-- Every offset listed by `tlv_headers_read` is that of a header both bytes
of which are in the log of the bytes read by the top-level loop. -/
theorem tlv_headers_read_in_reads (tvb : tvbuff_t) (st : ucd_state) (q : Nat)
    (hq : q ∈ tlv_headers_read tvb st) :
    st.read_between (dissect_tlvs tvb tvb.length tvb.length 4 st).state q ∧
    st.read_between (dissect_tlvs tvb tvb.length tvb.length 4 st).state (q + 1) :=
  dissect_tlvs_headers_in_reads tvb tvb.length 4 st q hq

/-! ## Every byte read is a header byte or a field byte -/

theorem reads_accounted_refl (st : ucd_state) : reads_accounted st st 0 0 := by
  simp [reads_accounted]

theorem reads_accounted_trans {st st1 st2 : ucd_state} {n1 n2 k1 k2 : Nat}
    (h1 : reads_accounted st st1 n1 k1) (h2 : reads_accounted st1 st2 n2 k2) :
    reads_accounted st st2 (n1 + n2) (k1 + k2) := by
  unfold reads_accounted at *
  omega

theorem sub_tlv_field_value_bytes (s : Nat) :
    ¬ (sub_tlv_field s = hf_docsis_ucd_type ∨ sub_tlv_field s = hf_docsis_ucd_length) := by
  unfold sub_tlv_field
  split <;> decide

/-- One iteration of a sub-TLV loop: its reads are the two header bytes when
both are in the buffer, the bytes of the field it adds, and one more byte when
only the sub-type byte is in the buffer (the iteration then throws). -/
theorem burst_tlv_accounted (tvb : tvbuff_t) (type length p : Nat) (ht : type = 4 ∨ type = 5)
    (st : ucd_state) :
    ∃ k, k ≤ 1 ∧
      (∀ q st', burst_tlv type tvb length p st = outcome.ok q st' → k = 0) ∧
      reads_accounted st (burst_tlv type tvb length p st).state
        (if p + 2 ≤ tvb.length then 1 else 0) k := by
  cases h0 : tvb[p]? with
  | none =>
    have hl : tvb.length ≤ p := by simpa using h0
    rw [burst_tlv_no_type type length ht h0 st]
    refine ⟨0, by omega, fun _ _ _ => rfl, ?_⟩
    rw [if_neg (by omega)]
    exact reads_accounted_refl st
  | some s =>
    cases h1 : tvb[p + 1]? with
    | none =>
      have hl : tvb.length ≤ p + 1 := by simpa using h1
      rw [burst_tlv_no_length type length ht h0 h1 st]
      refine ⟨1, by omega, fun _ _ h => (by cases h), ?_⟩
      rw [if_neg (by omega)]
      simp [reads_accounted, outcome.state, field_bytes]
      omega
    | some len =>
      have hl := length_of_getElem?_some h1
      have hbody := burst_tlv_apply type length ht h0 h1 st
      have hv := sub_tlv_field_value_bytes s.val
      refine ⟨0, by omega, fun _ _ _ => rfl, ?_⟩
      rw [if_pos (by omega)]
      split_ifs at hbody with hl he hb <;> rw [hbody]
      · simp [reads_accounted, outcome.state, field_bytes, tree_op.value_bytes, hv]
        omega
      · simp [reads_accounted, outcome.state, field_bytes]
        omega
      · simp [reads_accounted, outcome.state, field_bytes]
        omega
      · simp [reads_accounted, outcome.state, field_bytes]
        omega

/-- A sub-TLV loop: its reads are two bytes for each sub-TLV header listed, the
bytes of the fields it adds, and one more byte when it stops at a sub-TLV of
which only the sub-type byte is in the buffer. -/
theorem burst_loop_accounted (tvb : tvbuff_t) (type length E : Nat) (ht : type = 4 ∨ type = 5)
    (fuel : Nat) :
    ∀ (p : Nat) (st : ucd_state),
      ∃ k, k ≤ 1 ∧
        (∀ q st', while_loop E (burst_tlv type tvb length) fuel p st = outcome.ok q st' →
          k = 0) ∧
        reads_accounted st (while_loop E (burst_tlv type tvb length) fuel p st).state
          (((while_loop_starts E (burst_tlv type tvb length) fuel p st).map Prod.fst).filter
            (fun q => q + 2 ≤ tvb.length)).length k := by
  induction fuel with
  | zero =>
    intro p st
    have h : (while_loop E (burst_tlv type tvb length) 0 p st).state = st := by
      unfold while_loop
      split_ifs <;> rfl
    rw [h]
    have hr := reads_accounted_refl st
    exact ⟨0, by omega, fun _ _ _ => rfl, (by simpa [while_loop_starts] using hr)⟩
  | succ f ih =>
    intro p st
    by_cases hlt : p < E
    · obtain ⟨k1, hk1, hz1, ha1⟩ := burst_tlv_accounted tvb type length p ht st
      have hn : ∀ rest : List Nat,
          ((p :: rest).filter (fun q => q + 2 ≤ tvb.length)).length =
            (if p + 2 ≤ tvb.length then 1 else 0) +
              (rest.filter (fun q => q + 2 ≤ tvb.length)).length := by
        intro rest
        by_cases hc : p + 2 ≤ tvb.length
        · simp [List.filter_cons, hc]
          omega
        · simp [List.filter_cons, hc]
      rcases burst_tlv_advance tvb type length p ht st with ⟨q1, st1, hok, _, _⟩ | ⟨st1, herr⟩
      · rw [while_loop_starts_ok f hlt hok, while_loop_step_ok f hlt hok]
        rw [hok] at ha1
        have hk0 := hz1 q1 st1 hok
        obtain ⟨k2, hk2, hz2, ha2⟩ := ih q1 st1
        refine ⟨k2, hk2, hz2, ?_⟩
        rw [List.map_cons, hn]
        have ht := reads_accounted_trans ha1 ha2
        rw [hk0, Nat.zero_add] at ht
        exact ht
      · rw [while_loop_starts_err f hlt herr, while_loop_step_err f hlt herr]
        rw [herr] at ha1
        refine ⟨k1, hk1, fun _ _ h => (by cases h), ?_⟩
        rw [List.map_cons, List.map_nil, hn]
        simpa using ha1
    · rw [while_loop_starts_done _ _ hlt, while_loop_done _ _ hlt]
      have hr := reads_accounted_refl st
      exact ⟨0, by omega, fun _ _ _ => rfl, (by simpa using hr)⟩

theorem sub_tlv_headers_read_burst {tvb : tvbuff_t} {pos : Nat} (type length : Nat)
    (ht : type = 4 ∨ type = 5) (hb : pos + 1 ≤ tvb.length) (st : ucd_state) :
    sub_tlv_headers_read tvb type length pos st =
      ((while_loop_starts (pos + length) (burst_tlv type tvb length) length (pos + 1)
        { st with
          tree := st.tree ++
            [tree_op.item tlv_tree hf_docsis_ucd_iuc pos 1
              (fvalue.uinteger (get_uint_value ((tvb.drop pos).take 1)))]
          reads := st.reads ++ [pos] }).map Prod.fst).filter
        (fun q => q + 2 ≤ tvb.length) := by
  have ht2 : type = UCD_BURST_DESCR ∨ type = UCD_BURST_DESCR5 := ht
  have he : pos + 1 + length - 1 = pos + length := by omega
  have hitem := proto_tree_add_item_ok tlv_tree hf_docsis_ucd_iuc ENC_BIG_ENDIAN hb st
  unfold sub_tlv_headers_read
  rw [if_pos ht2, hitem, he]
  simp [hf, decode_value, List.range']

theorem sub_tlv_headers_read_cut {tvb : tvbuff_t} {pos : Nat} (type length : Nat)
    (hb : tvb.length < pos + 1) (st : ucd_state) :
    sub_tlv_headers_read tvb type length pos st = [] := by
  have hitem := proto_tree_add_item_err tlv_tree hf_docsis_ucd_iuc ENC_BIG_ENDIAN hb st
  unfold sub_tlv_headers_read
  split_ifs
  · rw [hitem]
  · rfl

theorem sub_tlv_headers_read_other (tvb : tvbuff_t) {type : Nat} (length pos : Nat)
    (ht : ¬ (type = 4 ∨ type = 5)) (st : ucd_state) :
    sub_tlv_headers_read tvb type length pos st = [] := by
  have ht2 : ¬ (type = UCD_BURST_DESCR ∨ type = UCD_BURST_DESCR5) := ht
  unfold sub_tlv_headers_read
  rw [if_neg ht2]

/-- The value of a top-level TLV: its reads are two bytes for each sub-TLV
header listed, the bytes of the fields it adds, and one more byte when a
sub-TLV loop stops at a sub-TLV of which only the sub-type byte is in the
buffer. -/
theorem ucd_switch_accounted (tvb : tvbuff_t) (type length pos : Nat) (st : ucd_state) :
    ∃ k, k ≤ 1 ∧
      (∀ q st', ucd_switch tvb type length pos st = outcome.ok q st' → k = 0) ∧
      reads_accounted st (ucd_switch tvb type length pos st).state
        (sub_tlv_headers_read tvb type length pos st).length k := by
  have hr := reads_accounted_refl st
  by_cases hk : 1 ≤ type ∧ type ≤ 5
  · have hcases : type = 1 ∨ type = 2 ∨ type = 3 ∨ (type = 4 ∨ type = 5) := by omega
    rcases hcases with ht | ht | ht | ht
    · rw [sub_tlv_headers_read_other tvb length pos (by omega), ht]
      refine ⟨0, by omega, fun _ _ _ => rfl, ?_⟩
      by_cases hl : length = 1
      · rw [hl]
        cases h2 : tvb[pos]? with
        | some b =>
          rw [ucd_switch_symbol_rate h2]
          simp [reads_accounted, outcome.state, field_bytes, tree_op.value_bytes]
          omega
        | none =>
          have hlen : tvb.length ≤ pos := by simpa using h2
          rw [ucd_switch_symbol_rate_cut hlen]
          simpa using hr
      · rw [ucd_switch_symbol_rate_bad tvb pos hl]
        simp [reads_accounted, outcome.state, field_bytes]
    · rw [sub_tlv_headers_read_other tvb length pos (by omega), ht]
      refine ⟨0, by omega, fun _ _ _ => rfl, ?_⟩
      by_cases hl : length = 4
      · rw [hl]
        by_cases hb : pos + 4 ≤ tvb.length
        · rw [ucd_switch_frequency hb]
          simp [reads_accounted, outcome.state, field_bytes, tree_op.value_bytes]
          omega
        · rw [ucd_switch_frequency_cut (by omega)]
          simpa using hr
      · rw [ucd_switch_frequency_bad tvb pos hl]
        simp [reads_accounted, outcome.state, field_bytes]
    · rw [sub_tlv_headers_read_other tvb length pos (by omega), ht]
      refine ⟨0, by omega, fun _ _ _ => rfl, ?_⟩
      by_cases hb : pos + length ≤ tvb.length
      · rw [ucd_switch_preamble hb]
        simp [reads_accounted, outcome.state, field_bytes, tree_op.value_bytes]
        omega
      · rw [ucd_switch_preamble_cut (by omega)]
        simpa using hr
    · by_cases hb : pos + 1 ≤ tvb.length
      · rw [sub_tlv_headers_read_burst type length ht hb, ucd_switch_burst type length ht hb]
        obtain ⟨k, hk1, hz, ha⟩ := burst_loop_accounted tvb type length (pos + length) ht length
          (pos + 1)
          { st with
            tree := st.tree ++
              [tree_op.item tlv_tree hf_docsis_ucd_iuc pos 1
                (fvalue.uinteger (get_uint_value ((tvb.drop pos).take 1)))]
            reads := st.reads ++ [pos] }
        refine ⟨k, hk1, hz, ?_⟩
        have hi : reads_accounted st
            { st with
              tree := st.tree ++
                [tree_op.item tlv_tree hf_docsis_ucd_iuc pos 1
                  (fvalue.uinteger (get_uint_value ((tvb.drop pos).take 1)))]
              reads := st.reads ++ [pos] } 0 0 := by
          simp [reads_accounted, field_bytes, tree_op.value_bytes]
          omega
        have ht2 := reads_accounted_trans hi ha
        simpa using ht2
      · rw [sub_tlv_headers_read_cut type length (by omega), ucd_switch_burst_cut type length ht
          (by omega)]
        exact ⟨0, by omega, fun _ _ _ => rfl, (by simpa using hr)⟩
  · rw [sub_tlv_headers_read_other tvb length pos (by omega), ucd_switch_unknown tvb length pos hk]
    exact ⟨0, by omega, fun _ _ _ => rfl, (by simpa using hr)⟩

/-- One iteration of the top-level loop: its reads are two bytes for each TLV
header listed, the bytes of the fields it adds, and one more byte when it
stops at a header of which only the type byte is in the buffer. -/
theorem dissect_tlv_accounted (tvb : tvbuff_t) (p : Nat) (st : ucd_state) :
    ∃ k, k ≤ 1 ∧
      (∀ q st', dissect_tlv tvb p st = outcome.ok q st' → k = 0) ∧
      reads_accounted st (dissect_tlv tvb p st).state (tlv_headers_read_at tvb p st).length k := by
  cases h0 : tvb[p]? with
  | none =>
    have hdef : tlv_headers_read_at tvb p st = [] := by
      unfold tlv_headers_read_at
      simp [h0]
    rw [hdef, dissect_tlv_no_type h0]
    have hr := reads_accounted_refl st
    exact ⟨0, by omega, fun _ _ _ => rfl, (by simpa using hr)⟩
  | some t =>
    cases h1 : tvb[p + 1]? with
    | none =>
      have hdef : tlv_headers_read_at tvb p st = [] := by
        unfold tlv_headers_read_at
        simp [h0, h1]
      rw [hdef, dissect_tlv_no_length h0 h1]
      refine ⟨1, by omega, fun _ _ h => (by cases h), ?_⟩
      simp [reads_accounted, outcome.state, field_bytes, tree_op.value_bytes]
      omega
    | some len =>
      have hdef : tlv_headers_read_at tvb p st =
          p :: sub_tlv_headers_read tvb t.val len.val (p + 2)
            (tlv_header st p t.val len.val) := by
        unfold tlv_headers_read_at
        simp [h0, h1]
      rw [hdef, dissect_tlv_header h0 h1]
      obtain ⟨k, hk1, hz, ha⟩ :=
        ucd_switch_accounted tvb t.val len.val (p + 2) (tlv_header st p t.val len.val)
      refine ⟨k, hk1, hz, ?_⟩
      have hh : reads_accounted st (tlv_header st p t.val len.val) 1 0 := by
        simp [reads_accounted, tlv_header, field_bytes, tree_op.value_bytes]
        omega
      have ht2 := reads_accounted_trans hh ha
      rw [List.length_cons]
      have e1 : (sub_tlv_headers_read tvb t.val len.val (p + 2)
          (tlv_header st p t.val len.val)).length + 1 =
          1 + (sub_tlv_headers_read tvb t.val len.val (p + 2)
            (tlv_header st p t.val len.val)).length := Nat.add_comm _ _
      rw [e1]
      simpa using ht2

/-- The top-level loop: its reads are two bytes for each TLV header listed,
the bytes of the fields it adds, and one more byte when it stops at a header,
top-level or sub-TLV, of which only the first byte is in the buffer. -/
theorem dissect_tlvs_accounted (tvb : tvbuff_t) (fuel : Nat) :
    ∀ (p : Nat) (st : ucd_state),
      ∃ k, k ≤ 1 ∧
        (∀ q st', dissect_tlvs tvb tvb.length fuel p st = outcome.ok q st' → k = 0) ∧
        reads_accounted st (dissect_tlvs tvb tvb.length fuel p st).state
          (((while_loop_starts tvb.length (dissect_tlv tvb) fuel p st).map
            (fun ps => tlv_headers_read_at tvb ps.1 ps.2)).flatten).length k := by
  unfold dissect_tlvs
  induction fuel with
  | zero =>
    intro p st
    have h : (while_loop tvb.length (dissect_tlv tvb) 0 p st).state = st := by
      unfold while_loop
      split_ifs <;> rfl
    rw [h]
    have hr := reads_accounted_refl st
    exact ⟨0, by omega, fun _ _ _ => rfl, (by simpa [while_loop_starts] using hr)⟩
  | succ f ih =>
    intro p st
    by_cases hlt : p < tvb.length
    · obtain ⟨k1, hk1, hz1, ha1⟩ := dissect_tlv_accounted tvb p st
      rcases dissect_tlv_total tvb p st with ⟨q1, st1, hok, _⟩ | ⟨st1, herr⟩
      · rw [while_loop_starts_ok f hlt hok, while_loop_step_ok f hlt hok]
        rw [hok] at ha1
        have hk0 := hz1 q1 st1 hok
        obtain ⟨k2, hk2, hz2, ha2⟩ := ih q1 st1
        refine ⟨k2, hk2, hz2, ?_⟩
        have ht := reads_accounted_trans ha1 ha2
        rw [hk0, Nat.zero_add] at ht
        simpa [List.length_append] using ht
      · rw [while_loop_starts_err f hlt herr, while_loop_step_err f hlt herr]
        rw [herr] at ha1
        refine ⟨k1, hk1, fun _ _ h => (by cases h), ?_⟩
        simpa using ha1
    · rw [while_loop_starts_done _ _ hlt, while_loop_done _ _ hlt]
      have hr := reads_accounted_refl st
      exact ⟨0, by omega, fun _ _ _ => rfl, (by simpa using hr)⟩

/-- The bytes read by the top-level loop of `dissect_ucd` are two for each TLV
header listed by `tlv_headers_read`, the bytes decoded into fields, and at
most one more, which there is only when the loop throws. -/
theorem tlv_headers_read_accounted (tvb : tvbuff_t) (st : ucd_state) :
    ∃ k, k ≤ 1 ∧
      (∀ q st', dissect_tlvs tvb tvb.length tvb.length 4 st = outcome.ok q st' → k = 0) ∧
      reads_accounted st (dissect_tlvs tvb tvb.length tvb.length 4 st).state
        (tlv_headers_read tvb st).length k :=
  dissect_tlvs_accounted tvb tvb.length 4 st

/-! ## The two burst descriptor walkers side by side -/

/-- One iteration of the two sub-TLV loops at the same cursor, from any two
states: both move the cursor to the same place, or the extended one throws
the bounds exception. -/
theorem burst_tlv_both (tvb : tvbuff_t) (length p : Nat) (st4 st5 : ucd_state) :
    (∃ q s4 s5, burst_tlv 4 tvb length p st4 = outcome.ok q s4 ∧
      burst_tlv 5 tvb length p st5 = outcome.ok q s5) ∨
    ((∃ s5, burst_tlv 5 tvb length p st5 = outcome.bounds_error s5) ∧
      ((∃ q s4, burst_tlv 4 tvb length p st4 = outcome.ok q s4) ∨
        ∃ s4, burst_tlv 4 tvb length p st4 = outcome.bounds_error s4)) := by
  cases h0 : tvb[p]? with
  | none =>
    exact Or.inr ⟨⟨_, burst_tlv_no_type 5 length (Or.inr rfl) h0 st5⟩,
      Or.inr ⟨_, burst_tlv_no_type 4 length (Or.inl rfl) h0 st4⟩⟩
  | some s =>
    cases h1 : tvb[p + 1]? with
    | none =>
      exact Or.inr ⟨⟨_, burst_tlv_no_length 5 length (Or.inr rfl) h0 h1 st5⟩,
        Or.inr ⟨_, burst_tlv_no_length 4 length (Or.inl rfl) h0 h1 st4⟩⟩
    | some len =>
      obtain ⟨s4, _, hres4, _⟩ := burst_tlv_step 4 length (Or.inl rfl) h0 h1 st4
      obtain ⟨s5, _, hres5, _⟩ := burst_tlv_step 5 length (Or.inr rfl) h0 h1 st5
      rcases hres5 with hok5 | ⟨herr5, _⟩
      · rcases hres4 with hok4 | ⟨herr4, hlt⟩
        · exact Or.inl ⟨_, s4, s5, hok4, hok5⟩
        · exfalso
          have h4 := burst_tlv_apply 4 length (Or.inl rfl) h0 h1 st4
          have h5 := burst_tlv_apply 5 length (Or.inr rfl) h0 h1 st5
          rw [herr4] at h4
          rw [hok5] at h5
          have hb : ¬ p + 2 + len.val ≤ tvb.length := by omega
          by_cases hl4 : legal_sub_type 4 s.val
          · have hl5 : legal_sub_type 5 s.val := by
              simp [legal_sub_type] at hl4 ⊢
              omega
            rw [if_pos hl5] at h5
            by_cases he : len.val = sub_tlv_expected_length s.val
            · rw [if_pos he, if_neg hb] at h5
              cases h5
            · rw [if_pos hl4, if_neg he] at h4
              cases h4
          · rw [if_neg hl4] at h4
            cases h4
      · refine Or.inr ⟨⟨s5, herr5⟩, ?_⟩
        rcases hres4 with hok4 | ⟨herr4, _⟩
        · exact Or.inl ⟨_, s4, hok4⟩
        · exact Or.inr ⟨s4, herr4⟩

/-- The two sub-TLV loops with the same end, fuel and cursor, from any two
states: both end normally at the same cursor, or the extended one throws the
bounds exception, or both run out of fuel. -/
theorem burst_loops_both (tvb : tvbuff_t) (length E fuel : Nat) :
    ∀ (p : Nat) (st4 st5 : ucd_state),
      (∃ q s4 s5, while_loop E (burst_tlv 4 tvb length) fuel p st4 = outcome.ok q s4 ∧
        while_loop E (burst_tlv 5 tvb length) fuel p st5 = outcome.ok q s5) ∨
      (∃ s5, while_loop E (burst_tlv 5 tvb length) fuel p st5 = outcome.bounds_error s5) ∨
      (∃ s4 s5, while_loop E (burst_tlv 4 tvb length) fuel p st4 = outcome.out_of_fuel s4 ∧
        while_loop E (burst_tlv 5 tvb length) fuel p st5 = outcome.out_of_fuel s5) := by
  induction fuel with
  | zero =>
    intro p st4 st5
    by_cases hlt : p < E
    · exact Or.inr (Or.inr ⟨st4, st5, by simp [while_loop, hlt], by simp [while_loop, hlt]⟩)
    · exact Or.inl ⟨p, st4, st5, while_loop_done _ 0 hlt st4, while_loop_done _ 0 hlt st5⟩
  | succ f ih =>
    intro p st4 st5
    by_cases hlt : p < E
    · rcases burst_tlv_both tvb length p st4 st5 with ⟨q, s4, s5, h4, h5⟩ | ⟨⟨s5, h5⟩, _⟩
      · rw [while_loop_step_ok f hlt h4, while_loop_step_ok f hlt h5]
        exact ih q s4 s5
      · exact Or.inr (Or.inl ⟨s5, while_loop_step_err f hlt h5⟩)
    · exact Or.inl ⟨p, st4, st5, while_loop_done _ _ hlt st4, while_loop_done _ _ hlt st5⟩

/-- The values of a legacy and of an extended burst descriptor with the same
declared length at the same place, dissected from any two states: both are
dissected normally and leave the same cursor, or the extended one throws the
bounds exception. -/
theorem ucd_switch_both (tvb : tvbuff_t) (length pos : Nat) (st4 st5 : ucd_state) :
    (∃ q s4 s5, ucd_switch tvb 4 length pos st4 = outcome.ok q s4 ∧
      ucd_switch tvb 5 length pos st5 = outcome.ok q s5) ∨
    ((∃ s5, ucd_switch tvb 5 length pos st5 = outcome.bounds_error s5) ∧
      ((∃ q s4, ucd_switch tvb 4 length pos st4 = outcome.ok q s4) ∨
        ∃ s4, ucd_switch tvb 4 length pos st4 = outcome.bounds_error s4)) := by
  have t4 : (∃ q s4, ucd_switch tvb 4 length pos st4 = outcome.ok q s4) ∨
      ∃ s4, ucd_switch tvb 4 length pos st4 = outcome.bounds_error s4 := by
    rcases ucd_switch_total tvb 4 length pos st4 with ⟨q, s, h, _⟩ | ⟨s, h⟩
    · exact Or.inl ⟨q, s, h⟩
    · exact Or.inr ⟨s, h⟩
  by_cases hb : pos + 1 ≤ tvb.length
  · rw [ucd_switch_burst 4 length (Or.inl rfl) hb, ucd_switch_burst 5 length (Or.inr rfl) hb]
      at *
    rcases burst_loops_both tvb length (pos + length) length (pos + 1) _ _ with
      h | h | ⟨s4, s5, _, h5⟩
    · exact Or.inl h
    · exact Or.inr ⟨h, t4⟩
    · exfalso
      rcases burst_loop_total tvb 5 length pos (Or.inr rfl) _ with ⟨_, _, h, _⟩ | ⟨_, h⟩ <;>
        rw [h] at h5 <;> cases h5
  · exact Or.inr ⟨⟨st5, ucd_switch_burst_cut 5 length (Or.inr rfl) (by omega) st5⟩, t4⟩

/-- At a sub-TLV header whose sub-type is none of 12, 13, 14 the loop bodies
of the two burst descriptors do the same. -/
theorem burst_tlv_same {tvb : tvbuff_t} {p : Nat} {s len : guint8} (length : Nat)
    (h0 : tvb[p]? = some s) (h1 : tvb[p + 1]? = some len)
    (h12 : s.val ≠ 12) (h13 : s.val ≠ 13) (h14 : s.val ≠ 14) (st : ucd_state) :
    burst_tlv 4 tvb length p st = burst_tlv 5 tvb length p st := by
  rw [burst_tlv_apply 4 length (Or.inl rfl) h0 h1 st,
    burst_tlv_apply 5 length (Or.inr rfl) h0 h1 st]
  by_cases hl4 : legal_sub_type 4 s.val
  · have hl5 : legal_sub_type 5 s.val := by
      simp [legal_sub_type] at hl4 ⊢
      omega
    rw [if_pos hl4, if_pos hl5]
  · have hl5 : ¬ legal_sub_type 5 s.val := by
      simp [legal_sub_type] at hl4 ⊢
      omega
    rw [if_neg hl4, if_neg hl5]

/-- When the walk meets no sub-TLV header of sub-type 12, 13 or 14 the two
sub-TLV loops are the same function of the state. -/
theorem burst_loops_same {tvb : tvbuff_t} {E p : Nat} (length : Nat)
    (hn : no_extended_sub_type tvb E p) :
    ∀ (fuel : Nat) (st : ucd_state),
      while_loop E (burst_tlv 4 tvb length) fuel p st =
        while_loop E (burst_tlv 5 tvb length) fuel p st := by
  induction hn with
  | done p hlt =>
    intro fuel st
    rw [while_loop_done _ _ hlt, while_loop_done _ _ hlt]
  | cut p hlt hcut =>
    intro fuel st
    cases fuel with
    | zero => simp [while_loop, hlt]
    | succ f =>
      cases h0 : tvb[p]? with
      | none =>
        rw [while_loop_step_err f hlt (burst_tlv_no_type 4 length (Or.inl rfl) h0 st),
          while_loop_step_err f hlt (burst_tlv_no_type 5 length (Or.inr rfl) h0 st)]
      | some s =>
        have h1 : tvb[p + 1]? = none := by
          rcases hcut with h | h
          · rw [h0] at h
            cases h
          · exact h
        rw [while_loop_step_err f hlt (burst_tlv_no_length 4 length (Or.inl rfl) h0 h1 st),
          while_loop_step_err f hlt (burst_tlv_no_length 5 length (Or.inr rfl) h0 h1 st)]
  | overrun p s len hlt h0 h1 hs1 hs11 he hb =>
    intro fuel st
    cases fuel with
    | zero => simp [while_loop, hlt]
    | succ f =>
      have hsame := burst_tlv_same length h0 h1 (by omega) (by omega) (by omega) st
      have h5 := burst_tlv_apply 5 length (Or.inr rfl) h0 h1 st
      have hl5 : legal_sub_type 5 s.val := by
        simp [legal_sub_type]
        omega
      rw [if_pos hl5, if_pos he, if_neg (by omega)] at h5
      rw [while_loop_step_err f hlt (hsame.trans h5), while_loop_step_err f hlt h5]
  | step p s len hlt h0 h1 h12 h13 h14 _ ih =>
    intro fuel st
    cases fuel with
    | zero => simp [while_loop, hlt]
    | succ f =>
      have hsame := burst_tlv_same length h0 h1 h12 h13 h14 st
      obtain ⟨s5, _, hres5, _⟩ := burst_tlv_step 5 length (Or.inr rfl) h0 h1 st
      rcases hres5 with hok | ⟨herr, _⟩
      · rw [while_loop_step_ok f hlt (hsame.trans hok), while_loop_step_ok f hlt hok]
        exact ih f s5
      · rw [while_loop_step_err f hlt (hsame.trans herr), while_loop_step_err f hlt herr]

/-- When the walk meets no sub-TLV header of sub-type 12, 13 or 14 the values
of a legacy and of an extended burst descriptor are dissected alike. -/
theorem ucd_switch_same {tvb : tvbuff_t} {length pos : Nat}
    (hn : no_extended_sub_type tvb (pos + length) (pos + 1)) (st : ucd_state) :
    ucd_switch tvb 4 length pos st = ucd_switch tvb 5 length pos st := by
  by_cases hb : pos + 1 ≤ tvb.length
  · rw [ucd_switch_burst 4 length (Or.inl rfl) hb, ucd_switch_burst 5 length (Or.inr rfl) hb]
    exact burst_loops_same length hn _ _
  · rw [ucd_switch_burst_cut 4 length (Or.inl rfl) (by omega) st,
      ucd_switch_burst_cut 5 length (Or.inr rfl) (by omega) st]

/-- The two sub-TLV loops with the same end, fuel and cursor, from any two
states, end alike (both normally at the same cursor, both with the bounds
exception, both out of fuel) unless the walk meets an extended-only sub-TLV
with its table length whose value goes past the end of the buffer. -/
theorem burst_loops_alike (tvb : tvbuff_t) (length E fuel : Nat) :
    ∀ (p : Nat) (st4 st5 : ucd_state),
      (∃ q s4 s5, while_loop E (burst_tlv 4 tvb length) fuel p st4 = outcome.ok q s4 ∧
        while_loop E (burst_tlv 5 tvb length) fuel p st5 = outcome.ok q s5) ∨
      (∃ s4 s5, while_loop E (burst_tlv 4 tvb length) fuel p st4 = outcome.bounds_error s4 ∧
        while_loop E (burst_tlv 5 tvb length) fuel p st5 = outcome.bounds_error s5) ∨
      (∃ s4 s5, while_loop E (burst_tlv 4 tvb length) fuel p st4 = outcome.out_of_fuel s4 ∧
        while_loop E (burst_tlv 5 tvb length) fuel p st5 = outcome.out_of_fuel s5) ∨
      extended_overrun tvb E p := by
  induction fuel with
  | zero =>
    intro p st4 st5
    by_cases hlt : p < E
    · exact Or.inr (Or.inr (Or.inl
        ⟨st4, st5, by simp [while_loop, hlt], by simp [while_loop, hlt]⟩))
    · exact Or.inl ⟨p, st4, st5, while_loop_done _ 0 hlt st4, while_loop_done _ 0 hlt st5⟩
  | succ f ih =>
    intro p st4 st5
    by_cases hlt : p < E
    · cases h0 : tvb[p]? with
      | none =>
        exact Or.inr (Or.inl ⟨_, _,
          while_loop_step_err f hlt (burst_tlv_no_type 4 length (Or.inl rfl) h0 st4),
          while_loop_step_err f hlt (burst_tlv_no_type 5 length (Or.inr rfl) h0 st5)⟩)
      | some s =>
        cases h1 : tvb[p + 1]? with
        | none =>
          exact Or.inr (Or.inl ⟨_, _,
            while_loop_step_err f hlt (burst_tlv_no_length 4 length (Or.inl rfl) h0 h1 st4),
            while_loop_step_err f hlt (burst_tlv_no_length 5 length (Or.inr rfl) h0 h1 st5)⟩)
        | some len =>
          rcases burst_tlv_ok_or_cut 5 length (Or.inr rfl) h0 h1 st5 with
            ⟨hl5, he, hb, herr5⟩ | ⟨hn5, s5, hok5⟩
          · by_cases hx : s.val = 12 ∨ s.val = 13 ∨ s.val = 14
            · exact Or.inr (Or.inr (Or.inr (extended_overrun.here p s len hlt h0 h1 hx he hb)))
            · have hl4 : legal_sub_type 4 s.val :=
                legal_sub_type_four_five.mpr ⟨hl5, by omega, by omega, by omega⟩
              rcases burst_tlv_ok_or_cut 4 length (Or.inl rfl) h0 h1 st4 with
                ⟨_, _, _, herr4⟩ | ⟨hn4, _⟩
              · exact Or.inr (Or.inl ⟨_, _, while_loop_step_err f hlt herr4,
                  while_loop_step_err f hlt herr5⟩)
              · exact absurd ⟨hl4, he, hb⟩ hn4
          · rcases burst_tlv_ok_or_cut 4 length (Or.inl rfl) h0 h1 st4 with
              ⟨hl4, he, hb, _⟩ | ⟨_, s4, hok4⟩
            · exact absurd ⟨(legal_sub_type_four_five.mp hl4).1, he, hb⟩ hn5
            · rw [while_loop_step_ok f hlt hok4, while_loop_step_ok f hlt hok5]
              rcases ih (p + 2 + len.val) s4 s5 with h | h | h | h
              · exact Or.inl h
              · exact Or.inr (Or.inl h)
              · exact Or.inr (Or.inr (Or.inl h))
              · exact Or.inr (Or.inr (Or.inr (extended_overrun.later p s len hlt h0 h1 hn5 h)))
    · exact Or.inl ⟨p, st4, st5, while_loop_done _ _ hlt st4, while_loop_done _ _ hlt st5⟩

/-- When the walk meets an extended-only sub-TLV with its table length whose
value goes past the end of the buffer, the extended loop does not end
normally. -/
theorem burst_loop_overrun {tvb : tvbuff_t} {E p : Nat} (length : Nat)
    (ho : extended_overrun tvb E p) :
    ∀ (fuel : Nat) (st : ucd_state),
      (∃ s5, while_loop E (burst_tlv 5 tvb length) fuel p st = outcome.bounds_error s5) ∨
      ∃ s5, while_loop E (burst_tlv 5 tvb length) fuel p st = outcome.out_of_fuel s5 := by
  induction ho with
  | here p s len hlt h0 h1 hx he hb =>
    intro fuel st
    cases fuel with
    | zero => exact Or.inr ⟨st, by simp [while_loop, hlt]⟩
    | succ f =>
      rcases burst_tlv_ok_or_cut 5 length (Or.inr rfl) h0 h1 st with
        ⟨_, _, _, herr⟩ | ⟨hn, _⟩
      · exact Or.inl ⟨_, while_loop_step_err f hlt herr⟩
      · exfalso
        apply hn
        refine ⟨?_, he, hb⟩
        simp [legal_sub_type]
        omega
  | later p s len hlt h0 h1 hn _ ih =>
    intro fuel st
    cases fuel with
    | zero => exact Or.inr ⟨st, by simp [while_loop, hlt]⟩
    | succ f =>
      rcases burst_tlv_ok_or_cut 5 length (Or.inr rfl) h0 h1 st with
        ⟨hl, he, hb, _⟩ | ⟨_, s5, hok⟩
      · exact absurd ⟨hl, he, hb⟩ hn
      · rw [while_loop_step_ok f hlt hok]
        exact ih f s5

/-- A walk that meets no sub-TLV header of sub-type 12, 13 or 14 meets no
extended-only sub-TLV whose value goes past the end of the buffer. -/
theorem no_extended_not_overrun {tvb : tvbuff_t} {E p : Nat}
    (hn : no_extended_sub_type tvb E p) : ¬ extended_overrun tvb E p := by
  induction hn with
  | done p hlt =>
    intro ho
    cases ho with
    | here _ s len h _ _ _ _ _ => exact hlt h
    | later _ s len h _ _ _ _ => exact hlt h
  | cut p hlt hcut =>
    intro ho
    cases ho with
    | here _ s len _ h0 h1 _ _ _ =>
      rcases hcut with h | h
      · rw [h0] at h
        cases h
      · rw [h1] at h
        cases h
    | later _ s len _ h0 h1 _ _ =>
      rcases hcut with h | h
      · rw [h0] at h
        cases h
      · rw [h1] at h
        cases h
  | overrun p s len hlt h0 h1 hs1 hs11 he hb =>
    intro ho
    cases ho with
    | here _ s2 len2 _ h0' _ hx _ _ =>
      rw [h0] at h0'
      cases h0'
      omega
    | later _ s2 len2 _ h0' h1' hcont _ =>
      rw [h0] at h0'
      rw [h1] at h1'
      cases h0'
      cases h1'
      apply hcont
      refine ⟨?_, he, hb⟩
      simp [legal_sub_type]
      omega
  | step p s len hlt h0 h1 h12 h13 h14 _ ih =>
    intro ho
    cases ho with
    | here _ s2 len2 _ h0' _ hx _ _ =>
      rw [h0] at h0'
      cases h0'
      omega
    | later _ s2 len2 _ h0' h1' _ htail =>
      rw [h0] at h0'
      rw [h1] at h1'
      cases h0'
      cases h1'
      exact ih htail

/-- The values of a legacy and of an extended burst descriptor with the same
declared length at the same place, dissected from any two states. Unless the
walk meets an extended-only sub-TLV with its table length whose value goes
past the end of the buffer, both end alike: normally at the same cursor, or
both with the bounds exception. -/
theorem ucd_switch_alike (tvb : tvbuff_t) (length pos : Nat) (st4 st5 : ucd_state)
    (hn : ¬ extended_overrun tvb (pos + length) (pos + 1)) :
    (∃ q s4 s5, ucd_switch tvb 4 length pos st4 = outcome.ok q s4 ∧
      ucd_switch tvb 5 length pos st5 = outcome.ok q s5) ∨
    (∃ s4 s5, ucd_switch tvb 4 length pos st4 = outcome.bounds_error s4 ∧
      ucd_switch tvb 5 length pos st5 = outcome.bounds_error s5) := by
  by_cases hb : pos + 1 ≤ tvb.length
  · rw [ucd_switch_burst 4 length (Or.inl rfl) hb, ucd_switch_burst 5 length (Or.inr rfl) hb]
    rcases burst_loops_alike tvb length (pos + length) length (pos + 1) _ _ with
      h | h | ⟨s4, s5, _, h5⟩ | h
    · exact Or.inl h
    · exact Or.inr h
    · exfalso
      rcases burst_loop_total tvb 5 length pos (Or.inr rfl) _ with ⟨_, _, h, _⟩ | ⟨_, h⟩ <;>
        rw [h] at h5 <;> cases h5
    · exact absurd h hn
  · exact Or.inr ⟨st4, st5, ucd_switch_burst_cut 4 length (Or.inl rfl) (by omega) st4,
      ucd_switch_burst_cut 5 length (Or.inr rfl) (by omega) st5⟩

/-- When the walk meets an extended-only sub-TLV with its table length whose
value goes past the end of the buffer, the extended walker throws the bounds
exception. -/
theorem ucd_switch_overrun (tvb : tvbuff_t) (length pos : Nat) (st5 : ucd_state)
    (ho : extended_overrun tvb (pos + length) (pos + 1)) :
    ∃ s5, ucd_switch tvb 5 length pos st5 = outcome.bounds_error s5 := by
  by_cases hb : pos + 1 ≤ tvb.length
  · rw [ucd_switch_burst 5 length (Or.inr rfl) hb]
    rcases burst_loop_overrun length ho length _ with h | ⟨s5, h5⟩
    · exact h
    · exfalso
      rcases burst_loop_total tvb 5 length pos (Or.inr rfl) _ with ⟨_, _, h, _⟩ | ⟨_, h⟩ <;>
        rw [h] at h5 <;> cases h5
  · exact ⟨st5, ucd_switch_burst_cut 5 length (Or.inr rfl) (by omega) st5⟩

/-- A sub-TLV header met by the walk starts before the end `E`, and the value
of an extended-only sub-TLV with its table length has at most 2 bytes: when
at least 3 bytes follow `E` in the buffer no such value goes past the end. -/
theorem not_overrun_of_length {tvb : tvbuff_t} {E p : Nat} (h : E + 3 ≤ tvb.length) :
    ¬ extended_overrun tvb E p := by
  intro ho
  induction ho with
  | here p s len hlt _ _ _ he hb =>
    have h2 : sub_tlv_expected_length s.val ≤ 2 := by
      unfold sub_tlv_expected_length
      split_ifs <;> omega
    omega
  | later p s len _ _ _ _ _ ih => exact ih

/-! ## A burst descriptor and its sub-TLVs (C11, C12, C13) -/

/-- C11. The legacy burst descriptor record at offset 4 whose value is the
Interval Usage Code byte 3 followed by the sub-TLVs (1, 1, 2) and (2, 1, 1) is
dissected normally: the names of its enumerated fields are "Burst Descriptor"
for the type, "Initial Maintenance" for the Interval Usage Code, "QAM16" for
the modulation and "On" for the differential encoding, no expert info is
added, and the cursor is left at 13 = 4 + 2 + 7. And for every burst
descriptor record (type 4 or 5) at `p` with declared length `len` whose
sub-TLVs tile the `len - 1` bytes after the Interval Usage Code (so that
`len ≥ 1`) and whose `len` value bytes are in the buffer, the record is
dissected normally and the cursor is left at `p + 2 + len`. -/
theorem burst_descriptor_decoded (tvb : tvbuff_t) (p : Nat) (t len : guint8) (st : ucd_state)
    (ht : t.val = 4 ∨ t.val = 5)
    (h0 : tvb[p]? = some t) (h1 : tvb[p + 1]? = some len)
    (hf : sub_tlvs_fill any_sub_tlv tvb (p + 3) (p + 2 + len.val))
    (hb : p + 2 + len.val ≤ tvb.length) :
    (dissect_tlv [0, 0, 0, 0, 4, 7, 3, 1, 1, 2, 2, 1, 1] 4 ucd_state.init =
      outcome.ok 13
        { col_info := ""
          tree :=
            [tree_op.subtree 4 (-1) "Burst Descriptor",
             tree_op.item tlv_tree hf_docsis_ucd_type 4 1 (fvalue.uinteger 4),
             tree_op.item tlv_tree hf_docsis_ucd_length 5 1 (fvalue.uinteger 7),
             tree_op.set_len 9,
             tree_op.item tlv_tree hf_docsis_ucd_iuc 6 1 (fvalue.uinteger 3),
             tree_op.item tlv_tree hf_docsis_burst_mod_type 9 1 (fvalue.uinteger 2),
             tree_op.item tlv_tree hf_docsis_burst_diff_encoding 12 1 (fvalue.uinteger 1)]
          expert := []
          reads := [4, 5, 6, 7, 8, 9, 10, 11, 12] } ∧
     [tree_op.subtree 4 (-1) "Burst Descriptor",
      tree_op.item tlv_tree hf_docsis_ucd_type 4 1 (fvalue.uinteger 4),
      tree_op.item tlv_tree hf_docsis_ucd_length 5 1 (fvalue.uinteger 7),
      tree_op.set_len 9,
      tree_op.item tlv_tree hf_docsis_ucd_iuc 6 1 (fvalue.uinteger 3),
      tree_op.item tlv_tree hf_docsis_burst_mod_type 9 1 (fvalue.uinteger 2),
      tree_op.item tlv_tree hf_docsis_burst_diff_encoding 12 1 (fvalue.uinteger 1)].map
        tree_op.value_name =
       [none, some "Burst Descriptor", none, none,
        some "Initial Maintenance", some "QAM16", some "On"]) ∧
    1 ≤ len.val ∧
    ∃ st', dissect_tlv tvb p st = outcome.ok (p + 2 + len.val) st' := by
  refine ⟨⟨rfl, rfl⟩, ?_, ?_⟩
  · have := sub_tlvs_fill_le hf
    omega
  · obtain ⟨st', _, hres, _⟩ := dissect_tlv_burst_fill ht h0 h1 hf st
    rcases hres with hok | ⟨_, hlt⟩
    · exact ⟨st', hok⟩
    · omega

/-- C11, witness: an extended burst descriptor at offset 4 with declared length
6, filled by the Interval Usage Code, a Modulation sub-TLV and a sub-TLV of
sub-type 13 whose sub-length 0 is flagged; the cursor is left at 12. -/
theorem burst_descriptor_decoded_witness :
    ([0, 0, 0, 0, 5, 6, 3, 1, 1, 2, 13, 0] : tvbuff_t)[4]? = some 5 ∧
    ([0, 0, 0, 0, 5, 6, 3, 1, 1, 2, 13, 0] : tvbuff_t)[4 + 1]? = some 6 ∧
    ∃ st', dissect_tlv [0, 0, 0, 0, 5, 6, 3, 1, 1, 2, 13, 0] 4 ucd_state.init =
      outcome.ok (4 + 2 + 6) st' :=
  ⟨rfl, rfl,
    (burst_descriptor_decoded [0, 0, 0, 0, 5, 6, 3, 1, 1, 2, 13, 0] 4 5 6
      ucd_state.init (Or.inr rfl) rfl rfl
      (sub_tlvs_fill.cons 7 12 1 1 rfl rfl trivial
        (sub_tlvs_fill.cons 10 12 13 0 rfl rfl trivial (sub_tlvs_fill.done 12)))
      (by decide)).2.2⟩

/-- C12. A sub-TLV of sub-type 13 (RS Interleaver Block Size) with sub-length 2
and value bytes `b0`, `b1` at `pos`, inside an extended burst descriptor of any
declared length: the loop body adds the one field of the sub-type with the
unsigned value `256 * b0 + b1`, and no expert info, and the cursor moves past
the sub-TLV. -/
theorem rs_int_block_sixteen_bits (tvb : tvbuff_t) (pos length : Nat) (b0 b1 : guint8)
    (st : ucd_state)
    (h0 : tvb[pos]? = some 13) (h1 : tvb[pos + 1]? = some 2)
    (h2 : tvb[pos + 2]? = some b0) (h3 : tvb[pos + 3]? = some b1) :
    burst_descr5_tlv tvb length pos st =
      outcome.ok (pos + 4)
        { st with
          tree := st.tree ++
            [tree_op.item tlv_tree hf_docsis_rs_int_block (pos + 2) 2
              (fvalue.uinteger (256 * b0.val + b1.val))]
          reads := st.reads ++ [pos, pos + 1, pos + 2, pos + 3] } ∧
    256 * b0.val + b1.val < 65536 ∧
    (256 * b0.val + b1.val) / 256 = b0.val ∧ (256 * b0.val + b1.val) % 256 = b1.val := by
  have h5 := burst_tlv_apply 5 length (Or.inr rfl) h0 h1 st
  have hlen := length_of_getElem?_some h3
  have hl : legal_sub_type 5 (13 : guint8).val := by decide
  have he : (2 : guint8).val = sub_tlv_expected_length (13 : guint8).val := by decide
  have hb : pos + 2 + (2 : guint8).val ≤ tvb.length := by
    show pos + 2 + 2 ≤ tvb.length
    omega
  rw [burst_tlv_five, if_pos hl, if_pos he, if_pos hb] at h5
  have hv : get_uint_value ((tvb.drop (pos + 2)).take 2) = 256 * b0.val + b1.val := by
    rw [take_drop_two h2 h3]
    simp [get_uint_value]
    omega
  have hb0 := b0.isLt
  have hb1 := b1.isLt
  refine ⟨?_, by omega, by omega, by omega⟩
  rw [h5]
  have hval : (13 : guint8).val = 13 := rfl
  have hval2 : (2 : guint8).val = 2 := rfl
  simp only [hval, hval2, sub_tlv_field, hf, decode_value, hv, List.range', List.append_assoc,
    List.cons_append, List.nil_append]

/-- C12, witness: the value bytes 1, 2 decode to 258. -/
theorem rs_int_block_sixteen_bits_witness :
    ([0, 0, 0, 0, 5, 5, 3, 13, 2, 1, 2] : tvbuff_t)[7]? = some 13 ∧
    ([0, 0, 0, 0, 5, 5, 3, 13, 2, 1, 2] : tvbuff_t)[7 + 1]? = some 2 ∧
    ([0, 0, 0, 0, 5, 5, 3, 13, 2, 1, 2] : tvbuff_t)[7 + 2]? = some 1 ∧
    ([0, 0, 0, 0, 5, 5, 3, 13, 2, 1, 2] : tvbuff_t)[7 + 3]? = some 2 ∧
    burst_descr5_tlv [0, 0, 0, 0, 5, 5, 3, 13, 2, 1, 2] 5 7 ucd_state.init =
      outcome.ok 11
        { col_info := ""
          tree := [tree_op.item tlv_tree hf_docsis_rs_int_block 9 2 (fvalue.uinteger 258)]
          expert := []
          reads := [7, 8, 9, 10] } :=
  ⟨rfl, rfl, rfl, rfl,
    (rs_int_block_sixteen_bits [0, 0, 0, 0, 5, 5, 3, 13, 2, 1, 2] 7 5 1 2
      ucd_state.init rfl rfl rfl rfl).1⟩

/-- C13. A sub-TLV header with sub-type `s` and sub-length `len` at `pos`:
when `s` is not in 1..11 the loop body of a legacy burst descriptor, and when
`s` is not in 1..14 the loop body of an extended one, reads the two header
bytes and nothing else, adds no field and no expert info, and moves the
cursor to `pos + 2 + len`; so do the sub-types 12, 13 and 14 in a legacy burst
descriptor, whatever `len`. The value bytes need not be in the buffer. -/
theorem illegal_sub_type_skipped (tvb : tvbuff_t) (pos length : Nat) (s len : guint8)
    (st : ucd_state)
    (h0 : tvb[pos]? = some s) (h1 : tvb[pos + 1]? = some len) :
    (¬ (1 ≤ s.val ∧ s.val ≤ 11) →
      burst_descr_tlv tvb length pos st =
        outcome.ok (pos + 2 + len.val) { st with reads := st.reads ++ [pos, pos + 1] }) ∧
    (¬ (1 ≤ s.val ∧ s.val ≤ 14) →
      burst_descr5_tlv tvb length pos st =
        outcome.ok (pos + 2 + len.val) { st with reads := st.reads ++ [pos, pos + 1] }) ∧
    (s.val = 12 ∨ s.val = 13 ∨ s.val = 14 →
      burst_descr_tlv tvb length pos st =
        outcome.ok (pos + 2 + len.val) { st with reads := st.reads ++ [pos, pos + 1] }) := by
  have h5 := burst_tlv_apply 5 length (Or.inr rfl) h0 h1 st
  have h4 := burst_tlv_apply 4 length (Or.inl rfl) h0 h1 st
  rw [burst_tlv_five] at h5
  rw [burst_tlv_four] at h4
  refine ⟨fun hs => ?_, fun hs => ?_, fun hs => ?_⟩
  · have hl : ¬ legal_sub_type 4 s.val := by simpa [legal_sub_type] using hs
    rw [if_neg hl] at h4
    exact h4
  · have hl : ¬ legal_sub_type 5 s.val := by simpa [legal_sub_type] using hs
    rw [if_neg hl] at h5
    exact h5
  · have hl : ¬ legal_sub_type 4 s.val := by
      simp [legal_sub_type]
      omega
    rw [if_neg hl] at h4
    exact h4

/-- C13, witness: sub-type 13 with sub-length 2 inside a legacy burst
descriptor is passed over: no field, no expert info, cursor from 7 to 11. -/
theorem illegal_sub_type_skipped_witness :
    ([0, 0, 0, 0, 4, 5, 3, 13, 2, 1, 2] : tvbuff_t)[7]? = some 13 ∧
    ([0, 0, 0, 0, 4, 5, 3, 13, 2, 1, 2] : tvbuff_t)[7 + 1]? = some 2 ∧
    burst_descr_tlv [0, 0, 0, 0, 4, 5, 3, 13, 2, 1, 2] 5 7 ucd_state.init =
      outcome.ok 11 { col_info := "", tree := [], expert := [], reads := [7, 8] } :=
  ⟨rfl, rfl,
    (illegal_sub_type_skipped [0, 0, 0, 0, 4, 5, 3, 13, 2, 1, 2] 7 5 13 2
      ucd_state.init rfl rfl).2.2 (Or.inr (Or.inl rfl))⟩

/-! ## A length mismatch at the top level (C14) -/

/-- C14. A top-level TLV header at `pos` with declared length `len`. A Symbol
Rate record with `len ≠ 1` is flagged with one expert info and leaves the
cursor at `pos + 2 + len`. A Frequency record with `len ≠ 4` is flagged with
one expert info and leaves the cursor at `pos + 2`, on its first value byte:
the next iteration of the loop starts there, and it takes the bytes at
`pos + 2` and `pos + 3` as the type and the length of a TLV. -/
theorem length_mismatch_advancement (tvb : tvbuff_t) (pos : Nat) (len : guint8)
    (st : ucd_state) (h1 : tvb[pos + 1]? = some len) :
    (tvb[pos]? = some 1 → len.val ≠ 1 →
      dissect_tlv tvb pos st =
        outcome.ok (pos + 2 + len.val)
          { tlv_header st pos 1 len.val with
            expert := st.expert ++ [{ format := "Wrong TLV length: %u", arg := len.val }] }) ∧
    (tvb[pos]? = some 2 → len.val ≠ 4 →
      dissect_tlv tvb pos st =
        outcome.ok (pos + 2)
          { tlv_header st pos 2 len.val with
            expert := st.expert ++ [{ format := "Wrong TLV length: %u", arg := len.val }] } ∧
      (∀ bound fuel, pos < bound →
        dissect_tlvs tvb bound (fuel + 1) pos st =
          dissect_tlvs tvb bound fuel (pos + 2)
            { tlv_header st pos 2 len.val with
              expert := st.expert ++
                [{ format := "Wrong TLV length: %u", arg := len.val }] }) ∧
      (∀ (t2 l2 : guint8) (st1 : ucd_state),
        tvb[pos + 2]? = some t2 → tvb[pos + 2 + 1]? = some l2 →
        dissect_tlv tvb (pos + 2) st1 =
          ucd_switch tvb t2.val l2.val (pos + 2 + 2) (tlv_header st1 (pos + 2) t2.val l2.val))) := by
  refine ⟨fun h0 hl => ?_, fun h0 hl => ?_⟩
  · rw [dissect_tlv_header h0 h1]
    exact ucd_switch_symbol_rate_bad tvb (pos + 2) hl _
  · have hbody : dissect_tlv tvb pos st =
        outcome.ok (pos + 2)
          { tlv_header st pos 2 len.val with
            expert := st.expert ++ [{ format := "Wrong TLV length: %u", arg := len.val }] } := by
      rw [dissect_tlv_header h0 h1]
      exact ucd_switch_frequency_bad tvb (pos + 2) hl _
    refine ⟨hbody, fun bound fuel hlt => ?_, fun t2 l2 st1 h2 h3 => ?_⟩
    · exact while_loop_step_ok fuel hlt hbody
    · exact dissect_tlv_header h2 h3 st1

/-- C14, witness: a Frequency record of declared length 3 at offset 4 with the
value bytes 1, 1, 44. The cursor is left at 6, and the whole message is
dissected as the flagged Frequency record followed by a Symbol Rate record
(type 1, length 1) at offset 6 whose value is 44: the first two value bytes of
the Frequency record have been taken as a TLV header. -/
theorem length_mismatch_advancement_witness :
    ([0, 0, 0, 0, 2, 3, 1, 1, 44] : tvbuff_t)[4 + 1]? = some 3 ∧
    ([0, 0, 0, 0, 2, 3, 1, 1, 44] : tvbuff_t)[4]? = some 2 ∧
    dissect_tlv [0, 0, 0, 0, 2, 3, 1, 1, 44] 4 ucd_state.init =
      outcome.ok 6
        { col_info := ""
          tree :=
            [tree_op.subtree 4 (-1) "Frequency",
             tree_op.item tlv_tree hf_docsis_ucd_type 4 1 (fvalue.uinteger 2),
             tree_op.item tlv_tree hf_docsis_ucd_length 5 1 (fvalue.uinteger 3),
             tree_op.set_len 5]
          expert := [{ format := "Wrong TLV length: %u", arg := 3 }]
          reads := [4, 5] } ∧
    dissect_ucd [0, 0, 0, 0, 2, 3, 1, 1, 44] true ucd_state.init =
      outcome.ok (some 9)
        { col_info := "UCD Message:  Channel ID = 0 (Telephony Return)"
          tree :=
            [tree_op.protocol_format 0 (-1) "UCD Message",
             tree_op.item ucd_tree hf_docsis_ucd_upstream_chid 0 1 (fvalue.uinteger 0),
             tree_op.item ucd_tree hf_docsis_ucd_config_ch_cnt 1 1 (fvalue.uinteger 0),
             tree_op.item ucd_tree hf_docsis_ucd_mini_slot_size 2 1 (fvalue.uinteger 0),
             tree_op.item ucd_tree hf_docsis_ucd_down_chid 3 1 (fvalue.uinteger 0),
             tree_op.subtree 4 (-1) "Frequency",
             tree_op.item tlv_tree hf_docsis_ucd_type 4 1 (fvalue.uinteger 2),
             tree_op.item tlv_tree hf_docsis_ucd_length 5 1 (fvalue.uinteger 3),
             tree_op.set_len 5,
             tree_op.subtree 6 (-1) "Symbol Rate",
             tree_op.item tlv_tree hf_docsis_ucd_type 6 1 (fvalue.uinteger 1),
             tree_op.item tlv_tree hf_docsis_ucd_length 7 1 (fvalue.uinteger 1),
             tree_op.set_len 3,
             tree_op.item tlv_tree hf_docsis_ucd_symbol_rate 8 1 (fvalue.uinteger 7040)]
          expert := [{ format := "Wrong TLV length: %u", arg := 3 }]
          reads := [0, 0, 1, 2, 3, 4, 5, 6, 7, 8] } :=
  ⟨rfl, rfl,
    ((length_mismatch_advancement [0, 0, 0, 0, 2, 3, 1, 1, 44] 4 3
      ucd_state.init rfl).2 rfl (by decide)).1,
    rfl⟩

/-! ## Short buffers (C15) -/

/-- C15. With a tree requested, a buffer of fewer than 4 bytes ends in the
bounds exception, with no expert info and no top-level TLV; more precisely the
empty buffer leaves the state untouched, and a buffer of 1, 2 or 3 bytes
leaves exactly the header items of the bytes it has, each with the value of
its byte. A buffer of exactly 4 bytes is dissected normally: the four header
items carry the bytes 0, 1, 2 and 3, no TLV subtree and no expert info is
added, and the cursor stays at 4. In every case but the empty buffer the info
column holds the summary text of byte 0. -/
theorem short_buffer_bounds_error (tvb : tvbuff_t) (b0 b1 b2 b3 : guint8) (st : ucd_state) :
    (tvb.length < 4 →
      ∃ st', dissect_ucd tvb true st = outcome.bounds_error st' ∧
        st'.expert = st.expert ∧ tlv_headers st' = tlv_headers st) ∧
    dissect_ucd [] true st = outcome.bounds_error st ∧
    dissect_ucd [b0] true st =
      outcome.bounds_error
        { col_info := (ucd_header st b0 b0 b0 b0).col_info
          tree := st.tree ++
            [tree_op.protocol_format 0 (-1) "UCD Message",
             tree_op.item ucd_tree hf_docsis_ucd_upstream_chid 0 1 (fvalue.uinteger b0.val)]
          expert := st.expert
          reads := st.reads ++ [0, 0] } ∧
    dissect_ucd [b0, b1] true st =
      outcome.bounds_error
        { col_info := (ucd_header st b0 b0 b0 b0).col_info
          tree := st.tree ++
            [tree_op.protocol_format 0 (-1) "UCD Message",
             tree_op.item ucd_tree hf_docsis_ucd_upstream_chid 0 1 (fvalue.uinteger b0.val),
             tree_op.item ucd_tree hf_docsis_ucd_config_ch_cnt 1 1 (fvalue.uinteger b1.val)]
          expert := st.expert
          reads := st.reads ++ [0, 0, 1] } ∧
    dissect_ucd [b0, b1, b2] true st =
      outcome.bounds_error
        { col_info := (ucd_header st b0 b0 b0 b0).col_info
          tree := st.tree ++
            [tree_op.protocol_format 0 (-1) "UCD Message",
             tree_op.item ucd_tree hf_docsis_ucd_upstream_chid 0 1 (fvalue.uinteger b0.val),
             tree_op.item ucd_tree hf_docsis_ucd_config_ch_cnt 1 1 (fvalue.uinteger b1.val),
             tree_op.item ucd_tree hf_docsis_ucd_mini_slot_size 2 1 (fvalue.uinteger b2.val)]
          expert := st.expert
          reads := st.reads ++ [0, 0, 1, 2] } ∧
    dissect_ucd [b0, b1, b2, b3] true st =
      outcome.ok (some 4)
        { col_info := (ucd_header st b0 b0 b0 b0).col_info
          tree := st.tree ++
            [tree_op.protocol_format 0 (-1) "UCD Message",
             tree_op.item ucd_tree hf_docsis_ucd_upstream_chid 0 1 (fvalue.uinteger b0.val),
             tree_op.item ucd_tree hf_docsis_ucd_config_ch_cnt 1 1 (fvalue.uinteger b1.val),
             tree_op.item ucd_tree hf_docsis_ucd_mini_slot_size 2 1 (fvalue.uinteger b2.val),
             tree_op.item ucd_tree hf_docsis_ucd_down_chid 3 1 (fvalue.uinteger b3.val)]
          expert := st.expert
          reads := st.reads ++ [0, 0, 1, 2, 3] } := by
  have e0 : dissect_ucd [] true st = outcome.bounds_error st :=
    dissector_bind_err _ (tvb_get_guint8_none (by simp) st)
  have e1 : ∀ c0 : guint8, dissect_ucd [c0] true st =
      outcome.bounds_error
        { col_info := (ucd_header st c0 c0 c0 c0).col_info
          tree := st.tree ++
            [tree_op.protocol_format 0 (-1) "UCD Message",
             tree_op.item ucd_tree hf_docsis_ucd_upstream_chid 0 1 (fvalue.uinteger c0.val)]
          expert := st.expert
          reads := st.reads ++ [0, 0] } := by
    intro c0
    have h0 : ([c0] : tvbuff_t)[0]? = some c0 := by simp
    unfold dissect_ucd
    rw [dissector_bind_ok _ (tvb_get_guint8_some h0 st)]
    by_cases hb : c0.val > 0 <;>
      simp [hb, dissector_bind_apply, proto_tree_add_item, hf, decode_value, get_uint_value,
        ucd_header, List.range']
  have e2 : ∀ c0 c1 : guint8, dissect_ucd [c0, c1] true st =
      outcome.bounds_error
        { col_info := (ucd_header st c0 c0 c0 c0).col_info
          tree := st.tree ++
            [tree_op.protocol_format 0 (-1) "UCD Message",
             tree_op.item ucd_tree hf_docsis_ucd_upstream_chid 0 1 (fvalue.uinteger c0.val),
             tree_op.item ucd_tree hf_docsis_ucd_config_ch_cnt 1 1 (fvalue.uinteger c1.val)]
          expert := st.expert
          reads := st.reads ++ [0, 0, 1] } := by
    intro c0 c1
    have h0 : ([c0, c1] : tvbuff_t)[0]? = some c0 := by simp
    unfold dissect_ucd
    rw [dissector_bind_ok _ (tvb_get_guint8_some h0 st)]
    by_cases hb : c0.val > 0 <;>
      simp [hb, dissector_bind_apply, proto_tree_add_item, hf, decode_value, get_uint_value,
        ucd_header, List.range']
  have e3 : ∀ c0 c1 c2 : guint8, dissect_ucd [c0, c1, c2] true st =
      outcome.bounds_error
        { col_info := (ucd_header st c0 c0 c0 c0).col_info
          tree := st.tree ++
            [tree_op.protocol_format 0 (-1) "UCD Message",
             tree_op.item ucd_tree hf_docsis_ucd_upstream_chid 0 1 (fvalue.uinteger c0.val),
             tree_op.item ucd_tree hf_docsis_ucd_config_ch_cnt 1 1 (fvalue.uinteger c1.val),
             tree_op.item ucd_tree hf_docsis_ucd_mini_slot_size 2 1 (fvalue.uinteger c2.val)]
          expert := st.expert
          reads := st.reads ++ [0, 0, 1, 2] } := by
    intro c0 c1 c2
    have h0 : ([c0, c1, c2] : tvbuff_t)[0]? = some c0 := by simp
    unfold dissect_ucd
    rw [dissector_bind_ok _ (tvb_get_guint8_some h0 st)]
    by_cases hb : c0.val > 0 <;>
      simp [hb, dissector_bind_apply, proto_tree_add_item, hf, decode_value, get_uint_value,
        ucd_header, List.range']
  refine ⟨fun hlt => ?_, e0, e1 b0, e2 b0 b1, e3 b0 b1 b2, ?_⟩
  · match tvb, hlt with
    | [], _ => exact ⟨_, e0, rfl, rfl⟩
    | [c0], _ => exact ⟨_, e1 c0, rfl, by simp [tlv_headers]⟩
    | [c0, c1], _ => exact ⟨_, e2 c0 c1, rfl, by simp [tlv_headers]⟩
    | [c0, c1, c2], _ => exact ⟨_, e3 c0 c1 c2, rfl, by simp [tlv_headers]⟩
  · have h : dissect_tlvs [b0, b1, b2, b3] (([] : tvbuff_t).length + 4)
        (([] : tvbuff_t).length + 4) 4 (ucd_header st b0 b1 b2 b3) =
        outcome.ok 4 (ucd_header st b0 b1 b2 b3) :=
      while_loop_done _ _ (by simp) _
    exact dissect_ucd_of_tlvs_ok h

/-- C15, witness: the two-byte buffer 7, 8 ends in the bounds exception after
the items of the bytes 0 and 1; no item is built for the bytes 2 and 3. -/
theorem short_buffer_bounds_error_witness :
    ([7, 8] : tvbuff_t).length < 4 ∧
    (∃ st', dissect_ucd [7, 8] true ucd_state.init = outcome.bounds_error st' ∧
      st'.expert = ucd_state.init.expert ∧ tlv_headers st' = tlv_headers ucd_state.init) ∧
    dissect_ucd [7, 8] true ucd_state.init =
      outcome.bounds_error
        { col_info := "UCD Message:  Channel ID = 7 (U6)"
          tree :=
            [tree_op.protocol_format 0 (-1) "UCD Message",
             tree_op.item ucd_tree hf_docsis_ucd_upstream_chid 0 1 (fvalue.uinteger 7),
             tree_op.item ucd_tree hf_docsis_ucd_config_ch_cnt 1 1 (fvalue.uinteger 8)]
          expert := []
          reads := [0, 0, 1] } :=
  ⟨by decide,
    (short_buffer_bounds_error [7, 8] 7 8 0 0 ucd_state.init).1 (by decide),
    rfl⟩

/-! ## The preamble pattern (C18) -/

/-- C18. A Preamble Pattern record at `pos` with any declared length `len`
(0..255) whose `len` value bytes are in the buffer: the record is dissected
normally, the one field added is the byte string made of exactly the bytes
`pos + 2 .. pos + 2 + len - 1` of the buffer, no expert info is added, and the
cursor is left at `pos + 2 + len`. -/
theorem preamble_any_length (tvb : tvbuff_t) (pos : Nat) (len : guint8) (st : ucd_state)
    (h0 : tvb[pos]? = some 3) (h1 : tvb[pos + 1]? = some len)
    (hb : pos + 2 + len.val ≤ tvb.length) :
    dissect_tlv tvb pos st =
      outcome.ok (pos + 2 + len.val)
        { col_info := st.col_info
          tree := st.tree ++
            [tree_op.subtree pos (-1) "Preamble Pattern",
             tree_op.item tlv_tree hf_docsis_ucd_type pos 1 (fvalue.uinteger 3),
             tree_op.item tlv_tree hf_docsis_ucd_length (pos + 1) 1 (fvalue.uinteger len.val),
             tree_op.set_len (len.val + 2),
             tree_op.item tlv_tree hf_docsis_ucd_preamble_pat (pos + 2) len.val
               (fvalue.bytes ((tvb.drop (pos + 2)).take len.val))]
          expert := st.expert
          reads := st.reads ++ [pos, pos + 1] ++ List.range' (pos + 2) len.val } ∧
    ((tvb.drop (pos + 2)).take len.val).length = len.val ∧
    ∀ i, i < len.val → ((tvb.drop (pos + 2)).take len.val)[i]? = tvb[pos + 2 + i]? := by
  refine ⟨?_, ?_, ?_⟩
  · have hv : (3 : guint8).val = 3 := rfl
    have hn : val_to_str 3 channel_tlv_vals "Unknown TLV (%u)" = "Preamble Pattern" := rfl
    rw [dissect_tlv_header h0 h1, hv, ucd_switch_preamble hb]
    simp [tlv_header, hn]
  · simp
    omega
  · intro i hi
    simp [List.getElem?_take, hi]

/-- C18, witness: a Preamble Pattern record of declared length 3 with the value
bytes 9, 8, 7 and, after it, one of declared length 0. -/
theorem preamble_any_length_witness :
    ([0, 0, 0, 0, 3, 3, 9, 8, 7, 3, 0] : tvbuff_t)[4]? = some 3 ∧
    ([0, 0, 0, 0, 3, 3, 9, 8, 7, 3, 0] : tvbuff_t)[4 + 1]? = some 3 ∧
    dissect_tlv [0, 0, 0, 0, 3, 3, 9, 8, 7, 3, 0] 4 ucd_state.init =
      outcome.ok 9
        { col_info := ""
          tree :=
            [tree_op.subtree 4 (-1) "Preamble Pattern",
             tree_op.item tlv_tree hf_docsis_ucd_type 4 1 (fvalue.uinteger 3),
             tree_op.item tlv_tree hf_docsis_ucd_length 5 1 (fvalue.uinteger 3),
             tree_op.set_len 5,
             tree_op.item tlv_tree hf_docsis_ucd_preamble_pat 6 3 (fvalue.bytes [9, 8, 7])]
          expert := []
          reads := [4, 5, 6, 7, 8] } ∧
    dissect_tlv [0, 0, 0, 0, 3, 3, 9, 8, 7, 3, 0] 9 ucd_state.init =
      outcome.ok 11
        { col_info := ""
          tree :=
            [tree_op.subtree 9 (-1) "Preamble Pattern",
             tree_op.item tlv_tree hf_docsis_ucd_type 9 1 (fvalue.uinteger 3),
             tree_op.item tlv_tree hf_docsis_ucd_length 10 1 (fvalue.uinteger 0),
             tree_op.set_len 2,
             tree_op.item tlv_tree hf_docsis_ucd_preamble_pat 11 0 (fvalue.bytes [])]
          expert := []
          reads := [9, 10] } :=
  ⟨rfl, rfl,
    (preamble_any_length [0, 0, 0, 0, 3, 3, 9, 8, 7, 3, 0] 4 3
      ucd_state.init rfl rfl (by decide)).1,
    rfl⟩

/-! ## A burst descriptor of declared length 0 (C20) -/

/-- C20. A burst descriptor record (type 4 or 5) at `o` with declared length 0
whose header is followed by a byte `b`: the record is dissected normally, the
byte at `o + 2` is read and added as the Interval Usage Code, no sub-TLV byte
is read (the only reads are `o`, `o + 1` and `o + 2`), no expert info is
added, and the cursor is left at `o + 3`, so that the top-level loop goes on
at `o + 3`. -/
theorem empty_burst_descriptor (tvb : tvbuff_t) (o : Nat) (t b : guint8) (st : ucd_state)
    (ht : t.val = 4 ∨ t.val = 5)
    (h0 : tvb[o]? = some t) (h1 : tvb[o + 1]? = some 0) (h2 : tvb[o + 2]? = some b) :
    dissect_tlv tvb o st =
      outcome.ok (o + 3)
        { col_info := st.col_info
          tree := st.tree ++
            [tree_op.subtree o (-1) (val_to_str t.val channel_tlv_vals "Unknown TLV (%u)"),
             tree_op.item tlv_tree hf_docsis_ucd_type o 1 (fvalue.uinteger t.val),
             tree_op.item tlv_tree hf_docsis_ucd_length (o + 1) 1 (fvalue.uinteger 0),
             tree_op.set_len 2,
             tree_op.item tlv_tree hf_docsis_ucd_iuc (o + 2) 1 (fvalue.uinteger b.val)]
          expert := st.expert
          reads := st.reads ++ [o, o + 1, o + 2] } ∧
    ∀ bound fuel, o < bound →
      dissect_tlvs tvb bound (fuel + 1) o st =
        dissect_tlvs tvb bound fuel (o + 3)
          { col_info := st.col_info
            tree := st.tree ++
              [tree_op.subtree o (-1) (val_to_str t.val channel_tlv_vals "Unknown TLV (%u)"),
               tree_op.item tlv_tree hf_docsis_ucd_type o 1 (fvalue.uinteger t.val),
               tree_op.item tlv_tree hf_docsis_ucd_length (o + 1) 1 (fvalue.uinteger 0),
               tree_op.set_len 2,
               tree_op.item tlv_tree hf_docsis_ucd_iuc (o + 2) 1 (fvalue.uinteger b.val)]
            expert := st.expert
            reads := st.reads ++ [o, o + 1, o + 2] } := by
  have hbody : dissect_tlv tvb o st =
      outcome.ok (o + 3)
        { col_info := st.col_info
          tree := st.tree ++
            [tree_op.subtree o (-1) (val_to_str t.val channel_tlv_vals "Unknown TLV (%u)"),
             tree_op.item tlv_tree hf_docsis_ucd_type o 1 (fvalue.uinteger t.val),
             tree_op.item tlv_tree hf_docsis_ucd_length (o + 1) 1 (fvalue.uinteger 0),
             tree_op.set_len 2,
             tree_op.item tlv_tree hf_docsis_ucd_iuc (o + 2) 1 (fvalue.uinteger b.val)]
          expert := st.expert
          reads := st.reads ++ [o, o + 1, o + 2] } := by
    have hlen := length_of_getElem?_some h2
    have hv : (0 : guint8).val = 0 := rfl
    have hu : get_uint_value ((tvb.drop (o + 2)).take 1) = b.val := by
      rw [take_drop_one h2]
      simp [get_uint_value]
    rw [dissect_tlv_header h0 h1, hv, ucd_switch_burst t.val 0 ht hlen,
      while_loop_done _ _ (by omega), hu]
    simp [tlv_header]
  exact ⟨hbody, fun bound fuel hlt => while_loop_step_ok fuel hlt hbody⟩

/-- C20, witness: a legacy burst descriptor of declared length 0 at offset 4,
followed by a Symbol Rate record (1, 1, 44). The type byte 1 of that record is
taken as the Interval Usage Code and the cursor is left at 7, inside it. -/
theorem empty_burst_descriptor_witness :
    ([0, 0, 0, 0, 4, 0, 1, 1, 44] : tvbuff_t)[4]? = some 4 ∧
    ([0, 0, 0, 0, 4, 0, 1, 1, 44] : tvbuff_t)[4 + 1]? = some 0 ∧
    ([0, 0, 0, 0, 4, 0, 1, 1, 44] : tvbuff_t)[4 + 2]? = some 1 ∧
    dissect_tlv [0, 0, 0, 0, 4, 0, 1, 1, 44] 4 ucd_state.init =
      outcome.ok 7
        { col_info := ""
          tree :=
            [tree_op.subtree 4 (-1) "Burst Descriptor",
             tree_op.item tlv_tree hf_docsis_ucd_type 4 1 (fvalue.uinteger 4),
             tree_op.item tlv_tree hf_docsis_ucd_length 5 1 (fvalue.uinteger 0),
             tree_op.set_len 2,
             tree_op.item tlv_tree hf_docsis_ucd_iuc 6 1 (fvalue.uinteger 1)]
          expert := []
          reads := [4, 5, 6] } :=
  ⟨rfl, rfl, rfl,
    (empty_burst_descriptor [0, 0, 0, 0, 4, 0, 1, 1, 44] 4 4 1
      ucd_state.init (Or.inl rfl) rfl rfl rfl).1⟩

/-! ## The enumerated values (C19) -/

/-- C19. The value_string tables of the enumerated fields, looked up at any
value `v`. The Interval Usage Code has a name exactly for `v` in 1..15, with
"Initial Maintenance" for 3, "Reserved" for 12, 13 and 14 and "Expanded IUC"
for 15; the modulation type is "QPSK" for 1 and "QAM16" for 2; differential
encoding and scrambler on/off are "On" for 1 and "Off" for 2; the last
codeword length is "Fixed" for 1 and "Shortened" for 2; every other value has
no name. These are the tables the fields are registered with. -/
theorem enumerated_lookups (v : Nat) :
    (try_val_to_str v iuc_vals).isSome = decide (1 ≤ v ∧ v ≤ 15) ∧
    try_val_to_str 3 iuc_vals = some "Initial Maintenance" ∧
    try_val_to_str 12 iuc_vals = some "Reserved" ∧
    try_val_to_str 13 iuc_vals = some "Reserved" ∧
    try_val_to_str 14 iuc_vals = some "Reserved" ∧
    try_val_to_str 15 iuc_vals = some "Expanded IUC" ∧
    try_val_to_str v mod_vals =
      (if v = 1 then some "QPSK" else if v = 2 then some "QAM16" else none) ∧
    try_val_to_str v on_off_vals =
      (if v = 1 then some "On" else if v = 2 then some "Off" else none) ∧
    try_val_to_str v last_cw_len_vals =
      (if v = 1 then some "Fixed" else if v = 2 then some "Shortened" else none) ∧
    (hf hf_docsis_ucd_iuc).strings = some iuc_vals ∧
    (hf hf_docsis_burst_mod_type).strings = some mod_vals ∧
    (hf hf_docsis_burst_diff_encoding).strings = some on_off_vals ∧
    (hf hf_docsis_burst_scrambler_onoff).strings = some on_off_vals ∧
    (hf hf_docsis_burst_last_cw_len).strings = some last_cw_len_vals ∧
    (∀ tree start length,
      tree_op.value_name (tree_op.item tree hf_docsis_ucd_iuc start length (fvalue.uinteger v)) =
        try_val_to_str v iuc_vals ∧
      tree_op.value_name
          (tree_op.item tree hf_docsis_burst_mod_type start length (fvalue.uinteger v)) =
        try_val_to_str v mod_vals ∧
      tree_op.value_name
          (tree_op.item tree hf_docsis_burst_diff_encoding start length (fvalue.uinteger v)) =
        try_val_to_str v on_off_vals ∧
      tree_op.value_name
          (tree_op.item tree hf_docsis_burst_scrambler_onoff start length (fvalue.uinteger v)) =
        try_val_to_str v on_off_vals ∧
      tree_op.value_name
          (tree_op.item tree hf_docsis_burst_last_cw_len start length (fvalue.uinteger v)) =
        try_val_to_str v last_cw_len_vals) := by
  exact ⟨iuc_lookup v, rfl, rfl, rfl, rfl, rfl, two_names_lookup v _ _, two_names_lookup v _ _,
    two_names_lookup v _ _, rfl, rfl, rfl, rfl, rfl, fun _ _ _ => ⟨rfl, rfl, rfl, rfl, rfl⟩⟩

/-! ## Termination (C16) -/

/-- C16. The function `dissect_ucd` ends on every buffer, normally or with the
bounds exception, with the fuel it gives its loops. Each iteration of the
top-level loop, and each iteration of the sub-TLV loop of a legacy or an
extended burst descriptor, either moves the cursor forward by at least 2 or
throws the bounds exception, whatever the bytes at the cursor (type code,
declared length, result of the length check). Hence the top-level loop from
cursor 4 ends within `⌈(length - 4) / 2⌉` iterations and a sub-TLV loop from
`pos` with end `E` within `⌈(E - pos) / 2⌉` iterations (more fuel changes
nothing). The TLV headers both bytes of which are read, by the top-level loop
and by the sub-TLV loops together (`tlv_headers_read`: the cursors at which an
iteration of either loop starts with its two header bytes in the buffer),
number at most `(length - 4) / 2`, from whatever state the loop is started;
so do the top-level TLV headers dissected alone, counted in the tree. Every
header listed has both its bytes in the log of the bytes the loop has read,
and no read is left out: the bytes read by the loop are two for each header
listed, the bytes decoded into fields, and one more only when the loop stops
with the bounds exception at a header whose second byte is missing. The
message of 13 bytes with one burst descriptor that holds two sub-TLVs has
three headers read, at 4, 7 and 10, one of them top-level; the bound is
reached by a message of 8 bytes that holds an unknown TLV of length 0 and a
Frequency TLV of length 0, and by a message of 13 bytes whose burst descriptor
holds three empty sub-TLVs of sub-type 0 (four headers, `(13 - 4) / 2 = 4`). -/
theorem dissect_ucd_terminates (tvb : tvbuff_t) (tree : Bool) (pos length E extra : Nat)
    (st : ucd_state) :
    ((∃ r st', dissect_ucd tvb tree st = outcome.ok r st') ∨
      ∃ st', dissect_ucd tvb tree st = outcome.bounds_error st') ∧
    ((∃ pos' st', dissect_tlv tvb pos st = outcome.ok pos' st' ∧ pos + 2 ≤ pos') ∨
      ∃ st', dissect_tlv tvb pos st = outcome.bounds_error st') ∧
    ((∃ pos' st', burst_descr_tlv tvb length pos st = outcome.ok pos' st' ∧ pos + 2 ≤ pos') ∨
      ∃ st', burst_descr_tlv tvb length pos st = outcome.bounds_error st') ∧
    ((∃ pos' st', burst_descr5_tlv tvb length pos st = outcome.ok pos' st' ∧ pos + 2 ≤ pos') ∨
      ∃ st', burst_descr5_tlv tvb length pos st = outcome.bounds_error st') ∧
    ((∃ pos' st', dissect_tlvs tvb tvb.length ((tvb.length - 4 + 1) / 2 + extra) 4 st =
        outcome.ok pos' st') ∨
      ∃ st', dissect_tlvs tvb tvb.length ((tvb.length - 4 + 1) / 2 + extra) 4 st =
        outcome.bounds_error st') ∧
    ((∃ pos' st', burst_descr_loop tvb length E ((E - pos + 1) / 2 + extra) pos st =
        outcome.ok pos' st') ∨
      ∃ st', burst_descr_loop tvb length E ((E - pos + 1) / 2 + extra) pos st =
        outcome.bounds_error st') ∧
    ((∃ pos' st', burst_descr5_loop tvb length E ((E - pos + 1) / 2 + extra) pos st =
        outcome.ok pos' st') ∨
      ∃ st', burst_descr5_loop tvb length E ((E - pos + 1) / 2 + extra) pos st =
        outcome.bounds_error st') ∧
    tlv_headers (dissect_ucd tvb tree st).state ≤ tlv_headers st + (tvb.length - 4) / 2 ∧
    tlv_headers (dissect_ucd [0, 0, 0, 0, 9, 0, 2, 0] true ucd_state.init).state = 2 ∧
    (tlv_headers_read tvb st).length ≤ (tvb.length - 4) / 2 ∧
    (∀ q ∈ tlv_headers_read tvb st,
      st.read_between (dissect_tlvs tvb tvb.length tvb.length 4 st).state q ∧
      st.read_between (dissect_tlvs tvb tvb.length tvb.length 4 st).state (q + 1)) ∧
    (∃ k, k ≤ 1 ∧
      (k = 0 ∨
        ∃ st', dissect_tlvs tvb tvb.length tvb.length 4 st = outcome.bounds_error st') ∧
      reads_accounted st (dissect_tlvs tvb tvb.length tvb.length 4 st).state
        (tlv_headers_read tvb st).length k) ∧
    tlv_headers_read [0, 0, 0, 0, 4, 7, 3, 1, 1, 2, 2, 1, 1] ucd_state.init = [4, 7, 10] ∧
    tlv_headers
      (dissect_ucd [0, 0, 0, 0, 4, 7, 3, 1, 1, 2, 2, 1, 1] true ucd_state.init).state = 1 ∧
    tlv_headers_read [0, 0, 0, 0, 9, 0, 2, 0] ucd_state.init = [4, 6] ∧
    tlv_headers_read [0, 0, 0, 0, 4, 7, 3, 0, 0, 0, 0, 0, 0] ucd_state.init =
      [4, 7, 9, 11] := by
  have h4 : ∀ p s,
      (∃ pos' st', burst_descr_tlv tvb length p s = outcome.ok pos' st' ∧ p + 2 ≤ pos') ∨
      ∃ st', burst_descr_tlv tvb length p s = outcome.bounds_error st' := by
    intro p s
    have h := burst_tlv_total tvb 4 length p (Or.inl rfl) s
    rw [burst_tlv_four] at h
    exact h
  have h5 : ∀ p s,
      (∃ pos' st', burst_descr5_tlv tvb length p s = outcome.ok pos' st' ∧ p + 2 ≤ pos') ∨
      ∃ st', burst_descr5_tlv tvb length p s = outcome.bounds_error st' := by
    intro p s
    have h := burst_tlv_total tvb 5 length p (Or.inr rfl) s
    rw [burst_tlv_five] at h
    exact h
  refine ⟨dissect_ucd_total tvb tree st, dissect_tlv_total tvb pos st, h4 pos st, h5 pos st,
    ?_, ?_, ?_, dissect_ucd_headers tvb tree st, rfl, tlv_headers_read_bound tvb st,
    tlv_headers_read_in_reads tvb st, ?_, rfl, rfl, rfl, rfl⟩
  · exact while_loop_fuel_two (dissect_tlv_total tvb) _ 4 st (by omega)
  · exact while_loop_fuel_two h4 _ pos st (by omega)
  · exact while_loop_fuel_two h5 _ pos st (by omega)
  · obtain ⟨k, hk, hz, ha⟩ := tlv_headers_read_accounted tvb st
    refine ⟨k, hk, ?_, ha⟩
    rcases dissect_tlvs_total tvb tvb.length st with ⟨q, st', hok⟩ | h
    · exact Or.inl (hz q st' hok)
    · exact Or.inr h

/-- C16, witness. The message of 13 bytes with one burst descriptor that holds
two sub-TLVs: the header at 7 is listed, its bytes 7 and 8 are in the log of
the bytes read, and the 9 bytes read are the 6 bytes of the three headers and
the 3 bytes of the three fields. -/
theorem dissect_ucd_terminates_witness :
    7 ∈ tlv_headers_read [0, 0, 0, 0, 4, 7, 3, 1, 1, 2, 2, 1, 1] ucd_state.init ∧
    (ucd_state.init.read_between
        (dissect_tlvs [0, 0, 0, 0, 4, 7, 3, 1, 1, 2, 2, 1, 1] 13 13 4 ucd_state.init).state 7 ∧
      ucd_state.init.read_between
        (dissect_tlvs [0, 0, 0, 0, 4, 7, 3, 1, 1, 2, 2, 1, 1] 13 13 4 ucd_state.init).state
        (7 + 1)) ∧
    dissect_tlvs [0, 0, 0, 0, 4, 7, 3, 1, 1, 2, 2, 1, 1] 13 13 4 ucd_state.init =
      outcome.ok 13
        { col_info := ""
          tree :=
            [tree_op.subtree 4 (-1) "Burst Descriptor",
             tree_op.item tlv_tree hf_docsis_ucd_type 4 1 (fvalue.uinteger 4),
             tree_op.item tlv_tree hf_docsis_ucd_length 5 1 (fvalue.uinteger 7),
             tree_op.set_len 9,
             tree_op.item tlv_tree hf_docsis_ucd_iuc 6 1 (fvalue.uinteger 3),
             tree_op.item tlv_tree hf_docsis_burst_mod_type 9 1 (fvalue.uinteger 2),
             tree_op.item tlv_tree hf_docsis_burst_diff_encoding 12 1 (fvalue.uinteger 1)]
          expert := []
          reads := [4, 5, 6, 7, 8, 9, 10, 11, 12] } ∧
    reads_accounted ucd_state.init
      (dissect_tlvs [0, 0, 0, 0, 4, 7, 3, 1, 1, 2, 2, 1, 1] 13 13 4 ucd_state.init).state 3 0 :=
  have hl : tlv_headers_read [0, 0, 0, 0, 4, 7, 3, 1, 1, 2, 2, 1, 1] ucd_state.init =
      [4, 7, 10] := rfl
  have hm : 7 ∈ tlv_headers_read [0, 0, 0, 0, 4, 7, 3, 1, 1, 2, 2, 1, 1] ucd_state.init :=
    hl ▸ (by decide)
  ⟨hm,
    (dissect_ucd_terminates [0, 0, 0, 0, 4, 7, 3, 1, 1, 2, 2, 1, 1] true 4 7 13 0
      ucd_state.init).2.2.2.2.2.2.2.2.2.2.1 7 hm,
    rfl, rfl⟩

/-! ## The legacy and the extended burst descriptor (C17) -/

/-- C17, counterexample. The two messages differ in the type byte of their one
record only: a burst descriptor (type 4 resp. 5) of declared length 3 whose
value is the Interval Usage Code 3 and the sub-TLV header (12, 1), the value
of that sub-TLV lying past the end of the buffer. The legacy walker passes
over sub-type 12 and ends normally with the cursor at 10; the extended walker
decodes sub-type 12, reads index 9 and throws the bounds exception, so it
leaves no cursor at all. The same holds for the two `switch` cases run on one
buffer. -/
theorem burst_walkers_counterexample :
    dissect_ucd [0, 0, 0, 0, 4, 3, 3, 12, 1] true ucd_state.init =
      outcome.ok (some 10)
        { col_info := "UCD Message:  Channel ID = 0 (Telephony Return)"
          tree :=
            [tree_op.protocol_format 0 (-1) "UCD Message",
             tree_op.item ucd_tree hf_docsis_ucd_upstream_chid 0 1 (fvalue.uinteger 0),
             tree_op.item ucd_tree hf_docsis_ucd_config_ch_cnt 1 1 (fvalue.uinteger 0),
             tree_op.item ucd_tree hf_docsis_ucd_mini_slot_size 2 1 (fvalue.uinteger 0),
             tree_op.item ucd_tree hf_docsis_ucd_down_chid 3 1 (fvalue.uinteger 0),
             tree_op.subtree 4 (-1) "Burst Descriptor",
             tree_op.item tlv_tree hf_docsis_ucd_type 4 1 (fvalue.uinteger 4),
             tree_op.item tlv_tree hf_docsis_ucd_length 5 1 (fvalue.uinteger 3),
             tree_op.set_len 5,
             tree_op.item tlv_tree hf_docsis_ucd_iuc 6 1 (fvalue.uinteger 3)]
          expert := []
          reads := [0, 0, 1, 2, 3, 4, 5, 6, 7, 8] } ∧
    dissect_ucd [0, 0, 0, 0, 5, 3, 3, 12, 1] true ucd_state.init =
      outcome.bounds_error
        { col_info := "UCD Message:  Channel ID = 0 (Telephony Return)"
          tree :=
            [tree_op.protocol_format 0 (-1) "UCD Message",
             tree_op.item ucd_tree hf_docsis_ucd_upstream_chid 0 1 (fvalue.uinteger 0),
             tree_op.item ucd_tree hf_docsis_ucd_config_ch_cnt 1 1 (fvalue.uinteger 0),
             tree_op.item ucd_tree hf_docsis_ucd_mini_slot_size 2 1 (fvalue.uinteger 0),
             tree_op.item ucd_tree hf_docsis_ucd_down_chid 3 1 (fvalue.uinteger 0),
             tree_op.subtree 4 (-1) "Burst Descriptor DOCSIS 2.0",
             tree_op.item tlv_tree hf_docsis_ucd_type 4 1 (fvalue.uinteger 5),
             tree_op.item tlv_tree hf_docsis_ucd_length 5 1 (fvalue.uinteger 3),
             tree_op.set_len 5,
             tree_op.item tlv_tree hf_docsis_ucd_iuc 6 1 (fvalue.uinteger 3)]
          expert := []
          reads := [0, 0, 1, 2, 3, 4, 5, 6, 7, 8] } ∧
    ucd_switch [0, 0, 0, 0, 4, 3, 3, 12, 1] 4 3 6 ucd_state.init =
      outcome.ok 10
        { col_info := ""
          tree := [tree_op.item tlv_tree hf_docsis_ucd_iuc 6 1 (fvalue.uinteger 3)]
          expert := []
          reads := [6, 7, 8] } ∧
    ucd_switch [0, 0, 0, 0, 4, 3, 3, 12, 1] 5 3 6 ucd_state.init =
      outcome.bounds_error
        { col_info := ""
          tree := [tree_op.item tlv_tree hf_docsis_ucd_iuc 6 1 (fvalue.uinteger 3)]
          expert := []
          reads := [6, 7, 8] } :=
  ⟨rfl, rfl, rfl, rfl⟩

/-- C17, amended. The value of a burst descriptor of declared length `length`
at `pos`, dissected as a legacy (type 4) and as an extended (type 5) one, from
any two states. Unless the walk meets a sub-TLV of sub-type 12, 13 or 14 with
its table length whose value goes past the end of the buffer, both walkers end
alike: both normally with the cursor at the same position, or both with the
bounds exception. When the walk meets such a sub-TLV, the extended walker
throws the bounds exception and the legacy one ends normally or throws; at
that sub-TLV the legacy loop body reads the two header bytes only and moves
on to `p + 2 + len`, while the extended one throws after the two header
bytes. And when no sub-TLV header met by the walk has sub-type 12, 13 or 14,
both walkers started in the same state end alike in the same state: same
cursor or same exception, same fields in the same order, same expert infos,
same bytes read. -/
theorem burst_walkers_agree (tvb : tvbuff_t) (length pos : Nat) (st4 st5 st : ucd_state) :
    (¬ extended_overrun tvb (pos + length) (pos + 1) →
      (∃ q s4 s5, ucd_switch tvb 4 length pos st4 = outcome.ok q s4 ∧
        ucd_switch tvb 5 length pos st5 = outcome.ok q s5) ∨
      (∃ s4 s5, ucd_switch tvb 4 length pos st4 = outcome.bounds_error s4 ∧
        ucd_switch tvb 5 length pos st5 = outcome.bounds_error s5)) ∧
    (extended_overrun tvb (pos + length) (pos + 1) →
      (∃ s5, ucd_switch tvb 5 length pos st5 = outcome.bounds_error s5) ∧
      ((∃ q s4, ucd_switch tvb 4 length pos st4 = outcome.ok q s4) ∨
        ∃ s4, ucd_switch tvb 4 length pos st4 = outcome.bounds_error s4)) ∧
    (∀ (p : Nat) (s len : guint8),
      tvb[p]? = some s → tvb[p + 1]? = some len →
      s.val = 12 ∨ s.val = 13 ∨ s.val = 14 →
      len.val = sub_tlv_expected_length s.val → tvb.length < p + 2 + len.val →
      burst_descr_tlv tvb length p st4 =
        outcome.ok (p + 2 + len.val) { st4 with reads := st4.reads ++ [p, p + 1] } ∧
      burst_descr5_tlv tvb length p st5 =
        outcome.bounds_error { st5 with reads := st5.reads ++ [p, p + 1] }) ∧
    (no_extended_sub_type tvb (pos + length) (pos + 1) →
      ucd_switch tvb 4 length pos st = ucd_switch tvb 5 length pos st) := by
  refine ⟨fun hn => ucd_switch_alike tvb length pos st4 st5 hn, fun ho => ?_,
    fun p s len h0 h1 hx he hb => ?_, fun hn => ucd_switch_same hn st⟩
  · refine ⟨ucd_switch_overrun tvb length pos st5 ho, ?_⟩
    rcases ucd_switch_total tvb 4 length pos st4 with ⟨q, s4, h, _⟩ | ⟨s4, h⟩
    · exact Or.inl ⟨q, s4, h⟩
    · exact Or.inr ⟨s4, h⟩
  · have h4 := burst_tlv_apply 4 length (Or.inl rfl) h0 h1 st4
    have h5 := burst_tlv_apply 5 length (Or.inr rfl) h0 h1 st5
    have hl4 : ¬ legal_sub_type 4 s.val := by
      simp [legal_sub_type]
      omega
    have hl5 : legal_sub_type 5 s.val := by
      simp [legal_sub_type]
      omega
    rw [burst_tlv_four, if_neg hl4] at h4
    rw [burst_tlv_five, if_pos hl5, if_pos he, if_neg (by omega)] at h5
    exact ⟨h4, h5⟩

/-- C17, witness. The value 3, (1, 1, 2), (2, 1, 1) of declared length 7 holds
the sub-types 1 and 2 only: the two walkers give the same outcome, the three
fields and the cursor 13. The value 3, (12, 1, 9) of declared length 4,
followed by three more bytes, holds sub-type 12 with its value in the buffer:
both walkers end normally with the cursor at 10 (the extended one has decoded
one more field). The value 3, (12, 1) at the end of the buffer: the extended
walker throws. -/
theorem burst_walkers_agree_witness :
    no_extended_sub_type [0, 0, 0, 0, 4, 7, 3, 1, 1, 2, 2, 1, 1] (6 + 7) (6 + 1) ∧
    ucd_switch [0, 0, 0, 0, 4, 7, 3, 1, 1, 2, 2, 1, 1] 4 7 6 ucd_state.init =
      ucd_switch [0, 0, 0, 0, 4, 7, 3, 1, 1, 2, 2, 1, 1] 5 7 6 ucd_state.init ∧
    ucd_switch [0, 0, 0, 0, 4, 7, 3, 1, 1, 2, 2, 1, 1] 5 7 6 ucd_state.init =
      outcome.ok 13
        { col_info := ""
          tree :=
            [tree_op.item tlv_tree hf_docsis_ucd_iuc 6 1 (fvalue.uinteger 3),
             tree_op.item tlv_tree hf_docsis_burst_mod_type 9 1 (fvalue.uinteger 2),
             tree_op.item tlv_tree hf_docsis_burst_diff_encoding 12 1 (fvalue.uinteger 1)]
          expert := []
          reads := [6, 7, 8, 9, 10, 11, 12] } ∧
    ¬ extended_overrun [0, 0, 0, 0, 5, 4, 3, 12, 1, 9, 0, 0, 0] (6 + 4) (6 + 1) ∧
    ((∃ q s4 s5,
        ucd_switch [0, 0, 0, 0, 5, 4, 3, 12, 1, 9, 0, 0, 0] 4 4 6 ucd_state.init =
          outcome.ok q s4 ∧
        ucd_switch [0, 0, 0, 0, 5, 4, 3, 12, 1, 9, 0, 0, 0] 5 4 6 ucd_state.init =
          outcome.ok q s5) ∨
      (∃ s4 s5,
        ucd_switch [0, 0, 0, 0, 5, 4, 3, 12, 1, 9, 0, 0, 0] 4 4 6 ucd_state.init =
          outcome.bounds_error s4 ∧
        ucd_switch [0, 0, 0, 0, 5, 4, 3, 12, 1, 9, 0, 0, 0] 5 4 6 ucd_state.init =
          outcome.bounds_error s5)) ∧
    ucd_switch [0, 0, 0, 0, 5, 4, 3, 12, 1, 9, 0, 0, 0] 4 4 6 ucd_state.init =
      outcome.ok 10
        { col_info := ""
          tree := [tree_op.item tlv_tree hf_docsis_ucd_iuc 6 1 (fvalue.uinteger 3)]
          expert := []
          reads := [6, 7, 8] } ∧
    ucd_switch [0, 0, 0, 0, 5, 4, 3, 12, 1, 9, 0, 0, 0] 5 4 6 ucd_state.init =
      outcome.ok 10
        { col_info := ""
          tree :=
            [tree_op.item tlv_tree hf_docsis_ucd_iuc 6 1 (fvalue.uinteger 3),
             tree_op.item tlv_tree hf_docsis_rs_int_depth 9 1 (fvalue.uinteger 9)]
          expert := []
          reads := [6, 7, 8, 9] } ∧
    extended_overrun [0, 0, 0, 0, 5, 3, 3, 12, 1] (6 + 3) (6 + 1) ∧
    (∃ s5, ucd_switch [0, 0, 0, 0, 5, 3, 3, 12, 1] 5 3 6 ucd_state.init =
      outcome.bounds_error s5) :=
  have hn : no_extended_sub_type [0, 0, 0, 0, 4, 7, 3, 1, 1, 2, 2, 1, 1] (6 + 7) (6 + 1) :=
    no_extended_sub_type.step 7 1 1 (by decide) rfl rfl (by decide) (by decide) (by decide)
      (no_extended_sub_type.step 10 2 1 (by decide) rfl rfl (by decide) (by decide) (by decide)
        (no_extended_sub_type.done 13 (by decide)))
  have ho : extended_overrun [0, 0, 0, 0, 5, 3, 3, 12, 1] (6 + 3) (6 + 1) :=
    extended_overrun.here 7 12 1 (by decide) rfl rfl (Or.inl rfl) rfl (by decide)
  have hno : ¬ extended_overrun [0, 0, 0, 0, 5, 4, 3, 12, 1, 9, 0, 0, 0] (6 + 4) (6 + 1) :=
    not_overrun_of_length (by decide)
  ⟨hn,
    (burst_walkers_agree [0, 0, 0, 0, 4, 7, 3, 1, 1, 2, 2, 1, 1] 7 6
      ucd_state.init ucd_state.init ucd_state.init).2.2.2 hn,
    rfl,
    hno,
    (burst_walkers_agree [0, 0, 0, 0, 5, 4, 3, 12, 1, 9, 0, 0, 0] 4 6
      ucd_state.init ucd_state.init ucd_state.init).1 hno,
    rfl, rfl,
    ho,
    ((burst_walkers_agree [0, 0, 0, 0, 5, 3, 3, 12, 1] 3 6
      ucd_state.init ucd_state.init ucd_state.init).2.1 ho).1⟩

/-! ## The overrun of a burst descriptor (C21) -/

/-- C21. A burst descriptor record (type 4 or 5) at `o` with declared length
`len`: it is dissected normally or the bounds exception is thrown, and when it
is dissected normally the cursor `q` after the record satisfies
`o + 2 + len ≤ q`, `o + 3 ≤ q` and `q ≤ o + 2 + len + 256`. -/
theorem burst_descriptor_overrun_bounded (tvb : tvbuff_t) (o : Nat) (t len : guint8)
    (st : ucd_state)
    (ht : t.val = 4 ∨ t.val = 5)
    (h0 : tvb[o]? = some t) (h1 : tvb[o + 1]? = some len) :
    (∃ q st', dissect_tlv tvb o st = outcome.ok q st' ∧
      o + 2 + len.val ≤ q ∧ o + 3 ≤ q ∧ q ≤ o + 2 + len.val + 256) ∨
    ∃ st', dissect_tlv tvb o st = outcome.bounds_error st' := by
  rw [dissect_tlv_header h0 h1]
  rcases ucd_switch_burst_bounds tvb t.val len.val (o + 2) ht (tlv_header st o t.val len.val)
    with ⟨q, st', hq, h1, h2, h3⟩ | h
  · exact Or.inl ⟨q, st', hq, h1, by omega, h3⟩
  · exact Or.inr h

/-- C21, witness: a legacy burst descriptor at offset 4 with declared length 2
whose second value byte is the sub-type 0; the byte after the record is taken
as the sub-length 255 and the cursor is left at 264 = 4 + 2 + 2 + 256, the
upper bound. -/
theorem burst_descriptor_overrun_bounded_witness :
    ([0, 0, 0, 0, 4, 2, 3, 0, 255] : tvbuff_t)[4]? = some 4 ∧
    ([0, 0, 0, 0, 4, 2, 3, 0, 255] : tvbuff_t)[4 + 1]? = some 2 ∧
    ((∃ q st', dissect_tlv [0, 0, 0, 0, 4, 2, 3, 0, 255] 4 ucd_state.init = outcome.ok q st' ∧
        4 + 2 + 2 ≤ q ∧ 4 + 3 ≤ q ∧ q ≤ 4 + 2 + 2 + 256) ∨
      ∃ st', dissect_tlv [0, 0, 0, 0, 4, 2, 3, 0, 255] 4 ucd_state.init =
        outcome.bounds_error st') ∧
    dissect_tlv [0, 0, 0, 0, 4, 2, 3, 0, 255] 4 ucd_state.init =
      outcome.ok 264
        { col_info := ""
          tree :=
            [tree_op.subtree 4 (-1) "Burst Descriptor",
             tree_op.item tlv_tree hf_docsis_ucd_type 4 1 (fvalue.uinteger 4),
             tree_op.item tlv_tree hf_docsis_ucd_length 5 1 (fvalue.uinteger 2),
             tree_op.set_len 4,
             tree_op.item tlv_tree hf_docsis_ucd_iuc 6 1 (fvalue.uinteger 3)]
          expert := []
          reads := [4, 5, 6, 7, 8] } :=
  ⟨rfl, rfl,
    burst_descriptor_overrun_bounded [0, 0, 0, 0, 4, 2, 3, 0, 255] 4 4 2
      ucd_state.init (Or.inl rfl) rfl rfl,
    rfl⟩

/-! ## No tree requested (C22) -/

/-- C22. Without a tree, `dissect_ucd` on a buffer whose first byte is `b0`,
whatever follows, ends normally: it has read byte 0 only, written the summary
text of `b0` in the info column, added no tree item (no header field, no TLV)
and no expert info, and never assigned the cursor. On the empty buffer the
read of byte 0 throws the bounds exception and nothing is written. The
two-byte buffer 7, 8 throws the bounds exception with a tree and ends normally
without one; the message with a Frequency TLV of length 3 gets an expert info
with a tree and none without. -/
theorem no_tree_summary_only (b0 : guint8) (rest : tvbuff_t) (st : ucd_state) :
    dissect_ucd (b0 :: rest) false st =
      outcome.ok none
        { col_info :=
            if b0.val > 0 then
              printf_u "UCD Message:  Channel ID = %u (U%u)" [b0.val, b0.val - 1]
            else printf_u "UCD Message:  Channel ID = %u (Telephony Return)" [b0.val]
          tree := st.tree
          expert := st.expert
          reads := st.reads ++ [0] } ∧
    dissect_ucd [] false st = outcome.bounds_error st ∧
    dissect_ucd [7, 8] false ucd_state.init =
      outcome.ok none
        { col_info := "UCD Message:  Channel ID = 7 (U6)", tree := [], expert := [],
          reads := [0] } ∧
    (∃ st', dissect_ucd [7, 8] true ucd_state.init = outcome.bounds_error st') ∧
    dissect_ucd [0, 0, 0, 0, 2, 3, 1, 1, 44] false ucd_state.init =
      outcome.ok none
        { col_info := "UCD Message:  Channel ID = 0 (Telephony Return)", tree := [],
          expert := [], reads := [0] } ∧
    (dissect_ucd [0, 0, 0, 0, 2, 3, 1, 1, 44] true ucd_state.init).state.expert =
      [{ format := "Wrong TLV length: %u", arg := 3 }] := by
  refine ⟨?_, ?_, rfl, ⟨_, rfl⟩, rfl, rfl⟩
  · have h0 : (b0 :: rest)[0]? = some b0 := by simp
    unfold dissect_ucd
    rw [dissector_bind_ok _ (tvb_get_guint8_some h0 st)]
    by_cases hb : b0.val > 0 <;>
      simp [hb, dissector_bind_apply]
  · exact dissector_bind_err _ (tvb_get_guint8_none (by simp) st)
